import Mathlib

/-!
# BridgeBuilder: the pin/slab graph and the edit/simulate orchestration

A shallow embedding of `positioning.h`, `pin.h`, `slab.h`, `slab_structure.h`,
`physics.h` and `bridge.h`.

Conventions of the embedding

* `float` values are rationals: every value is finite, arithmetic and comparisons
  are exact.
* The two linked lists of the bridge are Lean lists in insertion order.  A `Pin*`
  is the position of the pin in the list (`Option Nat`, `none` for `NULL`): pins
  are only ever appended, or released all at once together with every slab.
* `atan2` and `sqrt` come from the C math library and are taken as a parameter
  (`Libm`).
* The Box2D world behind `Physics` is a log of the creation requests it served,
  plus the joints destroyed so far.  A `void*` returned by the engine is a
  `Handle`: the world that issued it and the position of the request in the log.
* What the engine computes during an advance (the new pose of every body, the
  reaction force of every joint) is an input of `Step`, the `Frame`.
* A function returns `none` where the C++ would dereference a null or dangling
  pointer, or index the box buffer out of bounds.
* Drawing requests have no effect on the bridge and are left out, except for the
  pointers they dereference.
* `slab_support.h` is not among the sources; `SlabSupport` follows the
  specification and mirrors `SlabStructure`.
-/

namespace BridgeBuilder

/-! ## positioning.h -/

/-- The class `Positioning`: `x[Original]`, `x[Current]`, and likewise for `y`
and `angle`. -/
structure Positioning where
  xOriginal : ℚ
  xCurrent : ℚ
  yOriginal : ℚ
  yCurrent : ℚ
  angleOriginal : ℚ
  angleCurrent : ℚ
deriving DecidableEq, Repr

namespace Positioning

/-- The default constructor `Positioning()`: every component is zero. -/
def new : Positioning := ⟨0, 0, 0, 0, 0, 0⟩

/-- The function `Positioning::Initialise`. -/
def Initialise (_t : Positioning) (X Y Angle : ℚ) : Positioning :=
  { xOriginal := X, xCurrent := X, yOriginal := Y, yCurrent := Y,
    angleOriginal := Angle, angleCurrent := Angle }

/-- The function `Positioning::Set`. -/
def Set (t : Positioning) (X Y Angle : ℚ) : Positioning :=
  { t with xCurrent := X, yCurrent := Y, angleCurrent := Angle }

/-- The function `Positioning::Reset`. -/
def Reset (t : Positioning) : Positioning :=
  { t with xCurrent := t.xOriginal, yCurrent := t.yOriginal, angleCurrent := t.angleOriginal }

/-- The function `Positioning::X`. -/
def X (t : Positioning) : ℚ := t.xCurrent

/-- The function `Positioning::Y`. -/
def Y (t : Positioning) : ℚ := t.yCurrent

/-- The function `Positioning::Angle`. -/
def Angle (t : Positioning) : ℚ := t.angleCurrent

/-- The current pose equals the rest pose, in x, y and angle. -/
def AtRest (t : Positioning) : Prop :=
  t.xCurrent = t.xOriginal ∧ t.yCurrent = t.yOriginal ∧ t.angleCurrent = t.angleOriginal

instance (t : Positioning) : Decidable t.AtRest := by
  unfold AtRest; infer_instance

end Positioning

/-! ## The engine handles -/

/-- A non-null `void*` handed out by the physics engine: the world that issued it
and the position, in that world, of the request that created the object. -/
structure Handle where
  world : Nat
  index : Nat
deriving DecidableEq, Repr

/-- The C math library functions used by `Slab::initialise`. -/
structure Libm where
  atan2 : ℚ → ℚ → ℚ
  sqrt : ℚ → ℚ

/-- The C function `fabs`. -/
def fabs (a : ℚ) : ℚ := |a|

/-! ## pin.h -/

/-- The class `Pin`, without its `Next` link. -/
structure Pin where
  Transform : Positioning
  Fixed : Bool
  PhysicBody : Option Handle
deriving DecidableEq, Repr

/-- The constructor `Pin(X, Y, Fixed)`, through `Pin::initialise`. -/
def Pin.new (X Y : ℚ) (Fixed : Bool) : Pin :=
  { Fixed := Fixed, PhysicBody := none, Transform := Positioning.new.Initialise X Y 0 }

/-! ## slab.h, slab_structure.h -/

/-- The enumeration `Slab_Purpose`. -/
inductive Slab_Purpose where
  | Invalid
  | Support
  | Structure
deriving DecidableEq, Repr

/-- The class `Slab`, without its `Next` link. -/
structure Slab where
  Purpose : Slab_Purpose
  Left : Option Nat
  Right : Option Nat
  Transform : Positioning
  PhysicBody : Option Handle
  Length : ℚ
deriving DecidableEq, Repr

/-- The function `Slab::initialise`.  The two pins are read through the pin list. -/
def Slab.initialise (m : Libm) (pins : List Pin) (s : Slab)
    (Left Right : Option Nat) (Body : Option Handle) : Option Slab :=
  let s := { s with Left := Left, Right := Right, PhysicBody := Body }
  match Left, Right with
  | some l, some r =>
    match pins[l]?, pins[r]? with
    | some L, some R =>
      let differenceX := R.Transform.X - L.Transform.X
      let differenceY := R.Transform.Y - L.Transform.Y
      let angle := m.atan2 differenceY differenceX
      some { s with
        Length := m.sqrt (differenceX * differenceX + differenceY * differenceY)
        Transform := s.Transform.Initialise (L.Transform.X + differenceX / 2)
          (L.Transform.Y + differenceY / 2) angle }
    | _, _ => none
  | _, _ => some s

/-- The constructor `Slab(Left, Right)`.  The source leaves `Length` unset before
`initialise` runs; it starts at zero here. -/
def Slab.new (m : Libm) (pins : List Pin) (Left Right : Option Nat) : Option Slab :=
  Slab.initialise m pins
    { Purpose := .Invalid, Left := none, Right := none, Transform := Positioning.new,
      PhysicBody := none, Length := 0 }
    Left Right none

/-- The function `Slab::Recalculate`. -/
def Slab.Recalculate (m : Libm) (pins : List Pin) (s : Slab) : Option Slab :=
  Slab.initialise m pins s s.Left s.Right s.PhysicBody

/-- The constructor `SlabStructure(Left, Right)`. -/
def SlabStructure.new (m : Libm) (pins : List Pin) (Left Right : Option Nat) : Option Slab :=
  (Slab.new m pins Left Right).map fun s => { s with Purpose := .Structure }

/-- Modelled from the spec: the constructor `SlabSupport(Left, Right)` of
`slab_support.h`, which `bridge.h` includes.  A Slab is one of two variants
distinguished by `Purpose`, fixed at construction: this is the `Support` one, built
like `SlabStructure`. -/
def SlabSupport.new (m : Libm) (pins : List Pin) (Left Right : Option Nat) : Option Slab :=
  (Slab.new m pins Left Right).map fun s => { s with Purpose := .Support }

/-! ## physics.h -/

/-- A creation request served by the engine, as `Physics` issues it. -/
inductive Request where
  | AddPin (X Y : ℚ) (Fixed : Bool)
  | AddStructure (Left Right : Handle)
  | AddSupport (Left Right : Handle)
  | AddBox (X Y Mass : ℚ)
deriving DecidableEq, Repr

/-- A joint of the world: the request that created it and, for the two revolute
joints of an `AddStructure`, whether it is the second one (the right end).  The
distance joint of an `AddSupport` is the first and only joint of its request. -/
structure JointId where
  request : Nat
  second : Bool
deriving DecidableEq, Repr

/-- The `b2World` behind `Physics::world`: which allocation it is, the requests
served in order, and the joints destroyed so far. -/
structure b2World where
  id : Nat
  requests : List Request
  destroyed : List JointId
deriving DecidableEq, Repr

/-- What the engine reports after an advance: the transform of the body created
by each request, and the magnitude of the reaction force of each joint. -/
structure Frame where
  X : Nat → ℚ
  Y : Nat → ℚ
  Angle : Nat → ℚ
  Force : JointId → ℚ

namespace b2World

/-- The handle points to a body of this world (`AddPin`, `AddStructure` and
`AddBox` return bodies). -/
def isBody (w : b2World) (h : Handle) : Bool :=
  h.world == w.id &&
    match w.requests[h.index]? with
    | some (.AddPin _ _ _) => true
    | some (.AddStructure _ _) => true
    | some (.AddBox _ _ _) => true
    | _ => false

/-- The handle points to a distance joint of this world that still exists. -/
def isJoint (w : b2World) (h : Handle) : Bool :=
  h.world == w.id &&
    (match w.requests[h.index]? with
     | some (.AddSupport _ _) => true
     | _ => false) &&
    !(w.destroyed.contains ⟨h.index, false⟩)

/-- The joints attached to a body among the requests from position `i` on. -/
def jointsFrom (body : Nat) : Nat → List Request → List JointId
  | _, [] => []
  | i, .AddStructure L R :: rs =>
    (if L.index = body ∨ i = body then [⟨i, false⟩] else []) ++
      (if R.index = body ∨ i = body then [⟨i, true⟩] else []) ++ jointsFrom body (i + 1) rs
  | i, .AddSupport L R :: rs =>
    (if L.index = body ∨ R.index = body then [⟨i, false⟩] else []) ++ jointsFrom body (i + 1) rs
  | i, _ :: rs => jointsFrom body (i + 1) rs

/-- The joint list of a body, `b2Body::GetJointList`: the attached joints that
have not been destroyed. -/
def GetJointList (w : b2World) (body : Nat) : List JointId :=
  (jointsFrom body 0 w.requests).filter fun j => !(w.destroyed.contains j)

end b2World

/-- The class `Physics`: the `world` pointer, and how many worlds were allocated
so far (which gives each `new b2World` its identity). -/
structure Physics where
  world : Option b2World
  created : Nat
deriving DecidableEq, Repr

namespace Physics

/-- The function `Physics::Destroy`. -/
def Destroy (p : Physics) : Physics × Bool :=
  ({ p with world := none }, false)

/-- The function `Physics::Create`. -/
def Create (p : Physics) : Physics × Bool :=
  let p := p.Destroy.1
  ({ world := some { id := p.created, requests := [], destroyed := [] },
     created := p.created + 1 }, true)

/-- The function `Physics::Step`: the advance itself happens inside the engine, its outcome is
the `Frame` the read-back functions are given. -/
def Step (p : Physics) (_f : Frame) : Physics := p

/-- The function `Physics::GetTransform`. -/
def GetTransform (p : Physics) (f : Frame) (Body : Option Handle) (Result : Positioning) :
    Option Positioning :=
  match Body, p.world with
  | none, _ => some Result
  | _, none => some Result
  | some h, some w =>
    if w.isBody h then some (Result.Set (f.X h.index) (f.Y h.index) (f.Angle h.index))
    else none

/-- The function `Physics::HandleSupportForce`: the new engine state, the new value of the
`Joint` reference and the new value of the `Result` reference. -/
def HandleSupportForce (p : Physics) (f : Frame) (Joint : Option Handle)
    (Result Maximum : ℚ) : Option (Physics × Option Handle × ℚ) :=
  match Joint, p.world with
  | none, _ => some (p, Joint, Result)
  | _, none => some (p, Joint, Result)
  | some h, some w =>
    if w.isJoint h then
      let Result := f.Force ⟨h.index, false⟩
      if Result ≥ Maximum then
        some ({ p with world := some { w with destroyed := w.destroyed ++ [⟨h.index, false⟩] } },
          none, Maximum)
      else some (p, some h, Result)
    else none

/-- The function `Physics::HandlePinForce`. -/
def HandlePinForce (p : Physics) (f : Frame) (Body : Option Handle) (Maximum : ℚ) :
    Option Physics :=
  match Body, p.world with
  | none, _ => some p
  | _, none => some p
  | some h, some w =>
    if w.isBody h then
      let Maximum := Maximum * Maximum
      let broken := (w.GetJointList h.index).filter fun j =>
        decide (f.Force j * f.Force j > Maximum)
      some { p with world := some { w with destroyed := w.destroyed ++ broken } }
    else none

/-- The function `Physics::AddPin`: `world` is dereferenced without a null check. -/
def AddPin (p : Physics) (X Y : ℚ) (Fixed : Bool) : Option (Physics × Handle) :=
  match p.world with
  | none => none
  | some w =>
    some ({ p with world := some { w with requests := w.requests ++ [.AddPin X Y Fixed] } },
      ⟨w.id, w.requests.length⟩)

/-- The function `Physics::AddStructure`: both bodies are dereferenced; the result is the new
rectangle body. -/
def AddStructure (p : Physics) (Left Right : Option Handle) : Option (Physics × Handle) :=
  match p.world, Left, Right with
  | some w, some l, some r =>
    if w.isBody l && w.isBody r then
      some ({ p with world := some { w with requests := w.requests ++ [.AddStructure l r] } },
        ⟨w.id, w.requests.length⟩)
    else none
  | _, _, _ => none

/-- The function `Physics::AddSupport`: both bodies are dereferenced; the result is the new
distance joint. -/
def AddSupport (p : Physics) (Left Right : Option Handle) : Option (Physics × Handle) :=
  match p.world, Left, Right with
  | some w, some l, some r =>
    if w.isBody l && w.isBody r then
      some ({ p with world := some { w with requests := w.requests ++ [.AddSupport l r] } },
        ⟨w.id, w.requests.length⟩)
    else none
  | _, _, _ => none

/-- The function `Physics::AddBox`. -/
def AddBox (p : Physics) (X Y Mass : ℚ) : Physics × Option Handle :=
  match p.world with
  | none => (p, none)
  | some w =>
    ({ p with world := some { w with requests := w.requests ++ [.AddBox X Y Mass] } },
      some ⟨w.id, w.requests.length⟩)

end Physics

/-! ## bridge.h -/

/-- The constant `BREAK_AT_FORCE`. -/
def BREAK_AT_FORCE : ℚ := 5 / 2

/-- The constant `MAX_BLOCKS`. -/
def MAX_BLOCKS : Nat := 100

/-- The enumeration `Bridge_EditMode`. -/
inductive Bridge_EditMode where
  | Support
  | Structure
  | Car
deriving DecidableEq, Repr

/-- The class `Bridge`. -/
structure Bridge where
  slabs : List Slab
  pins : List Pin
  physics : Physics
  startPin : Option Nat
  editMode : Bridge_EditMode
  running : Bool
  boxes : List (Option Handle)
  boxCount : Int
deriving DecidableEq, Repr

/-- The state the constructor `Bridge()` leaves: both lists empty, `startPin`
null, no world; the other members hold whatever the memory held. -/
def Bridge.Constructed (b : Bridge) : Prop :=
  b.slabs = [] ∧ b.pins = [] ∧ b.startPin = none ∧ b.physics.world = none ∧
    b.boxes.length = MAX_BLOCKS

/-- The test of the loop of `Bridge::getPinAt`, on the accessors of the pin. -/
def Pin.isAt (p : Pin) (X Y Accuracy : ℚ) : Bool :=
  decide (fabs (p.Transform.X - X) ≤ Accuracy) && decide (fabs (p.Transform.Y - Y) ≤ Accuracy)

/-- The loop of `Bridge::getPinAt`: the first pin of the list that passes the
test, or null. -/
def findPin (X Y Accuracy : ℚ) : List Pin → Option Nat
  | [] => none
  | p :: rest => if p.isAt X Y Accuracy then some 0 else (findPin X Y Accuracy rest).map (· + 1)

namespace Bridge

/-- The function `Bridge::getPinAt`. -/
def getPinAt (b : Bridge) (X Y Accuracy : ℚ) : Option Nat :=
  findPin X Y Accuracy b.pins

/-- The function `Bridge::addPin`; `new` does not return null. -/
def addPin (b : Bridge) (X Y : ℚ) : Bridge × Nat :=
  match b.getPinAt X Y (1 / 2) with
  | some pin => (b, pin)
  | none => ({ b with pins := b.pins ++ [Pin.new X Y false] }, b.pins.length)

/-- The function `Bridge::addSlab`: the new bridge and the slab returned (its position in the
slab list, or null). -/
def addSlab (m : Libm) (b : Bridge) (X1 Y1 X2 Y2 : ℚ) (Purpose : Slab_Purpose) :
    Option (Bridge × Option Nat) :=
  let (b, left) := b.addPin X1 Y1
  let (b, right) := b.addPin X2 Y2
  match Purpose with
  | .Support =>
    (SlabSupport.new m b.pins (some left) (some right)).map fun slab =>
      ({ b with slabs := b.slabs ++ [slab] }, some b.slabs.length)
  | .Structure =>
    (SlabStructure.new m b.pins (some left) (some right)).map fun slab =>
      ({ b with slabs := b.slabs ++ [slab] }, some b.slabs.length)
  | .Invalid => some (b, none)

/-- The pin loop of `Bridge::createSimulation`. -/
def createPins : Physics → List Pin → Option (Physics × List Pin)
  | ph, [] => some (ph, [])
  | ph, pin :: rest =>
    let t := pin.Transform.Reset
    match ph.AddPin t.X t.Y pin.Fixed with
    | none => none
    | some (ph, h) =>
      match createPins ph rest with
      | none => none
      | some (ph, rest) => some (ph, { pin with Transform := t, PhysicBody := some h } :: rest)

/-- The `PhysicBody` read through a `Pin*`, as in `slab->Left->PhysicBody`. -/
def pinBody (pins : List Pin) (pin : Option Nat) : Option (Option Handle) :=
  match pin with
  | none => none
  | some i => (pins[i]?).map fun p => p.PhysicBody

/-- The body of the slab loop of `Bridge::createSimulation`, for one slab. -/
def createSlab (m : Libm) (pins : List Pin) (ph : Physics) (slab : Slab) :
    Option (Physics × Slab) :=
  match slab.Recalculate m pins with
  | none => none
  | some slab =>
    match slab.Purpose with
    | .Structure =>
      match pinBody pins slab.Left, pinBody pins slab.Right with
      | some l, some r =>
        (ph.AddStructure l r).map fun (ph, h) => (ph, { slab with PhysicBody := some h })
      | _, _ => none
    | .Support =>
      match pinBody pins slab.Left, pinBody pins slab.Right with
      | some l, some r =>
        (ph.AddSupport l r).map fun (ph, h) => (ph, { slab with PhysicBody := some h })
      | _, _ => none
    | .Invalid => some (ph, slab)

/-- The slab loop of `Bridge::createSimulation`. -/
def createSlabs (m : Libm) (pins : List Pin) : Physics → List Slab → Option (Physics × List Slab)
  | ph, [] => some (ph, [])
  | ph, slab :: rest =>
    match createSlab m pins ph slab with
    | none => none
    | some (ph, slab) =>
      match createSlabs m pins ph rest with
      | none => none
      | some (ph, rest) => some (ph, slab :: rest)

/-- The function `Bridge::createSimulation`. -/
def createSimulation (m : Libm) (b : Bridge) : Option Bridge :=
  let ph := b.physics.Create.1
  match createPins ph b.pins with
  | none => none
  | some (ph, pins) =>
    match createSlabs m pins ph b.slabs with
    | none => none
    | some (ph, slabs) =>
      some { b with physics := ph, pins := pins, slabs := slabs, running := true }

/-- The function `Bridge::Destroy`. -/
def Destroy (b : Bridge) : Bridge × Bool :=
  ({ b with slabs := [], pins := [], startPin := none, editMode := .Structure,
            running := false }, false)

/-- The statement `addPin(X, Y)->Fixed = true` of `Create` and `CreateTestBridge`. -/
def addFixedPin (b : Bridge) (X Y : ℚ) : Option Bridge :=
  let (b, pin) := b.addPin X Y
  (b.pins[pin]?).map fun p => { b with pins := b.pins.set pin { p with Fixed := true } }

/-- The function `Bridge::Create`. -/
def Create (b : Bridge) : Option (Bridge × Bool) :=
  let b := b.Destroy.1
  match b.addFixedPin (-20) 0 with
  | none => none
  | some b =>
    match b.addFixedPin 20 0 with
    | none => none
    | some b => (b.addFixedPin (-10) (-10)).map fun b => (b, true)

/-- The slab loop of `Bridge::Step`.  The line of a support is drawn through
`slab->Left` and `slab->Right`. -/
def stepSlabs (f : Frame) (running : Bool) (pins : List Pin) :
    Physics → List Slab → Option (Physics × List Slab)
  | ph, [] => some (ph, [])
  | ph, slab :: rest =>
    match slab.Purpose with
    | .Structure =>
      match ph.GetTransform f slab.PhysicBody slab.Transform with
      | none => none
      | some t =>
        match stepSlabs f running pins ph rest with
        | none => none
        | some (ph, rest) => some (ph, { slab with Transform := t } :: rest)
    | .Support =>
      match ph.HandleSupportForce f slab.PhysicBody 0 BREAK_AT_FORCE with
      | none => none
      | some (ph, joint, _force) =>
        let slab := { slab with PhysicBody := joint }
        if (running = false ∨ slab.PhysicBody ≠ none) ∧
            ((pinBody pins slab.Left).isNone ∨ (pinBody pins slab.Right).isNone) then none
        else
          match stepSlabs f running pins ph rest with
          | none => none
          | some (ph, rest) => some (ph, slab :: rest)
    | .Invalid =>
      match stepSlabs f running pins ph rest with
      | none => none
      | some (ph, rest) => some (ph, slab :: rest)

/-- The pin loop of `Bridge::Step`. -/
def stepPins (f : Frame) : Physics → List Pin → Option (Physics × List Pin)
  | ph, [] => some (ph, [])
  | ph, pin :: rest =>
    match ph.HandlePinForce f pin.PhysicBody BREAK_AT_FORCE with
    | none => none
    | some ph =>
      match ph.GetTransform f pin.PhysicBody pin.Transform with
      | none => none
      | some t =>
        match stepPins f ph rest with
        | none => none
        | some (ph, rest) => some (ph, { pin with Transform := t } :: rest)

/-- The box loop of `Bridge::Step`: the first `n` slots of the buffer are read
and their transforms fetched into a local. -/
def stepBoxes (f : Frame) (ph : Physics) (boxes : List (Option Handle)) : Nat → Option Unit
  | 0 => some ()
  | n + 1 =>
    match stepBoxes f ph boxes n, boxes[n]? with
    | some _, some h => (ph.GetTransform f h Positioning.new).map fun _ => ()
    | _, _ => none

/-- The function `Bridge::Step`; the frame holds what the engine reports after the advance. -/
def Step (b : Bridge) (f : Frame) : Option Bridge :=
  let ph := b.physics.Step f
  match stepSlabs f b.running b.pins ph b.slabs with
  | none => none
  | some (ph, slabs) =>
    match stepPins f ph b.pins with
    | none => none
    | some (ph, pins) =>
      if b.running then
        (stepBoxes f ph b.boxes b.boxCount.toNat).map fun _ =>
          { b with physics := ph, slabs := slabs, pins := pins }
      else some { b with physics := ph, slabs := slabs, pins := pins }

/-- The function `Bridge::Stop`. -/
def Stop (b : Bridge) : Bridge :=
  { b with
    physics := b.physics.Destroy.1
    slabs := b.slabs.map fun slab => { slab with Transform := slab.Transform.Reset }
    pins := b.pins.map fun pin => { pin with Transform := pin.Transform.Reset }
    boxes := List.replicate MAX_BLOCKS none
    boxCount := 0
    running := false }

/-- The function `Bridge::Start`. -/
def Start (m : Libm) (b : Bridge) : Option Bridge :=
  createSimulation m b.Stop

/-- The function `Bridge::SetEditMode`. -/
def SetEditMode (b : Bridge) (EditMode : Bridge_EditMode) : Bridge :=
  { b with editMode := EditMode }

/-- The function `Bridge::HandleTouch`. -/
def HandleTouch (m : Libm) (b : Bridge) (X Y : ℚ) : Option Bridge :=
  match b.editMode with
  | .Car =>
    if b.running ∧ b.boxCount < MAX_BLOCKS then
      let (ph, box) := b.physics.AddBox X Y 10
      if 0 ≤ b.boxCount then
        some { b with physics := ph, boxes := b.boxes.set b.boxCount.toNat box,
                      boxCount := b.boxCount + 1 }
      else none
    else some b
  | _ =>
    match b.startPin with
    | none => some { b with startPin := b.getPinAt X Y (1 / 2) }
    | some start =>
      let (b, pin) := b.addPin X Y
      if pin ≠ start then
        match b.pins[start]?, b.pins[pin]? with
        | some s, some p =>
          (addSlab m b s.Transform.X s.Transform.Y p.Transform.X p.Transform.Y
            (if b.editMode = .Structure then .Structure else .Support)).map fun (b, _) =>
            { b with startPin := none }
        | _, _ => none
      else some b

/-- The body of the loop of `Bridge::CreateTestBridge`, run `n` more times. -/
def testSegments (m : Libm) (slabWidth supportHeight : ℚ) :
    Nat → Nat → ℚ → Bridge → Option Bridge
  | 0, _, _, b => some b
  | n + 1, index, left, b =>
    let right := left + slabWidth
    let middle := left + (right - left) / 2
    match addSlab m b left 0 right 0 .Structure with
    | none => none
    | some (b, _) =>
      match addSlab m b left 0 middle supportHeight .Support with
      | none => none
      | some (b, _) =>
        match addSlab m b middle supportHeight right 0 .Support with
        | none => none
        | some (b, _) =>
          match (if index > 0 then
              addSlab m b middle supportHeight (middle - slabWidth) supportHeight .Support
            else some (b, none)) with
          | none => none
          | some (b, _) =>
            testSegments m slabWidth supportHeight n (index + 1) (left + slabWidth) b

/-- The function `Bridge::CreateTestBridge`. -/
def CreateTestBridge (m : Libm) (b : Bridge) : Option Bridge :=
  let slabCount : Nat := 5
  let slabWidth : ℚ := 8
  let supportHeight : ℚ := 5
  let left : ℚ := -slabWidth * (slabCount / 2)
  let right : ℚ := slabWidth * (slabCount / 2)
  let b := b.Destroy.1
  match b.addFixedPin left 0 with
  | none => none
  | some b =>
    match b.addFixedPin right 0 with
    | none => none
    | some b => testSegments m slabWidth supportHeight slabCount 0 left b

end Bridge

/-! ## Sequences of public operations -/

/-- The public operations of `Bridge`. -/
inductive Op where
  | Create
  | Destroy
  | CreateTestBridge
  | Start
  | Stop
  | Step (f : Frame)
  | SetEditMode (EditMode : Bridge_EditMode)
  | HandleTouch (X Y : ℚ)

/-- One public operation on a bridge. -/
def Op.apply (m : Libm) : Op → Bridge → Option Bridge
  | .Create, b => b.Create.map fun r => r.1
  | .Destroy, b => some b.Destroy.1
  | .CreateTestBridge, b => b.CreateTestBridge m
  | .Start, b => b.Start m
  | .Stop, b => some b.Stop
  | .Step f, b => b.Step f
  | .SetEditMode e, b => some (b.SetEditMode e)
  | .HandleTouch X Y, b => b.HandleTouch m X Y

/-- A sequence of public operations, first to last. -/
def run (m : Libm) : List Op → Bridge → Option Bridge
  | [], b => some b
  | op :: ops, b =>
    match op.apply m b with
    | none => none
    | some b => run m ops b

/-- The operation is a touch handled in Structure or Support mode while the
simulation runs. -/
def Op.editsWhileRunning (op : Op) (b : Bridge) : Prop :=
  match op with
  | .HandleTouch _ _ => b.editMode ≠ .Car ∧ b.running = true
  | _ => False

/-- The states reachable from `Create()` on a freshly constructed bridge by public
operations that satisfy `ok` in the state they are applied to. -/
inductive ReachableVia (m : Libm) (ok : Op → Bridge → Prop) : Bridge → Prop where
  | create (b₀ b : Bridge) (r : Bool) :
      b₀.Constructed → b₀.Create = some (b, r) → ReachableVia m ok b
  | step (b b' : Bridge) (op : Op) :
      ReachableVia m ok b → ok op b → op.apply m b = some b' → ReachableVia m ok b'

/-- The states reachable from `Create()` by any sequence of public operations. -/
def Reachable (m : Libm) (b : Bridge) : Prop :=
  ReachableVia m (fun _ _ => True) b

/-- The states reachable from `Create()` when touches in Structure or Support mode
are only ever handled while `running` is false. -/
def ReachableEditing (m : Libm) (b : Bridge) : Prop :=
  ReachableVia m (fun op b => ¬ op.editsWhileRunning b) b

/-! ## Properties of bridge states -/

/-- The test of `Bridge::getPinAt`, on the rest position of the pin instead of the
current one. -/
def Pin.restIsAt (p : Pin) (X Y Accuracy : ℚ) : Bool :=
  decide (fabs (p.Transform.xOriginal - X) ≤ Accuracy) &&
    decide (fabs (p.Transform.yOriginal - Y) ≤ Accuracy)

/-- Both ends of the slab are non-null and point into a pin list of `n` pins. -/
def Slab.Attached (n : Nat) (s : Slab) : Prop :=
  match s.Left, s.Right with
  | some l, some r => l < n ∧ r < n
  | _, _ => False

instance (n : Nat) (s : Slab) : Decidable (s.Attached n) := by
  unfold Slab.Attached; split <;> infer_instance

/-- What holds in every state reachable from `Create()`. -/
structure Bridge.Inv (b : Bridge) : Prop where
  /-- Every slab is attached to two pins of the pin list. -/
  attached : ∀ s ∈ b.slabs, s.Attached b.pins.length
  /-- A non-null `startPin` is a pin of the pin list. -/
  start : ∀ i, b.startPin = some i → i < b.pins.length
  /-- Every slab is a Structure or a Support. -/
  purpose : ∀ s ∈ b.slabs, s.Purpose ≠ .Invalid
  /-- While not running, every pin and slab is at rest. -/
  atRest : b.running = false →
    (∀ p ∈ b.pins, p.Transform.AtRest) ∧ ∀ s ∈ b.slabs, s.Transform.AtRest
  /-- While not running, a world that was left behind is referenced by no pin and
  no slab. -/
  unbound : b.running = false → b.physics.world ≠ none →
    (∀ p ∈ b.pins, p.PhysicBody = none) ∧ ∀ s ∈ b.slabs, s.PhysicBody = none
  /-- Every handle held by a pin was issued by a world allocated so far. -/
  issued : ∀ p ∈ b.pins, ∀ h, p.PhysicBody = some h → h.world < b.physics.created

/-- The edit-time data of a pin: its `Fixed` flag and its rest pose. -/
def Pin.anchor (p : Pin) : Bool × ℚ × ℚ × ℚ :=
  (p.Fixed, p.Transform.xOriginal, p.Transform.yOriginal, p.Transform.angleOriginal)

/-- The edit-time data of a slab: its purpose and its two pins. -/
def Slab.edge (s : Slab) : Slab_Purpose × Option Nat × Option Nat :=
  (s.Purpose, s.Left, s.Right)

/-- The rest position of the second pin is within the snap tolerance of the rest
position of the first, on both axes. -/
def Pin.restNear (p q : Pin) : Prop :=
  fabs (q.Transform.xOriginal - p.Transform.xOriginal) ≤ 1 / 2 ∧
    fabs (q.Transform.yOriginal - p.Transform.yOriginal) ≤ 1 / 2

instance (p q : Pin) : Decidable (p.restNear q) := by
  unfold Pin.restNear; infer_instance

/-- No two pins of the list have rest positions within the snap tolerance of each
other. -/
def Separated (pins : List Pin) : Prop :=
  pins.Pairwise fun p q => ¬ p.restNear q

/-- The request `Bridge::createSimulation` makes for a slab, read off the handles
held by the pins of `pins`: none when an end is null or dangling, when a pin holds
no handle, or when the purpose is neither Structure nor Support. -/
def linkRequest (pins : List Pin) (s : Slab) : Option Request :=
  match Bridge.pinBody pins s.Left, Bridge.pinBody pins s.Right with
  | some (some l), some (some r) =>
    match s.Purpose with
    | .Structure => some (.AddStructure l r)
    | .Support => some (.AddSupport l r)
    | .Invalid => none
  | _, _ => none

/-- The edited graph of a bridge: the anchors of its pins and the edges of its
slabs, both in insertion order. -/
def Bridge.graph (b : Bridge) :
    List (Bool × ℚ × ℚ × ℚ) × List (Slab_Purpose × Option Nat × Option Nat) :=
  (b.pins.map Pin.anchor, b.slabs.map Slab.edge)

/-! ## Concrete scenarios -/

/-- A freshly constructed bridge; the members the constructor leaves unset are
given particular values. -/
def Bridge.fresh : Bridge :=
  { slabs := [], pins := [], physics := { world := none, created := 0 }, startPin := none,
    editMode := .Car, running := true, boxes := List.replicate MAX_BLOCKS none, boxCount := 7 }

/-- A math library for the scenarios: `sqrt` is exact on squares of rationals and
`atan2` is exact for a slab that runs horizontally from left to right, which is
what the scenarios build. -/
def Libm.onAxis : Libm :=
  { atan2 := fun _ _ => 0, sqrt := Rat.sqrt }

/-- A frame in which the free pin created by request 3 hangs one unit below the
fixed pin at `(-20, 0)`, the rectangle of request 4 between them, and no joint is
under load. -/
def Frame.hanging : Frame :=
  { X := fun i => if i = 1 then 20 else if i = 2 then -10 else -20
    Y := fun i => if i = 2 then -10 else if i = 3 then -1 else if i = 4 then -1 / 2 else 0
    Angle := fun i => if i = 4 then -11 / 7 else 0
    Force := fun _ => 0 }

/-- The request `Bridge::createSimulation` makes for a pin: an anchor at the rest
position of the pin, with its `Fixed` flag. -/
def Pin.request (p : Pin) : Request :=
  .AddPin p.Transform.xOriginal p.Transform.yOriginal p.Fixed

/-- The rest position of a pin. -/
def Pin.restPosition (p : Pin) : ℚ × ℚ :=
  (p.Transform.xOriginal, p.Transform.yOriginal)

/-- Every pin of the list is at rest and no two are within the snap tolerance of
each other. -/
def Calm (pins : List Pin) : Prop :=
  (∀ p ∈ pins, p.Transform.AtRest) ∧ Separated pins

/-- The three fixed pins seeded by `Create()`. -/
def Scenario.seed : List Pin :=
  [{ Transform := ⟨-20, -20, 0, 0, 0, 0⟩, Fixed := true, PhysicBody := none },
   { Transform := ⟨20, 20, 0, 0, 0, 0⟩, Fixed := true, PhysicBody := none },
   { Transform := ⟨-10, -10, -10, -10, 0, 0⟩, Fixed := true, PhysicBody := none }]

/-- The bridge after `Create()` on the fresh bridge. -/
def Scenario.created : Bridge :=
  { Bridge.fresh with pins := Scenario.seed, editMode := .Structure, running := false }

/-- The bridge after `Create()` and a tap at `(-20, 0)`: the first seeded pin is
the start pin. -/
def Scenario.tapped : Bridge :=
  { Scenario.created with startPin := some 0 }

/-- The bridge after `Create()`, a tap at `(-20, 0)` and a tap at `(-19, 0)`: a
free pin at `(-19, 0)` and a Structure slab of length one from the first seeded pin
to it. -/
def Scenario.built : Bridge :=
  { Scenario.created with
    pins := Scenario.seed ++
      [{ Transform := ⟨-19, -19, 0, 0, 0, 0⟩, Fixed := false, PhysicBody := none }]
    slabs := [{ Purpose := .Structure, Left := some 0, Right := some 3,
                Transform := ⟨-39 / 2, -39 / 2, 0, 0, 0, 0⟩, PhysicBody := none, Length := 1 }] }

/-- The world that `Start()` builds from `Scenario.built`. -/
def Scenario.world : b2World :=
  { id := 0
    requests := [.AddPin (-20) 0 true, .AddPin 20 0 true, .AddPin (-10) (-10) true,
      .AddPin (-19) 0 false, .AddStructure ⟨0, 0⟩ ⟨0, 3⟩]
    destroyed := [] }

/-- The bridge after `Start()` on `Scenario.built` and one `Step` with the frame
`Frame.hanging`: the free pin rests at `(-19, 0)` and currently is at `(-20, -1)`. -/
def Scenario.hanging : Bridge :=
  { slabs := [{ Purpose := .Structure, Left := some 0, Right := some 3,
                Transform := ⟨-39 / 2, -20, 0, -1 / 2, 0, -11 / 7⟩,
                PhysicBody := some ⟨0, 4⟩, Length := 1 }]
    pins :=
      [{ Transform := ⟨-20, -20, 0, 0, 0, 0⟩, Fixed := true, PhysicBody := some ⟨0, 0⟩ },
       { Transform := ⟨20, 20, 0, 0, 0, 0⟩, Fixed := true, PhysicBody := some ⟨0, 1⟩ },
       { Transform := ⟨-10, -10, -10, -10, 0, 0⟩, Fixed := true, PhysicBody := some ⟨0, 2⟩ },
       { Transform := ⟨-19, -20, 0, -1, 0, 0⟩, Fixed := false, PhysicBody := some ⟨0, 3⟩ }]
    physics := { world := some Scenario.world, created := 1 }
    startPin := none, editMode := .Structure, running := true
    boxes := List.replicate MAX_BLOCKS none, boxCount := 0 }

/-- The bridge after `Stop()` on `Scenario.hanging`. -/
def Scenario.stopped : Bridge :=
  { Scenario.hanging with
    slabs := [{ Purpose := .Structure, Left := some 0, Right := some 3,
                Transform := ⟨-39 / 2, -39 / 2, 0, 0, 0, 0⟩,
                PhysicBody := some ⟨0, 4⟩, Length := 1 }]
    pins :=
      [{ Transform := ⟨-20, -20, 0, 0, 0, 0⟩, Fixed := true, PhysicBody := some ⟨0, 0⟩ },
       { Transform := ⟨20, 20, 0, 0, 0, 0⟩, Fixed := true, PhysicBody := some ⟨0, 1⟩ },
       { Transform := ⟨-10, -10, -10, -10, 0, 0⟩, Fixed := true, PhysicBody := some ⟨0, 2⟩ },
       { Transform := ⟨-19, -19, 0, 0, 0, 0⟩, Fixed := false, PhysicBody := some ⟨0, 3⟩ }]
    physics := { world := none, created := 1 }
    running := false }

/-- The bridge after `Create()`, `Start()`, `SetEditMode(Car)` and a touch at
`(0, 0)`: the simulation runs with the three seeded pins and one debug box. -/
def Scenario.boxed : Bridge :=
  { slabs := []
    pins :=
      [{ Transform := ⟨-20, -20, 0, 0, 0, 0⟩, Fixed := true, PhysicBody := some ⟨0, 0⟩ },
       { Transform := ⟨20, 20, 0, 0, 0, 0⟩, Fixed := true, PhysicBody := some ⟨0, 1⟩ },
       { Transform := ⟨-10, -10, -10, -10, 0, 0⟩, Fixed := true, PhysicBody := some ⟨0, 2⟩ }]
    physics :=
      { world := some
          { id := 0
            requests := [.AddPin (-20) 0 true, .AddPin 20 0 true, .AddPin (-10) (-10) true,
              .AddBox 0 0 10]
            destroyed := [] }
        created := 1 }
    startPin := none, editMode := .Car, running := true
    boxes := some ⟨0, 3⟩ :: List.replicate 99 none, boxCount := 1 }

/-- A pose: x, y and angle. -/
abbrev Pose : Type := ℚ × ℚ × ℚ

/-- What the three accessors `X()`, `Y()` and `Angle()` return. -/
def Positioning.pose (t : Positioning) : Pose := (t.X, t.Y, t.Angle)

/-- The rest pose: the `Original` components. -/
def Positioning.rest (t : Positioning) : Pose := (t.xOriginal, t.yOriginal, t.angleOriginal)

/-- A sequence of `Set` calls, first to last. -/
def Positioning.Sets (t : Positioning) : List Pose → Positioning
  | [] => t
  | b :: bs => (t.Set b.1 b.2.1 b.2.2).Sets bs

/-- An engine holding a world with a fixed pin, a free pin and a support between
them (request 2). -/
def Scenario.cable : Physics :=
  { world := some
      { id := 0
        requests := [.AddPin (-20) 0 true, .AddPin (-19) 0 false, .AddSupport ⟨0, 0⟩ ⟨0, 1⟩]
        destroyed := [] }
    created := 1 }

/-- A frame in which every joint reports a reaction force of magnitude 3. -/
def Frame.overloaded : Frame :=
  { X := fun _ => 0, Y := fun _ => 0, Angle := fun _ => 0, Force := fun _ => 3 }

/-- The second bridge has the engine, the mode, the start pin, the running flag
and the debug boxes of the first: at most the pins and slabs differ. -/
def Bridge.SameControls (b b' : Bridge) : Prop :=
  b'.physics = b.physics ∧ b'.startPin = b.startPin ∧ b'.editMode = b.editMode ∧
    b'.running = b.running ∧ b'.boxes = b.boxes ∧ b'.boxCount = b.boxCount

/-- What holds of the debug boxes in every state reachable from `Create()`. -/
structure Bridge.BoxInv (b : Bridge) : Prop where
  /-- The buffer has its `MAX_BLOCKS` slots. -/
  slots : b.boxes.length = MAX_BLOCKS
  /-- While running, the count is between zero and `MAX_BLOCKS`. -/
  count : b.running = true → 0 ≤ b.boxCount ∧ b.boxCount ≤ MAX_BLOCKS
  /-- While running, the engine holds a world. -/
  live : b.running = true → b.physics.world ≠ none

/-- The two bridges have the same pins and, slab by slab, the same edges. -/
def Bridge.SameShape (b c : Bridge) : Prop :=
  b.pins = c.pins ∧ b.slabs.map Slab.edge = c.slabs.map Slab.edge

/-- The eleven pins of the test bridge: the two fixed ground pins, then for each
of the five segments the pins it adds (right end of the road, apex). -/
def Scenario.testPins : List Pin :=
  [Pin.new (-20) 0 true, Pin.new 20 0 true, Pin.new (-12) 0 false, Pin.new (-16) 5 false,
   Pin.new (-4) 0 false, Pin.new (-8) 5 false, Pin.new 4 0 false, Pin.new 0 5 false,
   Pin.new 12 0 false, Pin.new 8 5 false, Pin.new 16 5 false]

/-- The nineteen edges of the test bridge, by position of the pins in
`Scenario.testPins`. -/
def Scenario.testEdges : List (Slab_Purpose × Option Nat × Option Nat) :=
  [(.Structure, some 0, some 2), (.Support, some 0, some 3), (.Support, some 3, some 2),
   (.Structure, some 2, some 4), (.Support, some 2, some 5), (.Support, some 5, some 4),
   (.Support, some 5, some 3),
   (.Structure, some 4, some 6), (.Support, some 4, some 7), (.Support, some 7, some 6),
   (.Support, some 7, some 5),
   (.Structure, some 6, some 8), (.Support, some 6, some 9), (.Support, some 9, some 8),
   (.Support, some 9, some 7),
   (.Structure, some 8, some 1), (.Support, some 8, some 10), (.Support, some 10, some 1),
   (.Support, some 10, some 9)]

/-! ## Engine handles while the simulation runs -/

/-- Every joint reports a reaction force whose magnitude is not negative, as the
length of a vector is. -/
def Frame.WellFormed (f : Frame) : Prop :=
  ∀ j, 0 ≤ f.Force j

/-- The frame given to a `Step` is well formed; the other operations take no frame. -/
def Op.physical : Op → Prop
  | .Step f => f.WellFormed
  | _ => True

/-- The states reachable from `Create()` by any sequence of public operations in
which every `Step` reads back reaction forces that are magnitudes. -/
def ReachablePhysical (m : Libm) (b : Bridge) : Prop :=
  ReachableVia m (fun op _ => op.physical) b

/-- The two slabs do not hold handles with the same request number. -/
def Slab.apart (s t : Slab) : Prop :=
  ∀ h k, s.PhysicBody = some h → t.PhysicBody = some k → h.index ≠ k.index

/-- What the handles held by the bridge point to in the world `w` of the engine:
nothing that is gone. -/
structure Bridge.Live (b : Bridge) (w : b2World) : Prop where
  /-- The engine holds the world `w`. -/
  world : b.physics.world = some w
  /-- A non-null handle of a Support slab is a distance joint that still exists. -/
  joints : ∀ s ∈ b.slabs, s.Purpose = .Support → ∀ h, s.PhysicBody = some h →
    w.isJoint h = true
  /-- A non-null handle of a Structure slab is a body. -/
  bodies : ∀ s ∈ b.slabs, s.Purpose = .Structure → ∀ h, s.PhysicBody = some h →
    w.isBody h = true
  /-- No two slabs hold the same handle. -/
  apart : b.slabs.Pairwise Slab.apart
  /-- A non-null handle of a pin is a body. -/
  pins : ∀ p ∈ b.pins, ∀ h, p.PhysicBody = some h → w.isBody h = true
  /-- A non-null slot of the box buffer is a body. -/
  boxes : ∀ (n : Nat) (h : Handle), b.boxes[n]? = some (some h) → w.isBody h = true

/-- A frame in which every body sits where the pins of `Scenario.strained` rest,
the joint of request 5 reports a reaction force of magnitude 3 and every other
joint one of magnitude 1. -/
def Frame.strained : Frame :=
  { X := fun i => if i = 0 then -20 else if i = 1 then 20 else if i = 2 then -10
      else if i = 3 then -19 else 19
    Y := fun i => if i = 2 then -10 else 0
    Angle := fun _ => 0
    Force := fun j => if j.request = 5 then 3 else 1 }

/-- The taps that build two supports after `Create()`, then `Start()` and one
`Step` with the frame `Frame.strained`. -/
def Scenario.strain : List Op :=
  [.SetEditMode .Support, .HandleTouch (-20) 0, .HandleTouch (-19) 0, .HandleTouch 20 0,
   .HandleTouch 19 0, .Start, .Step Frame.strained]

/-- The bridge after `Create()`, the operations of `Scenario.strain`: two supports,
from the seeded pin at `(-20, 0)` to a free pin at `(-19, 0)` and from the seeded
pin at `(20, 0)` to a free pin at `(19, 0)`; the simulation runs, the joint of the
first support (request 5) broke in the step and the second support holds the joint
of request 6. -/
def Scenario.strained : Bridge :=
  { slabs :=
      [{ Purpose := .Support, Left := some 0, Right := some 3,
         Transform := ⟨-39 / 2, -39 / 2, 0, 0, 0, 0⟩, PhysicBody := none, Length := 1 },
       { Purpose := .Support, Left := some 1, Right := some 4,
         Transform := ⟨39 / 2, 39 / 2, 0, 0, 0, 0⟩, PhysicBody := some ⟨0, 6⟩, Length := 1 }]
    pins :=
      [{ Transform := ⟨-20, -20, 0, 0, 0, 0⟩, Fixed := true, PhysicBody := some ⟨0, 0⟩ },
       { Transform := ⟨20, 20, 0, 0, 0, 0⟩, Fixed := true, PhysicBody := some ⟨0, 1⟩ },
       { Transform := ⟨-10, -10, -10, -10, 0, 0⟩, Fixed := true, PhysicBody := some ⟨0, 2⟩ },
       { Transform := ⟨-19, -19, 0, 0, 0, 0⟩, Fixed := false, PhysicBody := some ⟨0, 3⟩ },
       { Transform := ⟨19, 19, 0, 0, 0, 0⟩, Fixed := false, PhysicBody := some ⟨0, 4⟩ }]
    physics :=
      { world := some
          { id := 0
            requests := [.AddPin (-20) 0 true, .AddPin 20 0 true, .AddPin (-10) (-10) true,
              .AddPin (-19) 0 false, .AddPin 19 0 false, .AddSupport ⟨0, 0⟩ ⟨0, 3⟩,
              .AddSupport ⟨0, 1⟩ ⟨0, 4⟩]
            destroyed := [⟨5, false⟩] }
        created := 1 }
    startPin := none, editMode := .Support, running := true
    boxes := List.replicate MAX_BLOCKS none, boxCount := 0 }

/-! ## Looking up and adding pins -/

theorem findPin_eq_none {X Y A : ℚ} {pins : List Pin} :
    findPin X Y A pins = none ↔ ∀ p ∈ pins, p.isAt X Y A = false := by
  induction pins with
  | nil => simp [findPin]
  | cons p rest ih =>
    by_cases h : p.isAt X Y A = true
    · simp [findPin, h]
    · simp [findPin, h, ih]

theorem findPin_lt {X Y A : ℚ} {pins : List Pin} {i : Nat}
    (h : findPin X Y A pins = some i) : i < pins.length := by
  induction pins generalizing i with
  | nil => simp [findPin] at h
  | cons p rest ih =>
    by_cases hp : p.isAt X Y A = true
    · simp [findPin, hp] at h
      subst h
      simp
    · simp [findPin, hp] at h
      obtain ⟨j, hj, rfl⟩ := h
      have := ih hj
      simp
      omega

theorem findPin_isSome {X Y A : ℚ} {pins : List Pin} {p : Pin}
    (hp : p ∈ pins) (h : p.isAt X Y A = true) : ∃ i, findPin X Y A pins = some i := by
  cases hf : findPin X Y A pins with
  | none =>
    rw [findPin_eq_none] at hf
    simp [hf p hp] at h
  | some i => exact ⟨i, rfl⟩

theorem findPin_first {X Y A : ℚ} {pins : List Pin} {i : Nat}
    (h : findPin X Y A pins = some i) :
    (∃ p, pins[i]? = some p ∧ p.isAt X Y A = true) ∧
      ∀ j q, j < i → pins[j]? = some q → q.isAt X Y A = false := by
  induction pins generalizing i with
  | nil => simp [findPin] at h
  | cons p rest ih =>
    by_cases hp : p.isAt X Y A = true
    · simp [findPin, hp] at h
      subst h
      simp [hp]
    · simp [findPin, hp] at h
      obtain ⟨k, hk, rfl⟩ := h
      obtain ⟨h1, h2⟩ := ih hk
      refine ⟨by simpa using h1, ?_⟩
      intro j q hj hq
      cases j with
      | zero =>
        simp at hq
        subst hq
        simpa using hp
      | succ j =>
        simp at hq
        exact h2 j q (by omega) hq

theorem addPin_cases (b : Bridge) (X Y : ℚ) :
    (∃ i, findPin X Y (1 / 2) b.pins = some i ∧ b.addPin X Y = (b, i)) ∨
      (findPin X Y (1 / 2) b.pins = none ∧
        b.addPin X Y = ({ b with pins := b.pins ++ [Pin.new X Y false] }, b.pins.length)) := by
  unfold Bridge.addPin Bridge.getPinAt
  cases h : findPin X Y (1 / 2) b.pins with
  | none => simp
  | some i => simp

theorem addPin_lt (b : Bridge) (X Y : ℚ) :
    (b.addPin X Y).2 < (b.addPin X Y).1.pins.length := by
  rcases addPin_cases b X Y with ⟨i, hi, h⟩ | ⟨_, h⟩
  · rw [h]; exact findPin_lt hi
  · rw [h]; simp

theorem Pin.new_atRest (X Y : ℚ) (F : Bool) : (Pin.new X Y F).Transform.AtRest := by
  simp [Pin.new, Positioning.Initialise, Positioning.AtRest]

theorem Slab.Attached.mono {n k : Nat} {s : Slab} (h : s.Attached n) (hk : n ≤ k) :
    s.Attached k := by
  unfold Slab.Attached at *
  split <;> simp_all
  omega

theorem Slab.attached_iff {n : Nat} {s : Slab} :
    s.Attached n ↔ ∃ l r, s.Left = some l ∧ s.Right = some r ∧ l < n ∧ r < n := by
  unfold Slab.Attached
  constructor
  · intro h
    split at h
    · next l r hl hr => exact ⟨l, r, hl, hr, h.1, h.2⟩
    · exact h.elim
  · rintro ⟨l, r, hl, hr, h1, h2⟩
    simp [hl, hr, h1, h2]

/-! ## The invariant is kept by the building blocks -/

theorem addPin_eq (b : Bridge) (X Y : ℚ) :
    ∃ ps, (b.addPin X Y).1 = { b with pins := b.pins ++ ps } ∧
      ∀ p ∈ ps, p = Pin.new X Y false := by
  rcases addPin_cases b X Y with ⟨i, _, h⟩ | ⟨_, h⟩
  · exact ⟨[], by simp [h], by simp⟩
  · exact ⟨[Pin.new X Y false], by simp [h], by simp⟩

theorem Bridge.Inv.extend {b : Bridge} (h : b.Inv) {ps : List Pin}
    (hps : ∀ p ∈ ps, p.Transform.AtRest ∧ p.PhysicBody = none) :
    Bridge.Inv { b with pins := b.pins ++ ps } where
  attached := fun s hs => (h.attached s hs).mono (by simp)
  start := fun i hi => by have := h.start i hi; simp; omega
  purpose := h.purpose
  atRest := fun hr => by
    refine ⟨fun p hp => ?_, (h.atRest hr).2⟩
    rcases List.mem_append.mp hp with hp | hp
    · exact (h.atRest hr).1 p hp
    · exact (hps p hp).1
  unbound := fun hr hw => by
    refine ⟨fun p hp => ?_, (h.unbound hr hw).2⟩
    rcases List.mem_append.mp hp with hp | hp
    · exact (h.unbound hr hw).1 p hp
    · exact (hps p hp).2
  issued := fun p hp k hk => by
    rcases List.mem_append.mp hp with hp | hp
    · exact h.issued p hp k hk
    · simp [(hps p hp).2] at hk

theorem Bridge.Inv.addPin {b : Bridge} (h : b.Inv) (X Y : ℚ) : (b.addPin X Y).1.Inv := by
  obtain ⟨ps, he, hps⟩ := addPin_eq b X Y
  rw [he]
  refine h.extend fun p hp => ?_
  rw [hps p hp]
  exact ⟨Pin.new_atRest X Y false, rfl⟩

theorem addPin_length_le (b : Bridge) (X Y : ℚ) :
    b.pins.length ≤ (b.addPin X Y).1.pins.length := by
  obtain ⟨ps, he, _⟩ := addPin_eq b X Y
  rw [he]; simp

theorem Bridge.Inv.appendSlab {b : Bridge} (h : b.Inv) {s : Slab}
    (h1 : s.Attached b.pins.length) (h2 : s.Purpose ≠ .Invalid) (h3 : s.Transform.AtRest)
    (h4 : s.PhysicBody = none) : Bridge.Inv { b with slabs := b.slabs ++ [s] } where
  attached := fun t ht => by
    rcases List.mem_append.mp ht with ht | ht
    · exact h.attached t ht
    · simp at ht; subst ht; exact h1
  start := h.start
  purpose := fun t ht => by
    rcases List.mem_append.mp ht with ht | ht
    · exact h.purpose t ht
    · simp at ht; subst ht; exact h2
  atRest := fun hr => by
    refine ⟨(h.atRest hr).1, fun t ht => ?_⟩
    rcases List.mem_append.mp ht with ht | ht
    · exact (h.atRest hr).2 t ht
    · simp at ht; subst ht; exact h3
  unbound := fun hr hw => by
    refine ⟨(h.unbound hr hw).1, fun t ht => ?_⟩
    rcases List.mem_append.mp ht with ht | ht
    · exact (h.unbound hr hw).2 t ht
    · simp at ht; subst ht; exact h4
  issued := h.issued

theorem Slab.initialise_some (m : Libm) {pins : List Pin} (s : Slab) {l r : Nat}
    (Body : Option Handle) (hl : l < pins.length) (hr : r < pins.length) :
    ∃ t, Slab.initialise m pins s (some l) (some r) Body = some t ∧ t.Left = some l ∧
      t.Right = some r ∧ t.PhysicBody = Body ∧ t.Purpose = s.Purpose ∧ t.Transform.AtRest := by
  simp [Slab.initialise, List.getElem?_eq_getElem hl, List.getElem?_eq_getElem hr,
    Positioning.Initialise, Positioning.AtRest]

theorem Slab.initialise_eq_some {m : Libm} {pins : List Pin} {s t : Slab}
    {L R : Option Nat} {Body : Option Handle}
    (h : Slab.initialise m pins s L R Body = some t) :
    t.Left = L ∧ t.Right = R ∧ t.PhysicBody = Body ∧ t.Purpose = s.Purpose ∧
      (s.Transform.AtRest → t.Transform.AtRest) := by
  unfold Slab.initialise at h
  split at h
  · split at h
    · simp at h
      subst h
      simp [Positioning.Initialise, Positioning.AtRest]
    · simp at h
  · simp at h
    subst h
    simp

theorem addSlab_spec (m : Libm) (b : Bridge) (X1 Y1 X2 Y2 : ℚ) {P : Slab_Purpose}
    (hP : P ≠ .Invalid) :
    ∃ slab, Bridge.addSlab m b X1 Y1 X2 Y2 P =
        some ({ ((b.addPin X1 Y1).1.addPin X2 Y2).1 with
                slabs := ((b.addPin X1 Y1).1.addPin X2 Y2).1.slabs ++ [slab] },
              some ((b.addPin X1 Y1).1.addPin X2 Y2).1.slabs.length) ∧
      slab.Left = some (b.addPin X1 Y1).2 ∧
      slab.Right = some ((b.addPin X1 Y1).1.addPin X2 Y2).2 ∧
      slab.Purpose = P ∧ slab.PhysicBody = none ∧ slab.Transform.AtRest := by
  have hl : (b.addPin X1 Y1).2 < ((b.addPin X1 Y1).1.addPin X2 Y2).1.pins.length :=
    lt_of_lt_of_le (addPin_lt b X1 Y1) (addPin_length_le _ X2 Y2)
  have hr := addPin_lt (b.addPin X1 Y1).1 X2 Y2
  obtain ⟨t, ht, h1, h2, h3, h4, h5⟩ := Slab.initialise_some m
    { Purpose := .Invalid, Left := none, Right := none, Transform := Positioning.new,
      PhysicBody := none, Length := 0 } none hl hr
  cases P with
  | Invalid => exact absurd rfl hP
  | Support =>
    exact ⟨{ t with Purpose := .Support }, by
      simp [Bridge.addSlab, SlabSupport.new, Slab.new, ht], h1, h2, rfl, h3, h5⟩
  | Structure =>
    exact ⟨{ t with Purpose := .Structure }, by
      simp [Bridge.addSlab, SlabStructure.new, Slab.new, ht], h1, h2, rfl, h3, h5⟩

theorem Bridge.Inv.addSlab {m : Libm} {b b' : Bridge} (h : b.Inv) {X1 Y1 X2 Y2 : ℚ}
    {P : Slab_Purpose} {r : Option Nat}
    (hb : Bridge.addSlab m b X1 Y1 X2 Y2 P = some (b', r)) : b'.Inv := by
  have h2 : ((b.addPin X1 Y1).1.addPin X2 Y2).1.Inv := (h.addPin X1 Y1).addPin X2 Y2
  by_cases hP : P = .Invalid
  · subst hP
    simp [Bridge.addSlab] at hb
    rw [← hb.1]
    exact h2
  · obtain ⟨slab, hs, h3, h4, h5, h6, h7⟩ := addSlab_spec m b X1 Y1 X2 Y2 hP
    rw [hs] at hb
    simp at hb
    rw [← hb.1]
    refine h2.appendSlab ?_ (by rw [h5]; exact hP) h7 h6
    rw [Slab.attached_iff]
    exact ⟨_, _, h3, h4,
      lt_of_lt_of_le (addPin_lt b X1 Y1) (addPin_length_le _ X2 Y2), addPin_lt _ X2 Y2⟩

theorem Bridge.Inv.destroy (b : Bridge) : b.Destroy.1.Inv where
  attached := by simp [Bridge.Destroy]
  start := by simp [Bridge.Destroy]
  purpose := by simp [Bridge.Destroy]
  atRest := by simp [Bridge.Destroy]
  unbound := by simp [Bridge.Destroy]
  issued := by simp [Bridge.Destroy]

theorem Bridge.Inv.setFixed {b : Bridge} (h : b.Inv) {i : Nat} {p : Pin}
    (hp : b.pins[i]? = some p) :
    Bridge.Inv { b with pins := b.pins.set i { p with Fixed := true } } := by
  have hmem : p ∈ b.pins := List.getElem?_mem hp
  have key : ∀ q ∈ b.pins.set i { p with Fixed := true },
      ∃ q' ∈ b.pins, q.Transform = q'.Transform ∧ q.PhysicBody = q'.PhysicBody := by
    intro q hq
    rcases List.mem_or_eq_of_mem_set hq with hq | hq
    · exact ⟨q, hq, rfl, rfl⟩
    · exact ⟨p, hmem, by rw [hq], by rw [hq]⟩
  exact {
    attached := fun s hs => by simpa using h.attached s hs
    start := fun j hj => by simpa using h.start j hj
    purpose := h.purpose
    atRest := fun hr => by
      refine ⟨fun q hq => ?_, (h.atRest hr).2⟩
      obtain ⟨q', hq', e1, _⟩ := key q hq
      rw [e1]
      exact (h.atRest hr).1 q' hq'
    unbound := fun hr hw => by
      refine ⟨fun q hq => ?_, (h.unbound hr hw).2⟩
      obtain ⟨q', hq', _, e2⟩ := key q hq
      rw [e2]
      exact (h.unbound hr hw).1 q' hq'
    issued := fun q hq k hk => by
      obtain ⟨q', hq', _, e2⟩ := key q hq
      rw [e2] at hk
      exact h.issued q' hq' k hk }

theorem Bridge.Inv.addFixedPin {b b' : Bridge} (h : b.Inv) {X Y : ℚ}
    (hb : b.addFixedPin X Y = some b') : b'.Inv := by
  unfold Bridge.addFixedPin at hb
  simp at hb
  obtain ⟨p, hp, rfl⟩ := hb
  exact (h.addPin X Y).setFixed hp

theorem Bridge.Inv.create {b b' : Bridge} {r : Bool} (hb : b.Create = some (b', r)) :
    b'.Inv := by
  unfold Bridge.Create at hb
  dsimp only at hb
  split at hb
  · simp at hb
  · next b1 h1 =>
    split at hb
    · simp at hb
    · next b2 h2 =>
      simp at hb
      obtain ⟨b3, h3, rfl, _⟩ := hb
      exact (((Bridge.Inv.destroy b).addFixedPin h1).addFixedPin h2).addFixedPin h3

theorem Bridge.Inv.testSegments {m : Libm} {w s : ℚ} {n : Nat} :
    ∀ {index : Nat} {left : ℚ} {b b' : Bridge}, b.Inv →
      Bridge.testSegments m w s n index left b = some b' → b'.Inv := by
  induction n with
  | zero =>
    intro index left b b' h hb
    simp [Bridge.testSegments] at hb
    exact hb ▸ h
  | succ n ih =>
    intro index left b b' h hb
    unfold Bridge.testSegments at hb
    dsimp only at hb
    split at hb
    · simp at hb
    · next b1 _ h1 =>
      split at hb
      · simp at hb
      · next b2 _ h2 =>
        split at hb
        · simp at hb
        · next b3 _ h3 =>
          have i3 : b3.Inv := ((h.addSlab h1).addSlab h2).addSlab h3
          split at hb
          · simp at hb
          · next b4 _ h4 =>
            refine ih ?_ hb
            split at h4
            · exact i3.addSlab h4
            · simp only [Option.some.injEq, Prod.mk.injEq] at h4
              exact h4.1 ▸ i3

theorem Bridge.Inv.createTestBridge {m : Libm} {b b' : Bridge}
    (hb : b.CreateTestBridge m = some b') : b'.Inv := by
  unfold Bridge.CreateTestBridge at hb
  dsimp only at hb
  split at hb
  · simp at hb
  · next b1 h1 =>
    split at hb
    · simp at hb
    · next b2 h2 =>
      exact Bridge.Inv.testSegments (((Bridge.Inv.destroy b).addFixedPin h1).addFixedPin h2) hb

theorem Bridge.Inv.stop {b : Bridge} (h : b.Inv) : b.Stop.Inv where
  attached := fun s hs => by
    simp [Bridge.Stop] at hs ⊢
    obtain ⟨t, ht, rfl⟩ := hs
    exact h.attached t ht
  start := fun i hi => by simpa [Bridge.Stop] using h.start i hi
  purpose := fun s hs => by
    simp [Bridge.Stop] at hs
    obtain ⟨t, ht, rfl⟩ := hs
    exact h.purpose t ht
  atRest := fun _ => by
    constructor
    · intro p hp
      simp [Bridge.Stop] at hp
      obtain ⟨q, _, rfl⟩ := hp
      simp [Positioning.Reset, Positioning.AtRest]
    · intro s hs
      simp [Bridge.Stop] at hs
      obtain ⟨t, _, rfl⟩ := hs
      simp [Positioning.Reset, Positioning.AtRest]
  unbound := fun _ hw => by simp [Bridge.Stop, Physics.Destroy] at hw
  issued := fun p hp k hk => by
    simp [Bridge.Stop] at hp
    obtain ⟨q, hq, rfl⟩ := hp
    exact h.issued q hq k hk

/-! ## What a step can change -/

theorem Physics.GetTransform_eq_some {ph : Physics} {f : Frame} {Body : Option Handle}
    {R t : Positioning} (h : ph.GetTransform f Body R = some t) :
    t.xOriginal = R.xOriginal ∧ t.yOriginal = R.yOriginal ∧
      t.angleOriginal = R.angleOriginal ∧ ((Body = none ∨ ph.world = none) → t = R) := by
  unfold Physics.GetTransform at h
  split at h
  · simp at h; subst h; simp
  · simp at h; subst h; simp
  · next w hw =>
    split at h
    · simp at h; subst h; simp [Positioning.Set, hw]
    · simp at h

theorem Physics.HandleSupportForce_eq_some {ph ph' : Physics} {f : Frame}
    {Joint j : Option Handle} {R M r : ℚ}
    (h : ph.HandleSupportForce f Joint R M = some (ph', j, r)) :
    ph'.created = ph.created ∧ (j = Joint ∨ j = none) ∧
      ((Joint = none ∨ ph.world = none) → ph' = ph ∧ j = Joint) := by
  unfold Physics.HandleSupportForce at h
  split at h
  · simp at h; obtain ⟨rfl, rfl, _⟩ := h; simp
  · simp at h; obtain ⟨rfl, rfl, _⟩ := h; simp
  · next w hw =>
    split at h
    · dsimp only at h
      split at h
      · simp at h; obtain ⟨rfl, rfl, _⟩ := h; simp [hw]
      · simp at h; obtain ⟨rfl, rfl, _⟩ := h; simp
    · simp at h

theorem Physics.HandlePinForce_eq_some {ph ph' : Physics} {f : Frame}
    {Body : Option Handle} {M : ℚ} (h : ph.HandlePinForce f Body M = some ph') :
    ph'.created = ph.created ∧ ((Body = none ∨ ph.world = none) → ph' = ph) := by
  unfold Physics.HandlePinForce at h
  split at h
  · simp at h; subst h; simp
  · simp at h; subst h; simp
  · next w hw =>
    split at h
    · simp at h; subst h; simp [hw]
    · simp at h

theorem stepSlabs_spec {f : Frame} {running : Bool} {pins : List Pin} {slabs : List Slab} :
    ∀ {ph ph' : Physics} {slabs' : List Slab},
      Bridge.stepSlabs f running pins ph slabs = some (ph', slabs') →
      ph'.created = ph.created ∧ slabs'.map Slab.edge = slabs.map Slab.edge ∧
        ((ph.world = none ∨ ∀ s ∈ slabs, s.PhysicBody = none) → ph' = ph ∧ slabs' = slabs) := by
  induction slabs with
  | nil =>
    intro ph ph' slabs' h
    simp [Bridge.stepSlabs] at h
    obtain ⟨rfl, rfl⟩ := h
    simp
  | cons s rest ih =>
    intro ph ph' slabs' h
    unfold Bridge.stepSlabs at h
    split at h
    · -- Structure
      split at h
      · simp at h
      · next t ht =>
        split at h
        · simp at h
        · next ph1 rest1 h1 =>
          simp at h
          obtain ⟨rfl, rfl⟩ := h
          obtain ⟨c1, e1, i1⟩ := ih h1
          obtain ⟨_, _, _, i0⟩ := Physics.GetTransform_eq_some ht
          refine ⟨c1, by simp [e1, Slab.edge], fun hidle => ?_⟩
          have hrest : ph.world = none ∨ ∀ s ∈ rest, s.PhysicBody = none :=
            hidle.imp id fun hs t ht => hs t (List.mem_cons_of_mem _ ht)
          have ht0 : t = s.Transform := i0 (hidle.symm.imp (fun hs => hs s (List.mem_cons_self _ _)) id)
          obtain ⟨rfl, rfl⟩ := i1 hrest
          simp [ht0]
    · -- Support
      split at h
      · simp at h
      · next ph0 joint force hj =>
        dsimp only at h
        split at h
        · simp at h
        · split at h
          · simp at h
          · next ph1 rest1 h1 =>
            simp at h
            obtain ⟨rfl, rfl⟩ := h
            obtain ⟨c0, _, i0⟩ := Physics.HandleSupportForce_eq_some hj
            obtain ⟨c1, e1, i1⟩ := ih h1
            refine ⟨by rw [c1, c0], by simp [e1, Slab.edge], fun hidle => ?_⟩
            obtain ⟨rfl, rfl⟩ :=
              i0 (hidle.symm.imp (fun hs => hs s (List.mem_cons_self _ _)) id)
            have hrest : ph0.world = none ∨ ∀ s ∈ rest, s.PhysicBody = none :=
              hidle.imp id fun hs t ht => hs t (List.mem_cons_of_mem _ ht)
            obtain ⟨rfl, rfl⟩ := i1 hrest
            simp
    · -- Invalid
      split at h
      · simp at h
      · next ph1 rest1 h1 =>
        simp at h
        obtain ⟨rfl, rfl⟩ := h
        obtain ⟨c1, e1, i1⟩ := ih h1
        refine ⟨c1, by simp [e1], fun hidle => ?_⟩
        have hrest : ph.world = none ∨ ∀ s ∈ rest, s.PhysicBody = none :=
          hidle.imp id fun hs t ht => hs t (List.mem_cons_of_mem _ ht)
        obtain ⟨rfl, rfl⟩ := i1 hrest
        simp

theorem stepPins_spec {f : Frame} {pins : List Pin} :
    ∀ {ph ph' : Physics} {pins' : List Pin},
      Bridge.stepPins f ph pins = some (ph', pins') →
      ph'.created = ph.created ∧ pins'.map Pin.anchor = pins.map Pin.anchor ∧
        pins'.map (fun p => p.PhysicBody) = pins.map (fun p => p.PhysicBody) ∧
        ((ph.world = none ∨ ∀ p ∈ pins, p.PhysicBody = none) → ph' = ph ∧ pins' = pins) := by
  induction pins with
  | nil =>
    intro ph ph' pins' h
    simp [Bridge.stepPins] at h
    obtain ⟨rfl, rfl⟩ := h
    simp
  | cons p rest ih =>
    intro ph ph' pins' h
    unfold Bridge.stepPins at h
    split at h
    · simp at h
    · next ph0 h0 =>
      split at h
      · simp at h
      · next t ht =>
        split at h
        · simp at h
        · next ph1 rest1 h1 =>
          simp at h
          obtain ⟨rfl, rfl⟩ := h
          obtain ⟨c0, i0⟩ := Physics.HandlePinForce_eq_some h0
          obtain ⟨x, y, a, it⟩ := Physics.GetTransform_eq_some ht
          obtain ⟨c1, e1, b1, i1⟩ := ih h1
          refine ⟨by rw [c1, c0], by simp [e1, Pin.anchor, x, y, a], by simp [b1],
            fun hidle => ?_⟩
          have hp : p.PhysicBody = none ∨ ph.world = none :=
            hidle.symm.imp (fun hs => hs p (List.mem_cons_self _ _)) id
          have e0 : ph0 = ph := i0 hp
          subst e0
          have ht0 : t = p.Transform := it hp
          have hrest : ph0.world = none ∨ ∀ q ∈ rest, q.PhysicBody = none :=
            hidle.imp id fun hs q hq => hs q (List.mem_cons_of_mem _ hq)
          obtain ⟨rfl, rfl⟩ := i1 hrest
          simp [ht0]

theorem Step_spec {b b' : Bridge} {f : Frame} (h : b.Step f = some b') :
    b'.graph = b.graph ∧ b'.physics.created = b.physics.created ∧
      b'.pins.map (fun p => p.PhysicBody) = b.pins.map (fun p => p.PhysicBody) ∧
      b'.startPin = b.startPin ∧ b'.editMode = b.editMode ∧ b'.running = b.running ∧
      b'.boxes = b.boxes ∧ b'.boxCount = b.boxCount ∧
      ((b.physics.world = none ∨
          ((∀ p ∈ b.pins, p.PhysicBody = none) ∧ ∀ s ∈ b.slabs, s.PhysicBody = none)) →
        b' = b) := by
  unfold Bridge.Step at h
  dsimp only [Physics.Step] at h
  split at h
  · simp at h
  · next ph1 slabs1 h1 =>
    split at h
    · simp at h
    · next ph2 pins2 h2 =>
      obtain ⟨c1, e1, i1⟩ := stepSlabs_spec h1
      obtain ⟨c2, e2, b2, i2⟩ := stepPins_spec h2
      have hb : b' = { b with physics := ph2, slabs := slabs1, pins := pins2 } := by
        split at h
        · simp at h
          obtain ⟨_, rfl⟩ := h
          rfl
        · simp at h
          exact h.symm
      subst hb
      refine ⟨by simp [Bridge.graph, e1, e2], by simp [c1, c2], b2, rfl, rfl, rfl, rfl, rfl,
        fun hidle => ?_⟩
      obtain ⟨rfl, rfl⟩ := i1 (hidle.imp id fun hs => hs.2)
      obtain ⟨rfl, rfl⟩ := i2 (hidle.imp id fun hs => hs.1)
      rfl

theorem mem_of_map_eq {α β : Type} {g : α → β} {l l' : List α}
    (he : l'.map g = l.map g) {a : α} (ha : a ∈ l') : ∃ a' ∈ l, g a' = g a := by
  have : g a ∈ l.map g := he ▸ List.mem_map_of_mem g ha
  simpa using this

theorem length_eq_of_map_eq {α β : Type} {g : α → β} {l l' : List α}
    (he : l'.map g = l.map g) : l'.length = l.length := by
  simpa using congrArg List.length he

theorem attached_of_edges {n : Nat} {slabs slabs' : List Slab}
    (he : slabs'.map Slab.edge = slabs.map Slab.edge) (h : ∀ s ∈ slabs, s.Attached n) :
    ∀ s ∈ slabs', s.Attached n := by
  intro s hs
  obtain ⟨t, ht, e⟩ := mem_of_map_eq he hs
  have := h t ht
  simp only [Slab.edge, Prod.mk.injEq] at e
  unfold Slab.Attached at *
  rw [← e.2.1, ← e.2.2]
  exact this

theorem purpose_of_edges {slabs slabs' : List Slab}
    (he : slabs'.map Slab.edge = slabs.map Slab.edge) (h : ∀ s ∈ slabs, s.Purpose ≠ .Invalid) :
    ∀ s ∈ slabs', s.Purpose ≠ .Invalid := by
  intro s hs
  obtain ⟨t, ht, e⟩ := mem_of_map_eq he hs
  simp only [Slab.edge, Prod.mk.injEq] at e
  rw [← e.1]
  exact h t ht

theorem Bridge.Inv.step {b b' : Bridge} {f : Frame} (h : b.Inv) (hb : b.Step f = some b') :
    b'.Inv := by
  obtain ⟨g, c, bodies, s, _, r, _, _, idle⟩ := Step_spec hb
  simp only [Bridge.graph, Prod.mk.injEq] at g
  have hlen : b'.pins.length = b.pins.length := length_eq_of_map_eq g.1
  have same : b.running = false → b' = b := fun hr => by
    apply idle
    by_cases hw : b.physics.world = none
    · exact Or.inl hw
    · exact Or.inr (h.unbound hr hw)
  exact {
    attached := by rw [hlen]; exact attached_of_edges g.2 h.attached
    start := fun i hi => by rw [hlen]; exact h.start i (s ▸ hi)
    purpose := purpose_of_edges g.2 h.purpose
    atRest := fun hr => by
      have e := same (r ▸ hr)
      subst e
      exact h.atRest hr
    unbound := fun hr => by
      have e := same (r ▸ hr)
      subst e
      exact h.unbound hr
    issued := fun p hp k hk => by
      obtain ⟨q, hq, e⟩ := mem_of_map_eq bodies hp
      rw [c]
      exact h.issued q hq k (by rw [e]; exact hk) }

/-! ## The conversion -/

theorem createPins_spec (pins : List Pin) :
    ∀ (ph : Physics) (w : b2World), ph.world = some w →
      ∃ pins', Bridge.createPins ph pins =
          some ({ ph with
                  world := some { w with requests := w.requests ++ pins.map Pin.request } },
                pins') ∧
        pins'.length = pins.length ∧
        ∀ (i : Nat) (p : Pin), pins[i]? = some p →
          pins'[i]? = some { p with Transform := p.Transform.Reset,
                                    PhysicBody := some ⟨w.id, w.requests.length + i⟩ } := by
  induction pins with
  | nil =>
    intro ph w hw
    refine ⟨[], ?_, rfl, by simp⟩
    cases ph
    simp_all [Bridge.createPins]
  | cons p rest ih =>
    intro ph w hw
    obtain ⟨rest', h1, h2, h3⟩ := ih
      { ph with world := some { w with requests := w.requests ++ [p.request] } }
      { w with requests := w.requests ++ [p.request] } rfl
    refine ⟨{ p with Transform := p.Transform.Reset,
                     PhysicBody := some ⟨w.id, w.requests.length⟩ } :: rest', ?_, by simp [h2], ?_⟩
    · unfold Bridge.createPins
      simp only [Physics.AddPin, hw]
      have : Request.AddPin p.Transform.Reset.X p.Transform.Reset.Y p.Fixed = p.request := rfl
      rw [this, h1]
      simp
    · intro i q hq
      cases i with
      | zero =>
        simp at hq
        subst hq
        simp
      | succ i =>
        simp at hq
        have := h3 i q hq
        simp at this ⊢
        rw [this]
        simp
        omega

theorem isBody_append {w : b2World} {h : Handle} (rs : List Request)
    (hb : w.isBody h = true) :
    b2World.isBody { w with requests := w.requests ++ rs } h = true := by
  unfold b2World.isBody at *
  cases hr : w.requests[h.index]? with
  | none => simp [hr] at hb
  | some r =>
    have hlt : h.index < w.requests.length := (List.getElem?_eq_some.mp hr).1
    rw [hr] at hb
    simp only [List.getElem?_append_left hlt, hr]
    exact hb

theorem createSlab_spec (m : Libm) {pins : List Pin} {ph : Physics} {w : b2World}
    {slab : Slab} (hw : ph.world = some w)
    (hbody : ∀ i, i < pins.length →
      ∃ h, Bridge.pinBody pins (some i) = some (some h) ∧ w.isBody h = true)
    (ha : slab.Attached pins.length) (hp : slab.Purpose ≠ .Invalid) :
    ∃ req slab', Bridge.createSlab m pins ph slab =
        some ({ ph with world := some { w with requests := w.requests ++ [req] } }, slab') ∧
      linkRequest pins slab = some req ∧ slab'.edge = slab.edge := by
  obtain ⟨l, r, hl, hr, hl', hr'⟩ := Slab.attached_iff.mp ha
  obtain ⟨t, ht, t1, t2, _, t4, _⟩ := Slab.initialise_some m slab slab.PhysicBody hl' hr'
  obtain ⟨bl, pl, il⟩ := hbody l hl'
  obtain ⟨br, pr, ir⟩ := hbody r hr'
  have hrec : slab.Recalculate m pins = some t := by
    unfold Slab.Recalculate
    rw [hl, hr]
    exact ht
  have he : ∀ body, Slab.edge { t with PhysicBody := body } = slab.edge := fun body => by
    simp [Slab.edge, t1, t2, t4, hl, hr]
  unfold Bridge.createSlab
  rw [hrec]
  dsimp only
  unfold linkRequest
  rw [t1, t2, t4, hl, hr, pl, pr]
  cases hP : slab.Purpose with
  | Invalid => exact absurd hP hp
  | Support =>
    refine ⟨.AddSupport bl br, { t with PhysicBody := some ⟨w.id, w.requests.length⟩ }, ?_, rfl, ?_⟩
    · simp [Physics.AddSupport, hw, il, ir, t1, t2, t4, hP]
    · exact he _
  | Structure =>
    refine ⟨.AddStructure bl br, { t with PhysicBody := some ⟨w.id, w.requests.length⟩ }, ?_,
      rfl, ?_⟩
    · simp [Physics.AddStructure, hw, il, ir, t1, t2, t4, hP]
    · exact he _

theorem createSlabs_spec (m : Libm) {pins : List Pin} (slabs : List Slab) :
    ∀ (ph : Physics) (w : b2World), ph.world = some w →
      (∀ i, i < pins.length →
        ∃ h, Bridge.pinBody pins (some i) = some (some h) ∧ w.isBody h = true) →
      (∀ s ∈ slabs, s.Attached pins.length) → (∀ s ∈ slabs, s.Purpose ≠ .Invalid) →
      ∃ links slabs', Bridge.createSlabs m pins ph slabs =
          some ({ ph with world := some { w with requests := w.requests ++ links } }, slabs') ∧
        links.map some = slabs.map (linkRequest pins) ∧
        slabs'.map Slab.edge = slabs.map Slab.edge := by
  induction slabs with
  | nil =>
    intro ph w hw _ _ _
    refine ⟨[], [], ?_, rfl, rfl⟩
    cases ph
    simp_all [Bridge.createSlabs]
  | cons s rest ih =>
    intro ph w hw hbody ha hp
    obtain ⟨req, s', h1, h2, h3⟩ := createSlab_spec m hw hbody
      (ha s (List.mem_cons_self _ _)) (hp s (List.mem_cons_self _ _))
    obtain ⟨links, rest', r1, r2, r3⟩ := ih
      { ph with world := some { w with requests := w.requests ++ [req] } }
      { w with requests := w.requests ++ [req] } rfl
      (fun i hi => by
        obtain ⟨h, e, hb⟩ := hbody i hi
        exact ⟨h, e, isBody_append [req] hb⟩)
      (fun t ht => ha t (List.mem_cons_of_mem _ ht))
      (fun t ht => hp t (List.mem_cons_of_mem _ ht))
    refine ⟨req :: links, s' :: rest', ?_, by simp [h2, r2], by simp [h3, r3]⟩
    unfold Bridge.createSlabs
    rw [h1]
    dsimp only
    rw [r1]
    simp

theorem map_eq_of_getElem? {α β : Type} {g : α → β} {l l' : List α}
    (hlen : l'.length = l.length)
    (h : ∀ (i : Nat) (a : α), l[i]? = some a → ∃ a', l'[i]? = some a' ∧ g a' = g a) :
    l'.map g = l.map g := by
  apply List.ext_getElem?
  intro i
  simp only [List.getElem?_map]
  cases hi : l[i]? with
  | none =>
    have : l'[i]? = none := by
      rw [List.getElem?_eq_none_iff] at hi ⊢
      omega
    simp [this]
  | some a =>
    obtain ⟨a', h1, h2⟩ := h i a hi
    simp [h1, h2]

theorem createSimulation_spec (m : Libm) {b : Bridge}
    (ha : ∀ s ∈ b.slabs, s.Attached b.pins.length) (hp : ∀ s ∈ b.slabs, s.Purpose ≠ .Invalid) :
    ∃ b' w, b.createSimulation m = some b' ∧ b'.running = true ∧
      b'.physics.world = some w ∧ w.id = b.physics.created ∧
      b'.physics.created = b.physics.created + 1 ∧
      w.requests.map some =
        b.pins.map (fun p => some p.request) ++ b.slabs.map (linkRequest b'.pins) ∧
      (∀ (i : Nat) (p : Pin), b'.pins[i]? = some p → p.PhysicBody = some ⟨w.id, i⟩) ∧
      b'.graph = b.graph ∧ b'.startPin = b.startPin ∧ b'.editMode = b.editMode ∧
      b'.boxes = b.boxes ∧ b'.boxCount = b.boxCount := by
  obtain ⟨pins', h1, h2, h3⟩ := createPins_spec b.pins b.physics.Create.1
    { id := b.physics.created, requests := [], destroyed := [] } rfl
  have hbody : ∀ i, i < pins'.length →
      ∃ h, Bridge.pinBody pins' (some i) = some (some h) ∧
        b2World.isBody { id := b.physics.created, requests := [] ++ b.pins.map Pin.request,
                         destroyed := [] } h = true := by
    intro i hi
    rw [h2] at hi
    have e := h3 i b.pins[i] (List.getElem?_eq_getElem hi)
    refine ⟨⟨b.physics.created, i⟩, by simp [Bridge.pinBody, e], ?_⟩
    simp [b2World.isBody, List.getElem?_eq_getElem hi, Pin.request]
  obtain ⟨links, slabs', s1, s2, s3⟩ := createSlabs_spec m b.slabs
    { b.physics.Create.1 with
      world := some { id := b.physics.created, requests := [] ++ b.pins.map Pin.request,
                      destroyed := [] } }
    { id := b.physics.created, requests := [] ++ b.pins.map Pin.request, destroyed := [] } rfl
    hbody (h2 ▸ ha) hp
  refine ⟨{ b with
      physics := { world := some { id := b.physics.created,
                                   requests := ([] ++ b.pins.map Pin.request) ++ links,
                                   destroyed := [] },
                   created := b.physics.created + 1 }
      pins := pins', slabs := slabs', running := true },
    { id := b.physics.created, requests := ([] ++ b.pins.map Pin.request) ++ links,
      destroyed := [] }, ?_, rfl, rfl, rfl, rfl, ?_, ?_, ?_, rfl, rfl, rfl, rfl⟩
  · unfold Bridge.createSimulation
    dsimp only
    rw [h1]
    dsimp only
    rw [s1]
    simp [Physics.Create, Physics.Destroy]
  · simp [s2]
  · intro i p hp'
    have hi : i < b.pins.length := by
      rw [← h2]
      exact (List.getElem?_eq_some.mp hp').1
    have e := h3 i b.pins[i] (List.getElem?_eq_getElem hi)
    simp at e
    rw [e] at hp'
    simp at hp'
    rw [← hp']
  · simp only [Bridge.graph, Prod.mk.injEq]
    refine ⟨map_eq_of_getElem? h2 fun i a hia => ?_, s3⟩
    exact ⟨_, h3 i a hia, by simp [Pin.anchor, Positioning.Reset]⟩

theorem Stop_graph (b : Bridge) : b.Stop.graph = b.graph := by
  simp [Bridge.graph, Bridge.Stop, Pin.anchor, Slab.edge, Positioning.Reset, Function.comp_def]

theorem Stop_requests (b : Bridge) :
    b.Stop.pins.map (fun p => some p.request) = b.pins.map (fun p => some p.request) := by
  simp [Bridge.Stop, Pin.request, Positioning.Reset, Function.comp_def]

theorem Start_spec (m : Libm) {b : Bridge}
    (ha : ∀ s ∈ b.slabs, s.Attached b.pins.length) (hp : ∀ s ∈ b.slabs, s.Purpose ≠ .Invalid) :
    ∃ b' w, b.Start m = some b' ∧ b'.running = true ∧
      b'.physics.world = some w ∧ w.id = b.physics.created ∧
      b'.physics.created = b.physics.created + 1 ∧
      w.requests.map some =
        b.pins.map (fun p => some p.request) ++ b.slabs.map (linkRequest b'.pins) ∧
      (∀ (i : Nat) (p : Pin), b'.pins[i]? = some p → p.PhysicBody = some ⟨w.id, i⟩) ∧
      b'.graph = b.graph ∧ b'.startPin = b.startPin ∧ b'.editMode = b.editMode ∧
      b'.boxCount = 0 := by
  have g := Stop_graph b
  simp only [Bridge.graph, Prod.mk.injEq] at g
  have hlen : b.Stop.pins.length = b.pins.length := length_eq_of_map_eq g.1
  obtain ⟨b', w, h1, h2, h3, h4, h5, h6, h7, h8, h9, h10, _, h12⟩ :=
    createSimulation_spec m (b := b.Stop) (hlen ▸ attached_of_edges g.2 ha)
      (purpose_of_edges g.2 hp)
  refine ⟨b', w, h1, h2, h3, h4, h5, ?_, h7, ?_, h9, h10, h12⟩
  · rw [h6, Stop_requests]
    congr 1
    have : b.Stop.slabs.map (linkRequest b'.pins) = b.slabs.map (linkRequest b'.pins) := by
      simp [Bridge.Stop, linkRequest, Function.comp_def]
    exact this
  · rw [h8]
    exact Stop_graph b

theorem Bridge.Inv.afterStart {m : Libm} {b b' : Bridge} (h : b.Inv) (hb : b.Start m = some b') :
    b'.Inv := by
  obtain ⟨b'', w, h1, h2, h3, h4, h5, _, h7, h8, h9, _, _⟩ := Start_spec m h.attached h.purpose
  rw [hb] at h1
  simp at h1
  subst h1
  simp only [Bridge.graph, Prod.mk.injEq] at h8
  have hlen : b'.pins.length = b.pins.length := length_eq_of_map_eq h8.1
  exact {
    attached := by rw [hlen]; exact attached_of_edges h8.2 h.attached
    start := fun i hi => by rw [hlen]; exact h.start i (h9 ▸ hi)
    purpose := purpose_of_edges h8.2 h.purpose
    atRest := fun hr => by simp [h2] at hr
    unbound := fun hr => by simp [h2] at hr
    issued := fun p hp k hk => by
      obtain ⟨i, hi⟩ := List.mem_iff_getElem?.mp hp
      have := h7 i p hi
      rw [hk] at this
      simp at this
      rw [h5, this, h4]
      simp }

theorem Physics.AddBox_created (ph : Physics) (X Y M : ℚ) :
    (ph.AddBox X Y M).1.created = ph.created := by
  unfold Physics.AddBox
  split <;> rfl

theorem Bridge.Inv.handleTouch {m : Libm} {b b' : Bridge} {X Y : ℚ} (h : b.Inv)
    (hb : b.HandleTouch m X Y = some b') : b'.Inv := by
  unfold Bridge.HandleTouch at hb
  split at hb
  · -- Car
    split at hb
    · next hc =>
      dsimp only at hb
      split at hb
      · simp at hb
        subst hb
        exact {
          attached := h.attached
          start := h.start
          purpose := h.purpose
          atRest := fun hr => by simp [hc.1] at hr
          unbound := fun hr => by simp [hc.1] at hr
          issued := fun p hp k hk => by
            have := h.issued p hp k hk
            simpa [Physics.AddBox_created] using this }
      · simp at hb
    · simp at hb
      exact hb ▸ h
  · -- Structure, Support
    split at hb
    · simp at hb
      subst hb
      exact {
        attached := h.attached
        start := fun i hi => findPin_lt hi
        purpose := h.purpose
        atRest := h.atRest
        unbound := h.unbound
        issued := h.issued }
    · next start hs =>
      dsimp only at hb
      split at hb
      · split at hb
        · next s p _ _ =>
          cases h1 : Bridge.addSlab m (b.addPin X Y).1 s.Transform.X s.Transform.Y
              p.Transform.X p.Transform.Y
              (if (b.addPin X Y).1.editMode = .Structure then .Structure else .Support) with
          | none => simp [h1] at hb
          | some res =>
          obtain ⟨b1, r⟩ := res
          simp [h1] at hb
          subst hb
          have i1 : b1.Inv := (h.addPin X Y).addSlab h1
          exact {
            attached := i1.attached
            start := by simp
            purpose := i1.purpose
            atRest := i1.atRest
            unbound := i1.unbound
            issued := i1.issued }
        · simp at hb
      · simp at hb
        exact hb ▸ h.addPin X Y

theorem Bridge.Inv.apply {m : Libm} {b b' : Bridge} {op : Op} (h : b.Inv)
    (hb : op.apply m b = some b') : b'.Inv := by
  cases op with
  | Create =>
    cases hc : b.Create with
    | none => simp [Op.apply, hc] at hb
    | some res =>
      obtain ⟨b1, r⟩ := res
      simp [Op.apply, hc] at hb
      exact hb ▸ Bridge.Inv.create hc
  | Destroy =>
    simp [Op.apply] at hb
    exact hb ▸ Bridge.Inv.destroy b
  | CreateTestBridge => exact Bridge.Inv.createTestBridge hb
  | Start => exact h.afterStart hb
  | Stop =>
    simp [Op.apply] at hb
    exact hb ▸ h.stop
  | Step f => exact h.step hb
  | SetEditMode e =>
    simp [Op.apply] at hb
    subst hb
    exact {
      attached := h.attached
      start := h.start
      purpose := h.purpose
      atRest := h.atRest
      unbound := h.unbound
      issued := h.issued }
  | HandleTouch X Y => exact h.handleTouch hb

theorem ReachableVia.inv {m : Libm} {ok : Op → Bridge → Prop} {b : Bridge}
    (h : ReachableVia m ok b) : b.Inv := by
  induction h with
  | create b₀ b r _ hc => exact Bridge.Inv.create hc
  | step b b' op _ _ ha ih => exact ih.apply ha

theorem ReachableVia.weaken {m : Libm} {ok ok' : Op → Bridge → Prop}
    (hok : ∀ op b, ok op b → ok' op b) {b : Bridge} (h : ReachableVia m ok b) :
    ReachableVia m ok' b := by
  induction h with
  | create b₀ b r h0 hc => exact .create b₀ b r h0 hc
  | step b b' op _ ho ha ih => exact .step b b' op ih (hok op b ho) ha

theorem ReachableEditing.reachable {m : Libm} {b : Bridge} (h : ReachableEditing m b) :
    Reachable m b :=
  ReachableVia.weaken (fun _ _ _ => trivial) h

theorem ReachableVia.runs {m : Libm} {ok : Op → Bridge → Prop} :
    ∀ (ops : List Op) {b b' : Bridge}, ReachableVia m ok b →
      (∀ op c, ok op c) → run m ops b = some b' → ReachableVia m ok b' := by
  intro ops
  induction ops with
  | nil =>
    intro b b' h _ hr
    simp [BridgeBuilder.run] at hr
    exact hr ▸ h
  | cons op ops ih =>
    intro b b' h hok hr
    unfold BridgeBuilder.run at hr
    split at hr
    · simp at hr
    · next b1 h1 => exact ih (.step b b1 op h (hok op b) h1) hok hr

theorem Reachable.of_run {m : Libm} {ops : List Op} {b₀ b : Bridge} (h0 : b₀.Constructed)
    (hr : run m (.Create :: ops) b₀ = some b) : Reachable m b := by
  unfold BridgeBuilder.run at hr
  split at hr
  · simp at hr
  · next b1 h1 =>
    cases hc : b₀.Create with
    | none => simp [Op.apply, hc] at h1
    | some res =>
      obtain ⟨b2, r⟩ := res
      simp [Op.apply, hc] at h1
      subst h1
      exact ReachableVia.runs ops (.create b₀ b2 r h0 hc) (fun _ _ => trivial) hr

/-! ## Pins stay apart while editing -/

theorem separated_iff (pins : List Pin) :
    Separated pins ↔ (pins.map Pin.restPosition).Pairwise fun a c =>
      ¬ (fabs (c.1 - a.1) ≤ 1 / 2 ∧ fabs (c.2 - a.2) ≤ 1 / 2) := by
  rw [List.pairwise_map]
  rfl

theorem separated_of_positions {pins pins' : List Pin}
    (he : pins'.map Pin.restPosition = pins.map Pin.restPosition) (h : Separated pins) :
    Separated pins' := by
  rw [separated_iff] at *
  rw [he]
  exact h

theorem positions_of_anchors {pins pins' : List Pin}
    (he : pins'.map Pin.anchor = pins.map Pin.anchor) :
    pins'.map Pin.restPosition = pins.map Pin.restPosition := by
  have : ∀ l : List Pin, l.map Pin.restPosition =
      (l.map Pin.anchor).map fun a => (a.2.1, a.2.2.1) := by
    intro l
    simp [Pin.restPosition, Pin.anchor, Function.comp_def]
  rw [this, this, he]

theorem Pin.isAt_of_atRest {p : Pin} (h : p.Transform.AtRest) (X Y A : ℚ) :
    p.isAt X Y A = p.restIsAt X Y A := by
  obtain ⟨hx, hy, _⟩ := h
  simp [Pin.isAt, Pin.restIsAt, Positioning.X, Positioning.Y, hx, hy]

theorem findPin_self {pins : List Pin} (h : Calm pins) :
    ∀ {i : Nat} {p : Pin}, pins[i]? = some p →
      findPin p.Transform.X p.Transform.Y (1 / 2) pins = some i := by
  induction pins with
  | nil => intro i p hp; simp at hp
  | cons q rest ih =>
    intro i p hp
    obtain ⟨hrest, hsep⟩ := h
    unfold Separated at hsep
    rw [List.pairwise_cons] at hsep
    cases i with
    | zero =>
      simp at hp
      subst hp
      simp [findPin, Pin.isAt, fabs]
    | succ j =>
      simp at hp
      have hmem : p ∈ rest := List.getElem?_mem hp
      have hq : q.isAt p.Transform.X p.Transform.Y (1 / 2) = false := by
        have hn := hsep.1 p hmem
        obtain ⟨qx, qy, _⟩ := hrest q (List.mem_cons_self _ _)
        obtain ⟨px, py, _⟩ := hrest p (List.mem_cons_of_mem _ hmem)
        unfold Pin.restNear at hn
        simp only [Pin.isAt, Positioning.X, Positioning.Y, qx, qy, px, py, fabs]
        rw [abs_sub_comm q.Transform.xOriginal, abs_sub_comm q.Transform.yOriginal]
        simpa [fabs] using hn
      have := ih ⟨fun r hr => hrest r (List.mem_cons_of_mem _ hr), hsep.2⟩ hp
      simp only [findPin, hq, this, Bool.false_eq_true, if_false, Option.map_some']

theorem Calm.withPin {b : Bridge} (h : Calm b.pins) (X Y : ℚ) : Calm (b.addPin X Y).1.pins := by
  rcases addPin_cases b X Y with ⟨i, _, he⟩ | ⟨hn, he⟩
  · rw [he]; exact h
  · rw [he]
    obtain ⟨hrest, hsep⟩ := h
    constructor
    · intro p hp
      simp at hp
      rcases hp with hp | hp
      · exact hrest p hp
      · rw [hp]; exact Pin.new_atRest X Y false
    · unfold Separated at *
      simp only
      rw [List.pairwise_append]
      refine ⟨hsep, by simp, ?_⟩
      intro q hq p hp
      simp at hp
      subst hp
      have hf := findPin_eq_none.mp hn q hq
      rw [Pin.isAt_of_atRest (hrest q hq)] at hf
      intro hnear
      unfold Pin.restNear at hnear
      simp [Pin.restIsAt, Pin.new, Positioning.Initialise, fabs] at hf hnear
      rw [abs_sub_comm X, abs_sub_comm Y] at hnear
      have := hf hnear.1
      linarith [hnear.2]

theorem Calm.withFixed {pins : List Pin} (h : Calm pins) {i : Nat} {p : Pin}
    (hp : pins[i]? = some p) : Calm (pins.set i { p with Fixed := true }) := by
  obtain ⟨hrest, hsep⟩ := h
  constructor
  · intro q hq
    rcases List.mem_or_eq_of_mem_set hq with hq | hq
    · exact hrest q hq
    · rw [hq]; exact hrest p (List.getElem?_mem hp)
  · refine separated_of_positions (map_eq_of_getElem? (by simp) fun j a hj => ?_) hsep
    rw [List.getElem?_set]
    by_cases hij : i = j
    · subst hij
      rw [hp] at hj
      simp at hj
      subst hj
      simp [(List.getElem?_eq_some.mp hp).1, Pin.restPosition]
    · simp [hij, hj]

theorem Calm.withFixedPin {b b' : Bridge} (h : Calm b.pins) {X Y : ℚ}
    (hb : b.addFixedPin X Y = some b') : Calm b'.pins := by
  unfold Bridge.addFixedPin at hb
  simp at hb
  obtain ⟨p, hp, rfl⟩ := hb
  exact (h.withPin X Y).withFixed hp

theorem Calm.withSlab {m : Libm} {b b' : Bridge} (h : Calm b.pins) {X1 Y1 X2 Y2 : ℚ}
    {P : Slab_Purpose} {r : Option Nat}
    (hb : Bridge.addSlab m b X1 Y1 X2 Y2 P = some (b', r)) : Calm b'.pins := by
  have h2 : Calm ((b.addPin X1 Y1).1.addPin X2 Y2).1.pins := (h.withPin X1 Y1).withPin X2 Y2
  by_cases hP : P = .Invalid
  · subst hP
    simp [Bridge.addSlab] at hb
    rw [← hb.1]
    exact h2
  · obtain ⟨slab, hs, _⟩ := addSlab_spec m b X1 Y1 X2 Y2 hP
    rw [hs] at hb
    simp at hb
    rw [← hb.1]
    exact h2

theorem Calm.nil : Calm [] :=
  ⟨by simp, List.Pairwise.nil⟩

theorem Calm.ofCreate {b b' : Bridge} {r : Bool} (hb : b.Create = some (b', r)) :
    Calm b'.pins := by
  unfold Bridge.Create at hb
  dsimp only at hb
  split at hb
  · simp at hb
  · next b1 h1 =>
    split at hb
    · simp at hb
    · next b2 h2 =>
      simp at hb
      obtain ⟨b3, h3, rfl, _⟩ := hb
      have h0 : Calm b.Destroy.1.pins := Calm.nil
      exact ((h0.withFixedPin h1).withFixedPin h2).withFixedPin h3

theorem Calm.ofSegments {m : Libm} {w s : ℚ} {n : Nat} :
    ∀ {index : Nat} {left : ℚ} {b b' : Bridge}, Calm b.pins →
      Bridge.testSegments m w s n index left b = some b' → Calm b'.pins := by
  induction n with
  | zero =>
    intro index left b b' h hb
    simp [Bridge.testSegments] at hb
    exact hb ▸ h
  | succ n ih =>
    intro index left b b' h hb
    unfold Bridge.testSegments at hb
    dsimp only at hb
    split at hb
    · simp at hb
    · next b1 _ h1 =>
      split at hb
      · simp at hb
      · next b2 _ h2 =>
        split at hb
        · simp at hb
        · next b3 _ h3 =>
          have i3 : Calm b3.pins := ((h.withSlab h1).withSlab h2).withSlab h3
          split at hb
          · simp at hb
          · next b4 _ h4 =>
            refine ih ?_ hb
            split at h4
            · exact i3.withSlab h4
            · simp only [Option.some.injEq, Prod.mk.injEq] at h4
              exact h4.1 ▸ i3

theorem Calm.ofTestBridge {m : Libm} {b b' : Bridge}
    (hb : b.CreateTestBridge m = some b') : Calm b'.pins := by
  unfold Bridge.CreateTestBridge at hb
  dsimp only at hb
  split at hb
  · simp at hb
  · next b1 h1 =>
    split at hb
    · simp at hb
    · next b2 h2 =>
      have h0 : Calm b.Destroy.1.pins := Calm.nil
      exact Calm.ofSegments ((h0.withFixedPin h1).withFixedPin h2) hb

theorem HandleTouch_car {m : Libm} {b b' : Bridge} {X Y : ℚ} (hc : b.editMode = .Car)
    (hb : b.HandleTouch m X Y = some b') : b'.pins = b.pins ∧ b'.slabs = b.slabs := by
  unfold Bridge.HandleTouch at hb
  rw [hc] at hb
  dsimp only at hb
  split at hb
  · split at hb
    · simp at hb
      subst hb
      exact ⟨rfl, rfl⟩
    · simp at hb
  · simp at hb
    subst hb
    exact ⟨rfl, rfl⟩

theorem Calm.afterTouch {m : Libm} {b b' : Bridge} {X Y : ℚ} (h : Calm b.pins)
    (hb : b.HandleTouch m X Y = some b') : Calm b'.pins := by
  by_cases hc : b.editMode = .Car
  · rw [(HandleTouch_car hc hb).1]
    exact h
  · unfold Bridge.HandleTouch at hb
    split at hb
    · next e => exact absurd e hc
    · split at hb
      · simp at hb
        subst hb
        exact h
      · next start hs =>
        dsimp only at hb
        split at hb
        · split at hb
          · next s p _ _ =>
            cases h1 : Bridge.addSlab m (b.addPin X Y).1 s.Transform.X s.Transform.Y
                p.Transform.X p.Transform.Y
                (if (b.addPin X Y).1.editMode = .Structure then .Structure else .Support) with
            | none => simp [h1] at hb
            | some res =>
              obtain ⟨b1, r⟩ := res
              simp [h1] at hb
              subst hb
              have hc1 : Calm b1.pins := (h.withPin X Y).withSlab h1
              exact hc1
          · simp at hb
        · simp at hb
          exact hb ▸ h.withPin X Y

theorem separated_apply {m : Libm} {b b' : Bridge} {op : Op} (hi : b.Inv)
    (hs : Separated b.pins) (hok : ¬ op.editsWhileRunning b)
    (hb : op.apply m b = some b') : Separated b'.pins := by
  have graph : b'.graph = b.graph → Separated b'.pins := fun g => by
    simp only [Bridge.graph, Prod.mk.injEq] at g
    exact separated_of_positions (positions_of_anchors g.1) hs
  cases op with
  | Create =>
    cases hc : b.Create with
    | none => simp [Op.apply, hc] at hb
    | some res =>
      obtain ⟨b1, r⟩ := res
      simp [Op.apply, hc] at hb
      exact hb ▸ (Calm.ofCreate hc).2
  | Destroy =>
    simp [Op.apply] at hb
    subst hb
    exact List.Pairwise.nil
  | CreateTestBridge => exact (Calm.ofTestBridge hb).2
  | Start =>
    obtain ⟨b'', w, h1, _, _, _, _, _, _, h8, _⟩ := Start_spec m hi.attached hi.purpose
    have : b.Start m = some b' := hb
    rw [this] at h1
    simp at h1
    subst h1
    exact graph h8
  | Stop =>
    simp [Op.apply] at hb
    subst hb
    exact graph (Stop_graph b)
  | Step f => exact graph (Step_spec hb).1
  | SetEditMode e =>
    simp [Op.apply] at hb
    subst hb
    exact hs
  | HandleTouch X Y =>
    by_cases hc : b.editMode = .Car
    · rw [(HandleTouch_car hc hb).1]
      exact hs
    · have hr : b.running = false := by
        simp only [Op.editsWhileRunning, not_and] at hok
        simpa using hok hc
      exact (Calm.afterTouch ⟨(hi.atRest hr).1, hs⟩ hb).2

theorem ReachableEditing.separated {m : Libm} {b : Bridge} (h : ReachableEditing m b) :
    Separated b.pins := by
  induction h with
  | create b₀ b r _ hc => exact (Calm.ofCreate hc).2
  | step b b' op hreach hok ha ih => exact separated_apply (ReachableVia.inv hreach) ih hok ha

/-! ## The scenarios are reachable -/

theorem Scenario.fresh_constructed : Bridge.fresh.Constructed := by
  simp [Bridge.Constructed, Bridge.fresh, MAX_BLOCKS]

theorem Scenario.create_fresh : Bridge.fresh.Create = some (Scenario.created, true) := by
  decide!

theorem Scenario.tap_created :
    Scenario.created.HandleTouch Libm.onAxis (-20) 0 = some Scenario.tapped := by
  decide!

theorem Scenario.tap_tapped :
    Scenario.tapped.HandleTouch Libm.onAxis (-19) 0 = some Scenario.built := by
  decide!

theorem Scenario.run_hanging :
    run Libm.onAxis [.Start, .Step Frame.hanging] Scenario.built = some Scenario.hanging := by
  decide!

theorem Scenario.stop_hanging : Scenario.hanging.Stop = Scenario.stopped := by
  decide!

theorem Scenario.run_boxed :
    run Libm.onAxis [.Start, .SetEditMode .Car, .HandleTouch 0 0] Scenario.created =
      some Scenario.boxed := by
  decide!

theorem Scenario.created_editing : ReachableEditing Libm.onAxis Scenario.created :=
  .create Bridge.fresh Scenario.created true Scenario.fresh_constructed Scenario.create_fresh

theorem Scenario.tapped_editing : ReachableEditing Libm.onAxis Scenario.tapped :=
  .step Scenario.created Scenario.tapped (.HandleTouch (-20) 0) Scenario.created_editing
    (by simp [Op.editsWhileRunning, Scenario.created]) Scenario.tap_created

theorem Scenario.built_editing : ReachableEditing Libm.onAxis Scenario.built :=
  .step Scenario.tapped Scenario.built (.HandleTouch (-19) 0) Scenario.tapped_editing
    (by simp [Op.editsWhileRunning, Scenario.tapped, Scenario.created]) Scenario.tap_tapped

theorem Scenario.hanging_reachable : Reachable Libm.onAxis Scenario.hanging :=
  ReachableVia.runs _ Scenario.built_editing.reachable (fun _ _ => trivial) Scenario.run_hanging

theorem Scenario.stopped_reachable : Reachable Libm.onAxis Scenario.stopped :=
  .step Scenario.hanging Scenario.stopped .Stop Scenario.hanging_reachable trivial
    (by simp [Op.apply, Scenario.stop_hanging])

theorem Scenario.boxed_reachable : Reachable Libm.onAxis Scenario.boxed :=
  ReachableVia.runs _ Scenario.created_editing.reachable (fun _ _ => trivial) Scenario.run_boxed

/-! ## Touches and runs of steps -/

theorem HandleTouch_edit {m : Libm} {b : Bridge} {X Y : ℚ} (hm : b.editMode ≠ .Car) :
    b.HandleTouch m X Y =
      match b.startPin with
      | none => some { b with startPin := b.getPinAt X Y (1 / 2) }
      | some start =>
        if (b.addPin X Y).2 ≠ start then
          match (b.addPin X Y).1.pins[start]?, (b.addPin X Y).1.pins[(b.addPin X Y).2]? with
          | some s, some p =>
            (Bridge.addSlab m (b.addPin X Y).1 s.Transform.X s.Transform.Y p.Transform.X
              p.Transform.Y
              (if (b.addPin X Y).1.editMode = .Structure then .Structure else .Support)).map
              fun r => { r.1 with startPin := none }
          | _, _ => none
        else some (b.addPin X Y).1 := by
  unfold Bridge.HandleTouch
  cases he : b.editMode with
  | Car => exact absurd he hm
  | Support => rfl
  | Structure => rfl

theorem addPin_fields (b : Bridge) (X Y : ℚ) :
    (b.addPin X Y).1.slabs = b.slabs ∧ (b.addPin X Y).1.startPin = b.startPin ∧
      (b.addPin X Y).1.editMode = b.editMode ∧ (b.addPin X Y).1.running = b.running ∧
      (b.addPin X Y).1.physics = b.physics ∧ (b.addPin X Y).1.boxes = b.boxes ∧
      (b.addPin X Y).1.boxCount = b.boxCount := by
  obtain ⟨ps, he, _⟩ := addPin_eq b X Y
  rw [he]
  simp

theorem run_steps {m : Libm} (fs : List Frame) :
    ∀ {b b' : Bridge}, run m (fs.map Op.Step) b = some b' →
      b'.graph = b.graph ∧ (Reachable m b → Reachable m b') := by
  induction fs with
  | nil =>
    intro b b' h
    simp [run] at h
    subst h
    exact ⟨rfl, id⟩
  | cons f fs ih =>
    intro b b' h
    simp only [List.map_cons, run] at h
    split at h
    · simp at h
    · next b1 h1 =>
      obtain ⟨g, r⟩ := ih h
      exact ⟨g.trans (Step_spec h1).1, fun hb => r (.step b b1 (.Step f) hb trivial h1)⟩

theorem addPin_of_findPin {b : Bridge} {X Y : ℚ} {i : Nat}
    (h : findPin X Y (1 / 2) b.pins = some i) : b.addPin X Y = (b, i) := by
  unfold Bridge.addPin Bridge.getPinAt
  rw [h]

/-! ## Sequences of `Set` calls -/

theorem Positioning.Sets_spec (bs : List Pose) :
    ∀ (t : Positioning), (t.Sets bs).rest = t.rest ∧
      (t.Sets bs).pose = (bs.getLast?).getD t.pose := by
  induction bs with
  | nil => intro t; exact ⟨rfl, rfl⟩
  | cons b bs ih =>
    intro t
    obtain ⟨h1, h2⟩ := ih (t.Set b.1 b.2.1 b.2.2)
    refine ⟨h1, ?_⟩
    rw [Positioning.Sets, h2]
    cases bs with
    | nil => rfl
    | cons c cs =>
      obtain ⟨x, hx⟩ : ∃ x, (c :: cs).getLast? = some x :=
        ⟨_, List.getLast?_eq_getLast _ (by simp)⟩
      simp [List.getLast?_cons_cons, hx]

/-! ## Resolving the same point twice -/

theorem findPin_append (X Y A : ℚ) (pins : List Pin) (p : Pin) :
    findPin X Y A (pins ++ [p]) =
      match findPin X Y A pins with
      | some i => some i
      | none => if p.isAt X Y A then some pins.length else none := by
  induction pins with
  | nil => simp [findPin]
  | cons q rest ih =>
    by_cases hq : q.isAt X Y A = true
    · simp [findPin, hq]
    · cases hf : findPin X Y A rest with
      | some i =>
        rw [hf] at ih
        simp [findPin, hq, ih, hf]
      | none =>
        rw [hf] at ih
        by_cases hp : p.isAt X Y A = true
        · simp [findPin, hq, ih, hf, hp]
        · simp [findPin, hq, ih, hf, hp]

theorem Pin.new_isAt (X Y : ℚ) (F : Bool) : (Pin.new X Y F).isAt X Y (1 / 2) = true := by
  simp [Pin.new, Pin.isAt, Positioning.Initialise, Positioning.X, Positioning.Y, fabs]

theorem addPin_twice (b : Bridge) (X Y : ℚ) :
    (b.addPin X Y).1.addPin X Y = ((b.addPin X Y).1, (b.addPin X Y).2) := by
  rcases addPin_cases b X Y with ⟨i, hi, he⟩ | ⟨hn, he⟩
  · rw [he]
    exact addPin_of_findPin hi
  · rw [he]
    apply addPin_of_findPin
    simp only [findPin_append, hn, Pin.new_isAt, if_true]

/-! ## The slab that `addSlab` builds -/

theorem Slab.initialise_eq (m : Libm) {pins : List Pin} (s : Slab) {l r : Nat} {L R : Pin}
    (Body : Option Handle) (hl : pins[l]? = some L) (hr : pins[r]? = some R) :
    Slab.initialise m pins s (some l) (some r) Body =
      some { Purpose := s.Purpose, Left := some l, Right := some r,
             Transform := s.Transform.Initialise
               (L.Transform.X + (R.Transform.X - L.Transform.X) / 2)
               (L.Transform.Y + (R.Transform.Y - L.Transform.Y) / 2)
               (m.atan2 (R.Transform.Y - L.Transform.Y) (R.Transform.X - L.Transform.X)),
             PhysicBody := Body,
             Length := m.sqrt ((R.Transform.X - L.Transform.X) * (R.Transform.X - L.Transform.X) +
               (R.Transform.Y - L.Transform.Y) * (R.Transform.Y - L.Transform.Y)) } := by
  simp [Slab.initialise, hl, hr]

theorem addSlab_eq (m : Libm) (b : Bridge) (X1 Y1 X2 Y2 : ℚ) {P : Slab_Purpose}
    (hP : P ≠ .Invalid) {L R : Pin}
    (hl : ((b.addPin X1 Y1).1.addPin X2 Y2).1.pins[(b.addPin X1 Y1).2]? = some L)
    (hr : ((b.addPin X1 Y1).1.addPin X2 Y2).1.pins[((b.addPin X1 Y1).1.addPin X2 Y2).2]? =
      some R) :
    Bridge.addSlab m b X1 Y1 X2 Y2 P =
      some ({ ((b.addPin X1 Y1).1.addPin X2 Y2).1 with
              slabs := b.slabs ++
                [{ Purpose := P, Left := some (b.addPin X1 Y1).2,
                   Right := some ((b.addPin X1 Y1).1.addPin X2 Y2).2,
                   Transform := Positioning.new.Initialise
                     (L.Transform.X + (R.Transform.X - L.Transform.X) / 2)
                     (L.Transform.Y + (R.Transform.Y - L.Transform.Y) / 2)
                     (m.atan2 (R.Transform.Y - L.Transform.Y)
                       (R.Transform.X - L.Transform.X)),
                   PhysicBody := none,
                   Length := m.sqrt
                     ((R.Transform.X - L.Transform.X) * (R.Transform.X - L.Transform.X) +
                       (R.Transform.Y - L.Transform.Y) * (R.Transform.Y - L.Transform.Y)) }] },
            some b.slabs.length) := by
  have hs : ((b.addPin X1 Y1).1.addPin X2 Y2).1.slabs = b.slabs := by
    rw [(addPin_fields _ X2 Y2).1, (addPin_fields b X1 Y1).1]
  cases P with
  | Invalid => exact absurd rfl hP
  | Support =>
    simp only [Bridge.addSlab, SlabSupport.new, Slab.new, Slab.initialise_eq m _ none hl hr,
      Option.map_some', hs]
  | Structure =>
    simp only [Bridge.addSlab, SlabStructure.new, Slab.new, Slab.initialise_eq m _ none hl hr,
      Option.map_some', hs]

/-! ## Seeding fixed pins -/

theorem addFixedPin_of_none {b : Bridge} {X Y : ℚ} (h : findPin X Y (1 / 2) b.pins = none) :
    b.addFixedPin X Y = some { b with pins := b.pins ++ [Pin.new X Y true] } := by
  unfold Bridge.addFixedPin Bridge.addPin Bridge.getPinAt
  rw [h]
  simp [Pin.new]

/-! ## What editing leaves alone -/

theorem Bridge.SameControls.refl (b : Bridge) : b.SameControls b :=
  ⟨rfl, rfl, rfl, rfl, rfl, rfl⟩

theorem Bridge.SameControls.trans {a b c : Bridge} (h1 : a.SameControls b)
    (h2 : b.SameControls c) : a.SameControls c := by
  obtain ⟨p1, s1, e1, r1, x1, c1⟩ := h1
  obtain ⟨p2, s2, e2, r2, x2, c2⟩ := h2
  exact ⟨p2.trans p1, s2.trans s1, e2.trans e1, r2.trans r1, x2.trans x1, c2.trans c1⟩

theorem addPin_controls (b : Bridge) (X Y : ℚ) : b.SameControls (b.addPin X Y).1 := by
  obtain ⟨_, h2, h3, h4, h5, h6, h7⟩ := addPin_fields b X Y
  exact ⟨h5, h2, h3, h4, h6, h7⟩

theorem addFixedPin_controls {b b' : Bridge} {X Y : ℚ} (h : b.addFixedPin X Y = some b') :
    b.SameControls b' ∧ b'.slabs = b.slabs := by
  unfold Bridge.addFixedPin at h
  simp at h
  obtain ⟨p, _, rfl⟩ := h
  exact ⟨addPin_controls b X Y, (addPin_fields b X Y).1⟩

theorem addSlab_controls {m : Libm} {b b' : Bridge} {X1 Y1 X2 Y2 : ℚ} {P : Slab_Purpose}
    {r : Option Nat} (h : Bridge.addSlab m b X1 Y1 X2 Y2 P = some (b', r)) :
    b.SameControls b' := by
  have h2 : b.SameControls ((b.addPin X1 Y1).1.addPin X2 Y2).1 :=
    (addPin_controls b X1 Y1).trans (addPin_controls _ X2 Y2)
  by_cases hP : P = .Invalid
  · subst hP
    simp [Bridge.addSlab] at h
    rw [← h.1]
    exact h2
  · obtain ⟨slab, hs, _⟩ := addSlab_spec m b X1 Y1 X2 Y2 hP
    rw [hs] at h
    simp at h
    rw [← h.1]
    exact h2

theorem testSegments_controls {m : Libm} {w s : ℚ} {n : Nat} :
    ∀ {index : Nat} {left : ℚ} {b b' : Bridge},
      Bridge.testSegments m w s n index left b = some b' → b.SameControls b' := by
  induction n with
  | zero =>
    intro index left b b' hb
    simp [Bridge.testSegments] at hb
    exact hb ▸ Bridge.SameControls.refl b
  | succ n ih =>
    intro index left b b' hb
    unfold Bridge.testSegments at hb
    dsimp only at hb
    split at hb
    · simp at hb
    · next b1 _ h1 =>
      split at hb
      · simp at hb
      · next b2 _ h2 =>
        split at hb
        · simp at hb
        · next b3 _ h3 =>
          have i3 : b.SameControls b3 :=
            ((addSlab_controls h1).trans (addSlab_controls h2)).trans (addSlab_controls h3)
          split at hb
          · simp at hb
          · next b4 _ h4 =>
            refine Bridge.SameControls.trans ?_ (ih hb)
            split at h4
            · exact i3.trans (addSlab_controls h4)
            · simp only [Option.some.injEq, Prod.mk.injEq] at h4
              exact h4.1 ▸ i3

theorem CreateTestBridge_controls {m : Libm} {b b' : Bridge}
    (hb : b.CreateTestBridge m = some b') : b.Destroy.1.SameControls b' := by
  unfold Bridge.CreateTestBridge at hb
  dsimp only at hb
  split at hb
  · simp at hb
  · next b1 h1 =>
    split at hb
    · simp at hb
    · next b2 h2 =>
      exact ((addFixedPin_controls h1).1.trans (addFixedPin_controls h2).1).trans
        (testSegments_controls hb)

theorem Create_controls {b b' : Bridge} {r : Bool} (hb : b.Create = some (b', r)) :
    b.Destroy.1.SameControls b' := by
  unfold Bridge.Create at hb
  dsimp only at hb
  split at hb
  · simp at hb
  · next b1 h1 =>
    split at hb
    · simp at hb
    · next b2 h2 =>
      simp at hb
      obtain ⟨b3, h3, rfl, _⟩ := hb
      exact ((addFixedPin_controls h1).1.trans (addFixedPin_controls h2).1).trans
        (addFixedPin_controls h3).1

theorem HandleTouch_edit_controls {m : Libm} {b b' : Bridge} {X Y : ℚ}
    (hm : b.editMode ≠ .Car) (hb : b.HandleTouch m X Y = some b') :
    b'.physics = b.physics ∧ b'.running = b.running ∧ b'.boxes = b.boxes ∧
      b'.boxCount = b.boxCount := by
  rw [HandleTouch_edit hm] at hb
  split at hb
  · simp at hb
    subst hb
    exact ⟨rfl, rfl, rfl, rfl⟩
  · next start hs =>
    obtain ⟨p1, _, _, r1, x1, c1⟩ := addPin_controls b X Y
    split at hb
    · split at hb
      · next s p _ _ =>
        cases h1 : Bridge.addSlab m (b.addPin X Y).1 s.Transform.X s.Transform.Y
            p.Transform.X p.Transform.Y
            (if (b.addPin X Y).1.editMode = .Structure then .Structure else .Support) with
        | none => simp [h1] at hb
        | some res =>
          obtain ⟨b1, r⟩ := res
          simp [h1] at hb
          subst hb
          obtain ⟨p2, _, _, r2, x2, c2⟩ := addSlab_controls h1
          exact ⟨p2.trans p1, r2.trans r1, x2.trans x1, c2.trans c1⟩
      · simp at hb
    · simp at hb
      subst hb
      exact ⟨p1, r1, x1, c1⟩

/-! ## The debug boxes -/

theorem Physics.HandleSupportForce_world {ph ph' : Physics} {f : Frame}
    {Joint j : Option Handle} {R M r : ℚ}
    (h : ph.HandleSupportForce f Joint R M = some (ph', j, r)) :
    ph'.world = none ↔ ph.world = none := by
  unfold Physics.HandleSupportForce at h
  split at h
  · simp at h; obtain ⟨rfl, _, _⟩ := h; rfl
  · simp at h; obtain ⟨rfl, _, _⟩ := h; rfl
  · next w hw =>
    split at h
    · dsimp only at h
      split at h
      · simp at h; obtain ⟨rfl, _, _⟩ := h; simp [hw]
      · simp at h; obtain ⟨rfl, _, _⟩ := h; rfl
    · simp at h

theorem Physics.HandlePinForce_world {ph ph' : Physics} {f : Frame}
    {Body : Option Handle} {M : ℚ} (h : ph.HandlePinForce f Body M = some ph') :
    ph'.world = none ↔ ph.world = none := by
  unfold Physics.HandlePinForce at h
  split at h
  · simp at h; subst h; rfl
  · simp at h; subst h; rfl
  · next w hw =>
    split at h
    · simp at h; subst h; simp [hw]
    · simp at h

theorem stepSlabs_world {f : Frame} {running : Bool} {pins : List Pin} {slabs : List Slab} :
    ∀ {ph ph' : Physics} {slabs' : List Slab},
      Bridge.stepSlabs f running pins ph slabs = some (ph', slabs') →
      (ph'.world = none ↔ ph.world = none) := by
  induction slabs with
  | nil =>
    intro ph ph' slabs' h
    simp [Bridge.stepSlabs] at h
    obtain ⟨rfl, _⟩ := h
    rfl
  | cons s rest ih =>
    intro ph ph' slabs' h
    unfold Bridge.stepSlabs at h
    split at h
    · split at h
      · simp at h
      · split at h
        · simp at h
        · next ph1 rest1 h1 =>
          simp at h
          obtain ⟨rfl, _⟩ := h
          exact ih h1
    · split at h
      · simp at h
      · next ph0 joint force hj =>
        dsimp only at h
        split at h
        · simp at h
        · split at h
          · simp at h
          · next ph1 rest1 h1 =>
            simp at h
            obtain ⟨rfl, _⟩ := h
            exact (ih h1).trans (Physics.HandleSupportForce_world hj)
    · split at h
      · simp at h
      · next ph1 rest1 h1 =>
        simp at h
        obtain ⟨rfl, _⟩ := h
        exact ih h1

theorem stepPins_world {f : Frame} {pins : List Pin} :
    ∀ {ph ph' : Physics} {pins' : List Pin},
      Bridge.stepPins f ph pins = some (ph', pins') → (ph'.world = none ↔ ph.world = none) := by
  induction pins with
  | nil =>
    intro ph ph' pins' h
    simp [Bridge.stepPins] at h
    obtain ⟨rfl, _⟩ := h
    rfl
  | cons p rest ih =>
    intro ph ph' pins' h
    unfold Bridge.stepPins at h
    split at h
    · simp at h
    · next ph0 h0 =>
      split at h
      · simp at h
      · split at h
        · simp at h
        · next ph1 rest1 h1 =>
          simp at h
          obtain ⟨rfl, _⟩ := h
          exact (ih h1).trans (Physics.HandlePinForce_world h0)

theorem Step_world {b b' : Bridge} {f : Frame} (h : b.Step f = some b') :
    b'.physics.world = none ↔ b.physics.world = none := by
  unfold Bridge.Step at h
  dsimp only [Physics.Step] at h
  split at h
  · simp at h
  · next ph1 slabs1 h1 =>
    split at h
    · simp at h
    · next ph2 pins2 h2 =>
      have hb : b'.physics = ph2 := by
        split at h
        · simp at h
          obtain ⟨_, rfl⟩ := h
          rfl
        · simp at h
          subst h
          rfl
      rw [hb]
      exact (stepPins_world h2).trans (stepSlabs_world h1)

theorem HandleTouch_car_eq {m : Libm} {b : Bridge} {X Y : ℚ} (hc : b.editMode = .Car) :
    b.HandleTouch m X Y =
      if b.running ∧ b.boxCount < MAX_BLOCKS then
        if 0 ≤ b.boxCount then
          some { b with physics := (b.physics.AddBox X Y 10).1,
                        boxes := b.boxes.set b.boxCount.toNat (b.physics.AddBox X Y 10).2,
                        boxCount := b.boxCount + 1 }
        else none
      else some b := by
  unfold Bridge.HandleTouch
  rw [hc]

theorem Physics.AddBox_world (ph : Physics) (X Y M : ℚ) :
    (ph.AddBox X Y M).1.world = none ↔ ph.world = none := by
  unfold Physics.AddBox
  split
  · next h => simp [h]
  · next w h => simp [h]

theorem Start_boxes {m : Libm} {b b' : Bridge} (hi : b.Inv) (hb : b.Start m = some b') :
    b'.boxes = List.replicate MAX_BLOCKS none ∧ b'.boxCount = 0 ∧ b'.running = true ∧
      b'.physics.world ≠ none := by
  have g := Stop_graph b
  simp only [Bridge.graph, Prod.mk.injEq] at g
  have hlen : b.Stop.pins.length = b.pins.length := length_eq_of_map_eq g.1
  obtain ⟨b'', w, h1, h2, h3, _, _, _, _, _, _, _, h11, h12⟩ :=
    createSimulation_spec m (b := b.Stop) (hlen ▸ attached_of_edges g.2 hi.attached)
      (purpose_of_edges g.2 hi.purpose)
  have : b.Stop.createSimulation m = some b' := hb
  rw [this] at h1
  simp at h1
  subst h1
  exact ⟨h11, h12, h2, by simp [h3]⟩

theorem Bridge.BoxInv.kept {m : Libm} {b b' : Bridge} {op : Op} (hi : b.Inv) (h : b.BoxInv)
    (hb : op.apply m b = some b') : b'.BoxInv := by
  cases op with
  | Create =>
    cases hc : b.Create with
    | none => simp [Op.apply, hc] at hb
    | some res =>
      obtain ⟨b1, r⟩ := res
      simp [Op.apply, hc] at hb
      subst hb
      obtain ⟨_, _, _, r1, x1, _⟩ := Create_controls hc
      exact {
        slots := by rw [x1]; exact h.slots
        count := fun hr => by rw [r1] at hr; simp [Bridge.Destroy] at hr
        live := fun hr => by rw [r1] at hr; simp [Bridge.Destroy] at hr }
  | Destroy =>
    simp [Op.apply] at hb
    subst hb
    exact {
      slots := h.slots
      count := fun hr => by simp [Bridge.Destroy] at hr
      live := fun hr => by simp [Bridge.Destroy] at hr }
  | CreateTestBridge =>
    obtain ⟨_, _, _, r1, x1, _⟩ := CreateTestBridge_controls hb
    exact {
      slots := by rw [x1]; exact h.slots
      count := fun hr => by rw [r1] at hr; simp [Bridge.Destroy] at hr
      live := fun hr => by rw [r1] at hr; simp [Bridge.Destroy] at hr }
  | Start =>
    obtain ⟨x, c, _, w⟩ := Start_boxes hi hb
    exact {
      slots := by rw [x]; simp
      count := fun _ => by rw [c]; simp [MAX_BLOCKS]
      live := fun _ => w }
  | Stop =>
    simp [Op.apply] at hb
    subst hb
    exact {
      slots := by simp [Bridge.Stop]
      count := fun hr => by simp [Bridge.Stop] at hr
      live := fun hr => by simp [Bridge.Stop] at hr }
  | Step f =>
    obtain ⟨_, _, _, _, _, r, x, c, _⟩ := Step_spec hb
    have w := Step_world hb
    exact {
      slots := by rw [x]; exact h.slots
      count := fun hr => by rw [c]; exact h.count (r ▸ hr)
      live := fun hr hn => h.live (r ▸ hr) (w.mp hn) }
  | SetEditMode e =>
    simp [Op.apply] at hb
    subst hb
    exact { slots := h.slots, count := h.count, live := h.live }
  | HandleTouch X Y =>
    have hb' : b.HandleTouch m X Y = some b' := hb
    by_cases hc : b.editMode = .Car
    · rw [HandleTouch_car_eq hc] at hb'
      split at hb'
      · next hcond =>
        split at hb'
        · next h0 =>
          simp at hb'
          subst hb'
          exact {
            slots := by simp [h.slots]
            count := fun _ => by
              have := hcond.2
              constructor <;> simp only <;> omega
            live := fun _ hn =>
              h.live hcond.1 ((Physics.AddBox_world b.physics X Y 10).mp hn) }
        · simp at hb'
      · simp at hb'
        exact hb' ▸ h
    · obtain ⟨p, r, x, c⟩ := HandleTouch_edit_controls hc hb'
      exact {
        slots := by rw [x]; exact h.slots
        count := fun hr => by rw [c]; exact h.count (r ▸ hr)
        live := fun hr => by rw [p]; exact h.live (r ▸ hr) }

theorem Reachable.boxes {m : Libm} {ok : Op → Bridge → Prop} {b : Bridge}
    (h : ReachableVia m ok b) : b.BoxInv := by
  induction h with
  | create b₀ b r h0 hc =>
    obtain ⟨_, _, _, r1, x1, _⟩ := Create_controls hc
    exact {
      slots := by rw [x1]; exact h0.2.2.2.2
      count := fun hr => by rw [r1] at hr; simp [Bridge.Destroy] at hr
      live := fun hr => by rw [r1] at hr; simp [Bridge.Destroy] at hr }
  | step b b' op hreach _ ha ih => exact ih.kept (ReachableVia.inv hreach) ha

/-! ## The test bridge does not depend on the math library or on the prior state -/

theorem addPin_shape {b c : Bridge} (h : b.SameShape c) (X Y : ℚ) :
    (b.addPin X Y).1.SameShape (c.addPin X Y).1 ∧ (b.addPin X Y).2 = (c.addPin X Y).2 := by
  obtain ⟨hp, hs⟩ := h
  unfold Bridge.addPin Bridge.getPinAt
  rw [hp]
  cases findPin X Y (1 / 2) c.pins with
  | some i => exact ⟨⟨hp, hs⟩, rfl⟩
  | none => exact ⟨⟨by simp [hp], hs⟩, rfl⟩

theorem addFixedPin_total (b : Bridge) (X Y : ℚ) : ∃ b', b.addFixedPin X Y = some b' := by
  unfold Bridge.addFixedPin
  simp [List.getElem?_eq_getElem (addPin_lt b X Y)]

theorem addFixedPin_shape {b c b' c' : Bridge} {X Y : ℚ} (h : b.SameShape c)
    (hb : b.addFixedPin X Y = some b') (hc : c.addFixedPin X Y = some c') :
    b'.SameShape c' := by
  obtain ⟨⟨hp, hs⟩, hi⟩ := addPin_shape h X Y
  unfold Bridge.addFixedPin at hb hc
  simp at hb hc
  obtain ⟨p, hp1, rfl⟩ := hb
  obtain ⟨q, hq1, rfl⟩ := hc
  rw [hp, hi, hq1] at hp1
  simp at hp1
  subst hp1
  exact ⟨by simp [hp, hi], hs⟩

theorem addSlab_shape {m k : Libm} {b c : Bridge} (h : b.SameShape c) (X1 Y1 X2 Y2 : ℚ)
    {P : Slab_Purpose} (hP : P ≠ .Invalid) :
    ∃ b' c' r r', Bridge.addSlab m b X1 Y1 X2 Y2 P = some (b', r) ∧
      Bridge.addSlab k c X1 Y1 X2 Y2 P = some (c', r') ∧ b'.SameShape c' := by
  obtain ⟨sb, hb, l1, l2, l3, _⟩ := addSlab_spec m b X1 Y1 X2 Y2 hP
  obtain ⟨sc, hc, k1, k2, k3, _⟩ := addSlab_spec k c X1 Y1 X2 Y2 hP
  obtain ⟨h1, i1⟩ := addPin_shape h X1 Y1
  obtain ⟨⟨hp, hs⟩, i2⟩ := addPin_shape h1 X2 Y2
  refine ⟨_, _, _, _, hb, hc, hp, ?_⟩
  simp only [List.map_append, List.map_cons, List.map_nil, hs, Slab.edge, l1, l2, l3, k1, k2,
    k3, i1, i2]

theorem testSegments_shape {m k : Libm} {w s : ℚ} (n : Nat) :
    ∀ (index : Nat) (left : ℚ) {b c : Bridge}, b.SameShape c →
      ∃ b' c', Bridge.testSegments m w s n index left b = some b' ∧
        Bridge.testSegments k w s n index left c = some c' ∧ b'.SameShape c' := by
  induction n with
  | zero =>
    intro index left b c h
    exact ⟨b, c, rfl, rfl, h⟩
  | succ n ih =>
    intro index left b c h
    obtain ⟨b1, c1, _, _, hb1, hc1, h1⟩ :=
      addSlab_shape (m := m) (k := k) h left 0 (left + w) 0 (P := .Structure) (by simp)
    obtain ⟨b2, c2, _, _, hb2, hc2, h2⟩ :=
      addSlab_shape (m := m) (k := k) h1 left 0 (left + (left + w - left) / 2) s
        (P := .Support) (by simp)
    obtain ⟨b3, c3, _, _, hb3, hc3, h3⟩ :=
      addSlab_shape (m := m) (k := k) h2 (left + (left + w - left) / 2) s (left + w) 0
        (P := .Support) (by simp)
    by_cases hi : index > 0
    · obtain ⟨b4, c4, _, _, hb4, hc4, h4⟩ :=
        addSlab_shape (m := m) (k := k) h3 (left + (left + w - left) / 2) s
          (left + (left + w - left) / 2 - w) s (P := .Support) (by simp)
      obtain ⟨b5, c5, hb5, hc5, h5⟩ := ih (index + 1) (left + w) h4
      refine ⟨b5, c5, ?_, ?_, h5⟩
      · unfold Bridge.testSegments
        simp only [hb1, hb2, hb3, hi, if_true, hb4, hb5]
      · unfold Bridge.testSegments
        simp only [hc1, hc2, hc3, hi, if_true, hc4, hc5]
    · obtain ⟨b5, c5, hb5, hc5, h5⟩ := ih (index + 1) (left + w) h3
      refine ⟨b5, c5, ?_, ?_, h5⟩
      · unfold Bridge.testSegments
        simp only [hb1, hb2, hb3, hi, if_false, hb5]
      · unfold Bridge.testSegments
        simp only [hc1, hc2, hc3, hi, if_false, hc5]

theorem CreateTestBridge_shape (m k : Libm) (b c : Bridge) :
    ∃ b' c', b.CreateTestBridge m = some b' ∧ c.CreateTestBridge k = some c' ∧
      b'.SameShape c' := by
  have h0 : b.Destroy.1.SameShape c.Destroy.1 := ⟨rfl, rfl⟩
  obtain ⟨b1, hb1⟩ := addFixedPin_total b.Destroy.1 (-(8 : ℚ) * ((5 : Nat) / 2)) 0
  obtain ⟨c1, hc1⟩ := addFixedPin_total c.Destroy.1 (-(8 : ℚ) * ((5 : Nat) / 2)) 0
  have h1 := addFixedPin_shape h0 hb1 hc1
  obtain ⟨b2, hb2⟩ := addFixedPin_total b1 ((8 : ℚ) * ((5 : Nat) / 2)) 0
  obtain ⟨c2, hc2⟩ := addFixedPin_total c1 ((8 : ℚ) * ((5 : Nat) / 2)) 0
  have h2 := addFixedPin_shape h1 hb2 hc2
  obtain ⟨b3, c3, hb3, hc3, h3⟩ :=
    testSegments_shape (m := m) (k := k) (w := 8) (s := 5) 5 0
      (-(8 : ℚ) * ((5 : Nat) / 2)) h2
  refine ⟨b3, c3, ?_, ?_, h3⟩
  · unfold Bridge.CreateTestBridge
    simp only [hb1, hb2, hb3]
  · unfold Bridge.CreateTestBridge
    simp only [hc1, hc2, hc3]

theorem Scenario.testBridge_fresh :
    (Bridge.fresh.CreateTestBridge Libm.onAxis).map (fun c => (c.pins, c.slabs.map Slab.edge)) =
      some (Scenario.testPins, Scenario.testEdges) := by
  decide!

/-! ## The first pin in the square -/

theorem Pin.isAt_iff (p : Pin) (X Y A : ℚ) :
    p.isAt X Y A = true ↔
      |p.Transform.xCurrent - X| ≤ A ∧ |p.Transform.yCurrent - Y| ≤ A := by
  simp [Pin.isAt, fabs, Positioning.X, Positioning.Y]

theorem findPin_eq_some_iff {X Y A : ℚ} {pins : List Pin} {i : Nat} :
    findPin X Y A pins = some i ↔
      ∃ p, pins[i]? = some p ∧ p.isAt X Y A = true ∧
        ∀ j q, j < i → pins[j]? = some q → q.isAt X Y A = false := by
  constructor
  · intro h
    obtain ⟨⟨p, hp, hat⟩, hmin⟩ := findPin_first h
    exact ⟨p, hp, hat, hmin⟩
  · rintro ⟨p, hp, hat, hmin⟩
    obtain ⟨k, hk⟩ := findPin_isSome (List.getElem?_mem hp) hat
    obtain ⟨⟨q, hq, hqat⟩, hkmin⟩ := findPin_first hk
    rcases Nat.lt_trichotomy k i with hlt | heq | hgt
    · rw [hmin k q hlt hq] at hqat
      exact absurd hqat (by simp)
    · rw [hk, heq]
    · rw [hkmin i p hgt hp] at hat
      exact absurd hat (by simp)

/-! ## Separation, pin by pin -/

theorem Pin.restNear_symm {p q : Pin} (h : p.restNear q) : q.restNear p := by
  unfold Pin.restNear fabs at *
  rw [abs_sub_comm p.Transform.xOriginal, abs_sub_comm p.Transform.yOriginal]
  exact h

theorem separated_getElem {pins : List Pin} (h : Separated pins) :
    ∀ (i j : Nat) (p q : Pin), i < j → pins[i]? = some p → pins[j]? = some q →
      ¬ p.restNear q := by
  induction pins with
  | nil => intro i j p q _ hp; simp at hp
  | cons a rest ih =>
    intro i j p q hij hp hq
    unfold Separated at h
    rw [List.pairwise_cons] at h
    cases j with
    | zero => omega
    | succ j =>
      simp at hq
      cases i with
      | zero =>
        simp at hp
        subst hp
        exact h.1 q (List.getElem?_mem hq)
      | succ i =>
        simp at hp
        exact ih h.2 i j p q (by omega) hp hq

theorem ReachableVia.runs_of {m : Libm} {ok : Op → Bridge → Prop} :
    ∀ (ops : List Op) {b b' : Bridge}, ReachableVia m ok b →
      (∀ op ∈ ops, ∀ c, ok op c) → run m ops b = some b' → ReachableVia m ok b' := by
  intro ops
  induction ops with
  | nil =>
    intro b b' h _ hr
    simp [BridgeBuilder.run] at hr
    exact hr ▸ h
  | cons op ops ih =>
    intro b b' h hok hr
    unfold BridgeBuilder.run at hr
    split at hr
    · simp at hr
    · next b1 h1 =>
      exact ih (.step b b1 op h (hok op (List.mem_cons_self _ _) b) h1)
        (fun o ho => hok o (List.mem_cons_of_mem _ ho)) hr

theorem Scenario.hanging_editing : ReachableEditing Libm.onAxis Scenario.hanging :=
  ReachableVia.runs_of _ Scenario.built_editing
    (fun op hop c => by
      simp only [List.mem_cons, List.mem_singleton, List.not_mem_nil, or_false] at hop
      rcases hop with rfl | rfl <;> simp [Op.editsWhileRunning])
    Scenario.run_hanging

/-! ## Handles under changes of the world -/

theorem isJoint_append {w : b2World} {h : Handle} (rs : List Request)
    (hj : w.isJoint h = true) :
    b2World.isJoint { w with requests := w.requests ++ rs } h = true := by
  unfold b2World.isJoint at *
  cases hr : w.requests[h.index]? with
  | none => simp [hr] at hj
  | some r =>
    have hlt : h.index < w.requests.length := (List.getElem?_eq_some.mp hr).1
    rw [hr] at hj
    simp only [List.getElem?_append_left hlt, hr]
    exact hj

theorem isBody_destroyed (w : b2World) (h : Handle) (D : List JointId) :
    b2World.isBody { w with destroyed := D } h = w.isBody h :=
  rfl

theorem isJoint_destroyed {w : b2World} {h : Handle} (D : List JointId)
    (hj : w.isJoint h = true) (hD : (⟨h.index, false⟩ : JointId) ∉ D) :
    b2World.isJoint { w with destroyed := w.destroyed ++ D } h = true := by
  unfold b2World.isJoint at *
  simp only [Bool.and_eq_true, Bool.not_eq_true', beq_iff_eq] at hj ⊢
  refine ⟨hj.1, ?_⟩
  have := hj.2
  simp only [List.contains_eq_any_beq, List.any_eq_false, beq_iff_eq, List.mem_append] at this ⊢
  rintro x (hx | hx)
  · exact this x hx
  · intro hxe
    rw [hxe] at hD
    exact hD hx

theorem isJoint_not_destroyed {w : b2World} {h : Handle} (hj : w.isJoint h = true) :
    (⟨h.index, false⟩ : JointId) ∉ w.destroyed := by
  unfold b2World.isJoint at hj
  simp only [Bool.and_eq_true, Bool.not_eq_true'] at hj
  have := hj.2
  simp only [List.contains_eq_any_beq, List.any_eq_false, beq_iff_eq] at this
  intro hm
  exact this _ hm rfl

theorem Physics.HandleSupportForce_live {ph : Physics} {w : b2World} (f : Frame) {h : Handle}
    (R M : ℚ) (hw : ph.world = some w) (hj : w.isJoint h = true) :
    ph.HandleSupportForce f (some h) R M =
      if f.Force ⟨h.index, false⟩ ≥ M then
        some ({ ph with
                world := some { w with destroyed := w.destroyed ++ [⟨h.index, false⟩] } },
          none, M)
      else some (ph, some h, f.Force ⟨h.index, false⟩) := by
  simp [Physics.HandleSupportForce, hw, hj]

theorem Physics.HandleSupportForce_kept {ph ph' : Physics} {w : b2World} {f : Frame}
    {Joint j : Option Handle} {R M r : ℚ} (hw : ph.world = some w)
    (h : ph.HandleSupportForce f Joint R M = some (ph', j, r)) :
    ∃ D, ph'.world = some { w with destroyed := w.destroyed ++ D } ∧
      (∀ d ∈ D, M ≤ f.Force d) ∧ (j = Joint ∨ j = none) ∧
      (∀ k, j = some k → f.Force ⟨k.index, false⟩ < M) ∧
      (∀ d ∈ D, ∃ k, Joint = some k ∧ d = ⟨k.index, false⟩) := by
  unfold Physics.HandleSupportForce at h
  split at h
  · simp at h
    obtain ⟨rfl, rfl, _⟩ := h
    exact ⟨[], by simp [hw], by simp, by simp, by simp, by simp⟩
  · next hn => rw [hw] at hn; simp at hn
  · next k w' hw' =>
    rw [hw] at hw'
    simp at hw'
    subst hw'
    split at h
    · dsimp only at h
      split at h
      · next hge =>
        simp at h
        obtain ⟨rfl, rfl, _⟩ := h
        exact ⟨[⟨k.index, false⟩], rfl, by simpa using hge, by simp, by simp, by simp⟩
      · next hlt =>
        simp at h
        obtain ⟨rfl, rfl, _⟩ := h
        refine ⟨[], by simp [hw], by simp, by simp, ?_, by simp⟩
        intro k' hk'
        simp at hk'
        subst hk'
        exact not_le.mp hlt
    · simp at h

theorem Physics.HandlePinForce_kept {ph ph' : Physics} {w : b2World} {f : Frame}
    {Body : Option Handle} {M : ℚ} (hw : ph.world = some w)
    (h : ph.HandlePinForce f Body M = some ph') :
    ∃ D, ph'.world = some { w with destroyed := w.destroyed ++ D } ∧
      ∀ d ∈ D, M * M < f.Force d * f.Force d := by
  unfold Physics.HandlePinForce at h
  split at h
  · simp at h
    subst h
    exact ⟨[], by simp [hw], by simp⟩
  · next hn => rw [hw] at hn; simp at hn
  · next k w' hw' =>
    rw [hw] at hw'
    simp at hw'
    subst hw'
    split at h
    · simp at h
      subst h
      refine ⟨_, rfl, ?_⟩
      intro d hd
      simp only [List.mem_filter, decide_eq_true_eq] at hd
      exact hd.2
    · simp at h

theorem Physics.GetTransform_world {ph : Physics} {w : b2World} (f : Frame)
    (Body : Option Handle) (R : Positioning) (hw : ph.world = some w)
    (hb : ∀ h, Body = some h → w.isBody h = true) :
    ∃ t, ph.GetTransform f Body R = some t := by
  unfold Physics.GetTransform
  cases Body with
  | none => exact ⟨R, by simp⟩
  | some h =>
    rw [hw]
    simp [hb h rfl]

/-! ## The two loops of a step and the joints they destroy -/

theorem stepSlabs_live {f : Frame} {running : Bool} {pins : List Pin} (slabs : List Slab) :
    ∀ {ph ph' : Physics} {w : b2World} {slabs' : List Slab}, ph.world = some w →
      Bridge.stepSlabs f running pins ph slabs = some (ph', slabs') →
      ∃ D, ph'.world = some { w with destroyed := w.destroyed ++ D } ∧
        (∀ d ∈ D, BREAK_AT_FORCE ≤ f.Force d) ∧
        (∀ s' ∈ slabs', ∃ s ∈ slabs, s'.Purpose = s.Purpose ∧
          (s'.PhysicBody = s.PhysicBody ∨ s'.PhysicBody = none) ∧
          (s.Purpose = .Support → ∀ h, s'.PhysicBody = some h →
            f.Force ⟨h.index, false⟩ < BREAK_AT_FORCE)) ∧
        (slabs.Pairwise Slab.apart → slabs'.Pairwise Slab.apart) := by
  induction slabs with
  | nil =>
    intro ph ph' w slabs' hw h
    simp [Bridge.stepSlabs] at h
    obtain ⟨rfl, rfl⟩ := h
    exact ⟨[], by simp [hw], by simp, by simp, by simp⟩
  | cons s rest ih =>
    intro ph ph' w slabs' hw h
    have key : ∀ (s1 : Slab) (rest1 : List Slab),
        s1.PhysicBody = s.PhysicBody ∨ s1.PhysicBody = none →
        (∀ s' ∈ rest1, ∃ t ∈ rest, s'.Purpose = t.Purpose ∧
          (s'.PhysicBody = t.PhysicBody ∨ s'.PhysicBody = none) ∧
          (t.Purpose = .Support → ∀ h, s'.PhysicBody = some h →
            f.Force ⟨h.index, false⟩ < BREAK_AT_FORCE)) →
        (rest.Pairwise Slab.apart → rest1.Pairwise Slab.apart) →
        (s :: rest).Pairwise Slab.apart → (s1 :: rest1).Pairwise Slab.apart := by
      intro s1 rest1 h1 hrel hp hall
      rw [List.pairwise_cons] at hall ⊢
      refine ⟨fun t' ht' a k ha hk => ?_, hp hall.2⟩
      obtain ⟨t, ht, _, hb, _⟩ := hrel t' ht'
      have ha' : s.PhysicBody = some a := by
        rcases h1 with e | e
        · rw [← e]; exact ha
        · rw [e] at ha; simp at ha
      have hk' : t.PhysicBody = some k := by
        rcases hb with e | e
        · rw [← e]; exact hk
        · rw [e] at hk; simp at hk
      exact hall.1 t ht a k ha' hk'
    unfold Bridge.stepSlabs at h
    split at h
    · -- Structure
      next hP =>
      split at h
      · simp at h
      · next t ht =>
        split at h
        · simp at h
        · next ph1 rest1 h1 =>
          simp at h
          obtain ⟨rfl, rfl⟩ := h
          obtain ⟨D, hD, hF, hrel, hp⟩ := ih hw h1
          refine ⟨D, hD, hF, ?_, key _ rest1 (Or.inl rfl) hrel hp⟩
          intro s' hs'
          rcases List.mem_cons.mp hs' with rfl | hs'
          · exact ⟨s, List.mem_cons_self _ _, rfl, Or.inl rfl, fun h' => by simp [hP] at h'⟩
          · obtain ⟨t', ht', r⟩ := hrel s' hs'
            exact ⟨t', List.mem_cons_of_mem _ ht', r⟩
    · -- Support
      next hP =>
      split at h
      · simp at h
      · next ph0 joint force hj =>
        dsimp only at h
        split at h
        · simp at h
        · split at h
          · simp at h
          · next ph1 rest1 h1 =>
            simp at h
            obtain ⟨rfl, rfl⟩ := h
            obtain ⟨D0, hD0, hF0, hj0, hk0, _⟩ := Physics.HandleSupportForce_kept hw hj
            obtain ⟨D, hD, hF, hrel, hp⟩ := ih hD0 h1
            refine ⟨D0 ++ D, by simp [hD, List.append_assoc], ?_, ?_,
              key _ rest1 hj0 hrel hp⟩
            · intro d hd
              rcases List.mem_append.mp hd with hd | hd
              · exact hF0 d hd
              · exact hF d hd
            · intro s' hs'
              rcases List.mem_cons.mp hs' with rfl | hs'
              · exact ⟨s, List.mem_cons_self _ _, rfl, hj0, fun _ k hk => hk0 k hk⟩
              · obtain ⟨t', ht', r⟩ := hrel s' hs'
                exact ⟨t', List.mem_cons_of_mem _ ht', r⟩
    · -- Invalid
      next hP =>
      split at h
      · simp at h
      · next ph1 rest1 h1 =>
        simp at h
        obtain ⟨rfl, rfl⟩ := h
        obtain ⟨D, hD, hF, hrel, hp⟩ := ih hw h1
        refine ⟨D, hD, hF, ?_, key _ rest1 (Or.inl rfl) hrel hp⟩
        intro s' hs'
        rcases List.mem_cons.mp hs' with rfl | hs'
        · exact ⟨s', List.mem_cons_self _ _, rfl, Or.inl rfl, fun h' => by simp [hP] at h'⟩
        · obtain ⟨t', ht', r⟩ := hrel s' hs'
          exact ⟨t', List.mem_cons_of_mem _ ht', r⟩

theorem stepPins_live {f : Frame} (pins : List Pin) :
    ∀ {ph ph' : Physics} {w : b2World} {pins' : List Pin}, ph.world = some w →
      Bridge.stepPins f ph pins = some (ph', pins') →
      ∃ D, ph'.world = some { w with destroyed := w.destroyed ++ D } ∧
        ∀ d ∈ D, BREAK_AT_FORCE * BREAK_AT_FORCE < f.Force d * f.Force d := by
  induction pins with
  | nil =>
    intro ph ph' w pins' hw h
    simp [Bridge.stepPins] at h
    obtain ⟨rfl, rfl⟩ := h
    exact ⟨[], by simp [hw], by simp⟩
  | cons p rest ih =>
    intro ph ph' w pins' hw h
    unfold Bridge.stepPins at h
    split at h
    · simp at h
    · next ph0 h0 =>
      split at h
      · simp at h
      · next t ht =>
        split at h
        · simp at h
        · next ph1 rest1 h1 =>
          simp at h
          obtain ⟨rfl, rfl⟩ := h
          obtain ⟨D0, hD0, hF0⟩ := Physics.HandlePinForce_kept hw h0
          obtain ⟨D, hD, hF⟩ := ih hD0 h1
          refine ⟨D0 ++ D, by simp [hD, List.append_assoc], ?_⟩
          intro d hd
          rcases List.mem_append.mp hd with hd | hd
          · exact hF0 d hd
          · exact hF d hd

theorem Step_eq_some {b b' : Bridge} {f : Frame} (h : b.Step f = some b') :
    ∃ ph1 slabs1 ph2 pins2,
      Bridge.stepSlabs f b.running b.pins b.physics b.slabs = some (ph1, slabs1) ∧
      Bridge.stepPins f ph1 b.pins = some (ph2, pins2) ∧
      b' = { b with physics := ph2, slabs := slabs1, pins := pins2 } := by
  unfold Bridge.Step at h
  dsimp only [Physics.Step] at h
  split at h
  · simp at h
  · next ph1 slabs1 h1 =>
    split at h
    · simp at h
    · next ph2 pins2 h2 =>
      refine ⟨ph1, slabs1, ph2, pins2, h1, h2, ?_⟩
      split at h
      · simp at h
        obtain ⟨_, rfl⟩ := h
        rfl
      · simp at h
        exact h.symm

theorem Bridge.Live.afterStep {b b' : Bridge} {w : b2World} {f : Frame} (h : b.Live w)
    (hf : f.WellFormed) (hb : b.Step f = some b') : ∃ w', b'.Live w' := by
  obtain ⟨ph1, slabs1, ph2, pins2, h1, h2, rfl⟩ := Step_eq_some hb
  obtain ⟨D1, hD1, hF1, hrel, hp⟩ := stepSlabs_live b.slabs h.world h1
  obtain ⟨D2, hD2, hF2⟩ := stepPins_live b.pins hD1 h2
  obtain ⟨_, _, hbody, _⟩ := stepPins_spec h2
  refine ⟨_, { world := hD2, joints := ?_, bodies := ?_, apart := hp h.apart, pins := ?_,
               boxes := fun n k hk => h.boxes n k hk }⟩
  · intro s' hs' hP k hk
    obtain ⟨s, hs, e1, e2, e3⟩ := hrel s' hs'
    have hk' : s.PhysicBody = some k := by
      rcases e2 with e | e
      · rw [← e]; exact hk
      · rw [e] at hk; simp at hk
    have hlt := e3 (e1 ▸ hP) k hk
    have hj := h.joints s hs (e1 ▸ hP) k hk'
    have := isJoint_destroyed (D1 ++ D2) hj (fun hm => by
      rcases List.mem_append.mp hm with hm | hm
      · exact absurd (hF1 _ hm) (not_le.mpr hlt)
      · have h2 := hF2 _ hm
        have h0 := hf ⟨k.index, false⟩
        have hB : (0 : ℚ) ≤ BREAK_AT_FORCE := by unfold BREAK_AT_FORCE; norm_num
        nlinarith)
    simpa [List.append_assoc] using this
  · intro s' hs' hP k hk
    obtain ⟨s, hs, e1, e2, _⟩ := hrel s' hs'
    have hk' : s.PhysicBody = some k := by
      rcases e2 with e | e
      · rw [← e]; exact hk
      · rw [e] at hk; simp at hk
    exact h.bodies s hs (e1 ▸ hP) k hk'
  · intro p' hp' k hk
    have hm : some k ∈ pins2.map (fun p => p.PhysicBody) :=
      List.mem_map.mpr ⟨p', hp', hk⟩
    rw [hbody] at hm
    obtain ⟨p, hp, e⟩ := List.mem_map.mp hm
    exact h.pins p hp k e

/-! ## A step completes -/

theorem pinBody_isSome {pins : List Pin} {s : Slab} (ha : s.Attached pins.length) :
    (Bridge.pinBody pins s.Left).isNone = false ∧ (Bridge.pinBody pins s.Right).isNone = false := by
  obtain ⟨l, r, hl, hr, hl', hr'⟩ := Slab.attached_iff.mp ha
  simp [Bridge.pinBody, hl, hr, List.getElem?_eq_getElem hl', List.getElem?_eq_getElem hr']

theorem stepSlabs_total (f : Frame) (running : Bool) {pins : List Pin} (slabs : List Slab) :
    ∀ (ph : Physics) (w : b2World), ph.world = some w →
      (∀ s ∈ slabs, s.Attached pins.length) →
      (∀ s ∈ slabs, s.Purpose = .Support → ∀ h, s.PhysicBody = some h → w.isJoint h = true) →
      (∀ s ∈ slabs, s.Purpose = .Structure → ∀ h, s.PhysicBody = some h → w.isBody h = true) →
      slabs.Pairwise Slab.apart →
      ∃ r, Bridge.stepSlabs f running pins ph slabs = some r := by
  induction slabs with
  | nil => intro ph w _ _ _ _ _; exact ⟨_, rfl⟩
  | cons s rest ih =>
    intro ph w hw ha hj hb hp
    rw [List.pairwise_cons] at hp
    have ha' : ∀ t ∈ rest, t.Attached pins.length := fun t ht => ha t (List.mem_cons_of_mem _ ht)
    have hj' : ∀ t ∈ rest, t.Purpose = .Support → ∀ h, t.PhysicBody = some h →
        w.isJoint h = true := fun t ht => hj t (List.mem_cons_of_mem _ ht)
    have hb' : ∀ t ∈ rest, t.Purpose = .Structure → ∀ h, t.PhysicBody = some h →
        w.isBody h = true := fun t ht => hb t (List.mem_cons_of_mem _ ht)
    obtain ⟨n1, n2⟩ := pinBody_isSome (ha s (List.mem_cons_self _ _))
    unfold Bridge.stepSlabs
    cases hP : s.Purpose with
    | Structure =>
      obtain ⟨t, ht⟩ := Physics.GetTransform_world f s.PhysicBody s.Transform hw
        (hb s (List.mem_cons_self _ _) hP)
      obtain ⟨r, hr⟩ := ih ph w hw ha' hj' hb' hp.2
      simp [ht, hr]
    | Invalid =>
      obtain ⟨r, hr⟩ := ih ph w hw ha' hj' hb' hp.2
      simp [hr]
    | Support =>
      cases hh : s.PhysicBody with
      | none =>
        obtain ⟨r, hr⟩ := ih ph w hw ha' hj' hb' hp.2
        simp [Physics.HandleSupportForce, hr, n1, n2]
      | some k =>
        have hk := hj s (List.mem_cons_self _ _) hP k hh
        rw [Physics.HandleSupportForce_live f 0 BREAK_AT_FORCE hw hk]
        by_cases hge : f.Force ⟨k.index, false⟩ ≥ BREAK_AT_FORCE
        · obtain ⟨r, hr⟩ := ih
            { ph with world := some { w with destroyed := w.destroyed ++ [⟨k.index, false⟩] } }
            { w with destroyed := w.destroyed ++ [⟨k.index, false⟩] } rfl ha'
            (fun t ht hPt a hta => isJoint_destroyed _ (hj' t ht hPt a hta) (by
              simp only [List.mem_singleton, JointId.mk.injEq, and_true]
              exact fun e => hp.1 t ht k a hh hta e.symm))
            hb' hp.2
          simp [hge, hr, n1, n2]
        · obtain ⟨r, hr⟩ := ih ph w hw ha' hj' hb' hp.2
          simp [hge, hr, n1, n2]

theorem stepPins_total (f : Frame) (pins : List Pin) :
    ∀ (ph : Physics) (w : b2World), ph.world = some w →
      (∀ p ∈ pins, ∀ h, p.PhysicBody = some h → w.isBody h = true) →
      ∃ r, Bridge.stepPins f ph pins = some r := by
  induction pins with
  | nil => intro ph w _ _; exact ⟨_, rfl⟩
  | cons p rest ih =>
    intro ph w hw hb
    have hb' : ∀ q ∈ rest, ∀ h, q.PhysicBody = some h → w.isBody h = true :=
      fun q hq => hb q (List.mem_cons_of_mem _ hq)
    unfold Bridge.stepPins
    cases hh : p.PhysicBody with
    | none =>
      obtain ⟨r, hr⟩ := ih ph w hw hb'
      simp [Physics.HandlePinForce, Physics.GetTransform, hr]
    | some k =>
      have hk := hb p (List.mem_cons_self _ _) k hh
      cases hpf : ph.HandlePinForce f (some k) BREAK_AT_FORCE with
      | none => simp [Physics.HandlePinForce, hw, hk] at hpf
      | some ph0 =>
        obtain ⟨D, hD, _⟩ := Physics.HandlePinForce_kept hw hpf
        obtain ⟨r, hr⟩ := ih ph0 _ hD hb'
        obtain ⟨t, ht⟩ := Physics.GetTransform_world f (some k) p.Transform hD
          (fun a e => by
            simp at e
            subst e
            exact hk)
        simp [ht, hr]

theorem stepBoxes_total (f : Frame) {ph : Physics} {w : b2World} {boxes : List (Option Handle)}
    (hw : ph.world = some w)
    (hb : ∀ (n : Nat) (h : Handle), boxes[n]? = some (some h) → w.isBody h = true) :
    ∀ n, n ≤ boxes.length → Bridge.stepBoxes f ph boxes n = some () := by
  intro n
  induction n with
  | zero => intro _; rfl
  | succ n ih =>
    intro hn
    have hlt : n < boxes.length := by omega
    unfold Bridge.stepBoxes
    rw [ih (by omega), List.getElem?_eq_getElem hlt]
    obtain ⟨t, ht⟩ := Physics.GetTransform_world f boxes[n] Positioning.new hw
      (fun h e => hb n h (by rw [List.getElem?_eq_getElem hlt, e]))
    simp [ht]

theorem Step_total {b : Bridge} {w : b2World} (hi : b.Inv) (hx : b.BoxInv) (h : b.Live w)
    (hr : b.running = true) (f : Frame) : ∃ b', b.Step f = some b' := by
  obtain ⟨⟨ph1, slabs1⟩, h1⟩ := stepSlabs_total f b.running b.slabs b.physics w h.world
    hi.attached h.joints h.bodies h.apart
  obtain ⟨D1, hD1, _⟩ := stepSlabs_live b.slabs h.world h1
  obtain ⟨⟨ph2, pins2⟩, h2⟩ := stepPins_total f b.pins ph1 _ hD1
    (fun p hp k hk => h.pins p hp k hk)
  obtain ⟨D2, hD2, _⟩ := stepPins_live b.pins hD1 h2
  have h3 := stepBoxes_total f hD2 (fun n k hk => h.boxes n k hk) b.boxCount.toNat (by
    have := (hx.count hr).2
    rw [hx.slots]
    simp only [MAX_BLOCKS] at this ⊢
    omega)
  unfold Bridge.Step
  dsimp only [Physics.Step]
  rw [h1]
  dsimp only
  rw [h2]
  dsimp only
  rw [if_pos hr, h3]
  exact ⟨_, rfl⟩

/-! ## The handles that `Start()` hands out -/

theorem createSlab_live {m : Libm} {pins : List Pin} {ph ph' : Physics} {w : b2World}
    {slab slab' : Slab} (hw : ph.world = some w) (hp : slab.Purpose ≠ .Invalid)
    (h : Bridge.createSlab m pins ph slab = some (ph', slab')) :
    ∃ req, ph'.world = some { w with requests := w.requests ++ [req] } ∧
      slab'.PhysicBody = some ⟨w.id, w.requests.length⟩ ∧
      ((slab'.Purpose = .Support ∧ ∃ l r, req = .AddSupport l r) ∨
        (slab'.Purpose = .Structure ∧ ∃ l r, req = .AddStructure l r)) := by
  unfold Bridge.createSlab at h
  split at h
  · simp at h
  · next t ht =>
    have hP : t.Purpose = slab.Purpose := (Slab.initialise_eq_some ht).2.2.2.1
    split at h
    · next hS =>
      split at h
      · next l r _ _ =>
        unfold Physics.AddStructure at h
        rw [hw] at h
        split at h
        · next w' l' r' e1 e2 e3 =>
          simp at e1
          subst e1
          split at h
          · simp at h
            obtain ⟨rfl, rfl⟩ := h
            exact ⟨.AddStructure l' r', rfl, rfl, Or.inr ⟨hS, _, _, rfl⟩⟩
          · simp at h
        · simp at h
      · simp at h
    · next hS =>
      split at h
      · next l r _ _ =>
        unfold Physics.AddSupport at h
        rw [hw] at h
        split at h
        · next w' l' r' e1 e2 e3 =>
          simp at e1
          subst e1
          split at h
          · simp at h
            obtain ⟨rfl, rfl⟩ := h
            exact ⟨.AddSupport l' r', rfl, rfl, Or.inl ⟨hS, _, _, rfl⟩⟩
          · simp at h
        · simp at h
      · simp at h
    · next hS => exact absurd (hP ▸ hS) hp

theorem createSlabs_live {m : Libm} {pins : List Pin} (slabs : List Slab) :
    ∀ {ph ph' : Physics} {w : b2World} {slabs' : List Slab}, ph.world = some w →
      (∀ s ∈ slabs, s.Purpose ≠ .Invalid) →
      Bridge.createSlabs m pins ph slabs = some (ph', slabs') →
      ∃ links, ph'.world = some { w with requests := w.requests ++ links } ∧
        (∀ s ∈ slabs', ∃ h, s.PhysicBody = some h ∧ h.world = w.id ∧
          w.requests.length ≤ h.index ∧
          ((s.Purpose = .Support ∧
              ∃ l r, (w.requests ++ links)[h.index]? = some (.AddSupport l r)) ∨
            (s.Purpose = .Structure ∧
              ∃ l r, (w.requests ++ links)[h.index]? = some (.AddStructure l r)))) ∧
        slabs'.Pairwise Slab.apart := by
  induction slabs with
  | nil =>
    intro ph ph' w slabs' hw _ h
    simp [Bridge.createSlabs] at h
    obtain ⟨rfl, rfl⟩ := h
    exact ⟨[], by simp [hw], by simp, List.Pairwise.nil⟩
  | cons s rest ih =>
    intro ph ph' w slabs' hw hp h
    unfold Bridge.createSlabs at h
    split at h
    · simp at h
    · next ph1 s1 h1 =>
      split at h
      · simp at h
      · next ph2 rest2 h2 =>
        simp at h
        obtain ⟨rfl, rfl⟩ := h
        obtain ⟨req, hw1, hb1, hk1⟩ := createSlab_live hw (hp s (List.mem_cons_self _ _)) h1
        obtain ⟨links, hw2, hrest, hpair⟩ := ih hw1
          (fun t ht => hp t (List.mem_cons_of_mem _ ht)) h2
        have hrest' : ∀ t ∈ rest2, ∃ h, t.PhysicBody = some h ∧ h.world = w.id ∧
            w.requests.length + 1 ≤ h.index ∧
            ((t.Purpose = .Support ∧
                ∃ l r, (w.requests ++ req :: links)[h.index]? = some (.AddSupport l r)) ∨
              (t.Purpose = .Structure ∧
                ∃ l r, (w.requests ++ req :: links)[h.index]? = some (.AddStructure l r))) := by
          intro t ht
          obtain ⟨k, e1, e2, e3, e4⟩ := hrest t ht
          refine ⟨k, e1, e2, by simpa using e3, ?_⟩
          simpa [List.append_assoc] using e4
        refine ⟨req :: links, by simp [hw2, List.append_assoc], ?_, ?_⟩
        · intro t ht
          rcases List.mem_cons.mp ht with rfl | ht
          · refine ⟨_, hb1, rfl, le_refl _, ?_⟩
            have e : (w.requests ++ req :: links)[w.requests.length]? = some req := by
              rw [List.getElem?_append_right (le_refl _)]
              simp
            rcases hk1 with ⟨p1, l, r, rfl⟩ | ⟨p1, l, r, rfl⟩
            · exact Or.inl ⟨p1, l, r, e⟩
            · exact Or.inr ⟨p1, l, r, e⟩
          · obtain ⟨k, e1, e2, e3, e4⟩ := hrest' t ht
            exact ⟨k, e1, e2, by omega, e4⟩
        · rw [List.pairwise_cons]
          refine ⟨fun t ht a k ha hk => ?_, hpair⟩
          obtain ⟨k', e1, _, e3, _⟩ := hrest' t ht
          rw [hb1] at ha
          rw [e1] at hk
          simp at ha hk
          subst ha hk
          simp only
          omega

theorem createSimulation_live {m : Libm} {b b' : Bridge}
    (hp : ∀ s ∈ b.slabs, s.Purpose ≠ .Invalid) (hx : ∀ x ∈ b.boxes, x = none)
    (h : b.createSimulation m = some b') : ∃ w, b'.Live w := by
  obtain ⟨pins', h1, h2, h3⟩ := createPins_spec b.pins b.physics.Create.1
    { id := b.physics.created, requests := [], destroyed := [] } rfl
  unfold Bridge.createSimulation at h
  dsimp only at h
  rw [h1] at h
  dsimp only at h
  split at h
  · simp at h
  · next ph2 slabs2 hs =>
    simp at h
    subst h
    obtain ⟨links, hw, hslab, hpair⟩ := createSlabs_live b.slabs rfl hp hs
    refine ⟨_, { world := hw, joints := ?_, bodies := ?_, apart := hpair, pins := ?_,
                 boxes := ?_ }⟩
    · intro s hs' hP k hk
      obtain ⟨k', e1, e2, _, e4⟩ := hslab s hs'
      rw [e1] at hk
      simp at hk
      subst hk
      rcases e4 with ⟨_, l, r, e⟩ | ⟨p, _⟩
      · simp only [b2World.isJoint, e2, e]
        simp
      · rw [hP] at p
        simp at p
    · intro s hs' hP k hk
      obtain ⟨k', e1, e2, _, e4⟩ := hslab s hs'
      rw [e1] at hk
      simp at hk
      subst hk
      rcases e4 with ⟨p, _⟩ | ⟨_, l, r, e⟩
      · rw [hP] at p
        simp at p
      · simp only [b2World.isBody, e2, e]
        simp
    · intro p hp' k hk
      obtain ⟨i, hi⟩ := List.mem_iff_getElem?.mp hp'
      have hlt : i < b.pins.length := by
        rw [← h2]
        exact (List.getElem?_eq_some.mp hi).1
      have e := h3 i b.pins[i] (List.getElem?_eq_getElem hlt)
      rw [e] at hi
      simp at hi
      subst hi
      simp at hk
      subst hk
      apply isBody_append
      simp [b2World.isBody, List.getElem?_eq_getElem hlt, Pin.request]
    · intro n k hk
      have := hx (some k) (List.getElem?_mem hk)
      simp at this

theorem Start_live {m : Libm} {b b' : Bridge} (hi : b.Inv) (h : b.Start m = some b') :
    ∃ w, b'.Live w := by
  have g := Stop_graph b
  simp only [Bridge.graph, Prod.mk.injEq] at g
  refine createSimulation_live (purpose_of_edges g.2 hi.purpose) ?_ h
  intro x hx
  simp only [Bridge.Stop] at hx
  exact (List.mem_replicate.mp hx).2

/-! ## Touches while the simulation runs -/

theorem addPin_appends (b : Bridge) (X Y : ℚ) :
    ∃ ps, (b.addPin X Y).1.pins = b.pins ++ ps ∧ ∀ p ∈ ps, p.PhysicBody = none := by
  obtain ⟨ps, he, hp⟩ := addPin_eq b X Y
  refine ⟨ps, by rw [he], fun p hm => ?_⟩
  rw [hp p hm]
  rfl

theorem addSlab_appends {m : Libm} {b b' : Bridge} {X1 Y1 X2 Y2 : ℚ} {P : Slab_Purpose}
    {r : Option Nat} (h : Bridge.addSlab m b X1 Y1 X2 Y2 P = some (b', r)) :
    ∃ ps ss, b'.pins = b.pins ++ ps ∧ b'.slabs = b.slabs ++ ss ∧
      (∀ p ∈ ps, p.PhysicBody = none) ∧ ∀ s ∈ ss, s.PhysicBody = none := by
  obtain ⟨ps1, e1, n1⟩ := addPin_appends b X1 Y1
  obtain ⟨ps2, e2, n2⟩ := addPin_appends (b.addPin X1 Y1).1 X2 Y2
  have hs : ((b.addPin X1 Y1).1.addPin X2 Y2).1.slabs = b.slabs := by
    rw [(addPin_fields _ X2 Y2).1, (addPin_fields b X1 Y1).1]
  have hn : ∀ p ∈ ps1 ++ ps2, p.PhysicBody = none := fun p hm => by
    rcases List.mem_append.mp hm with hm | hm
    · exact n1 p hm
    · exact n2 p hm
  by_cases hP : P = .Invalid
  · subst hP
    simp [Bridge.addSlab] at h
    rw [← h.1]
    exact ⟨ps1 ++ ps2, [], by rw [e2, e1, List.append_assoc], by simp [hs], hn, by simp⟩
  · obtain ⟨slab, hs', _, _, _, h6, _⟩ := addSlab_spec m b X1 Y1 X2 Y2 hP
    rw [hs'] at h
    simp at h
    rw [← h.1]
    refine ⟨ps1 ++ ps2, [slab], ?_, ?_, hn, by simpa using h6⟩
    · show ((b.addPin X1 Y1).1.addPin X2 Y2).1.pins = _
      rw [e2, e1, List.append_assoc]
    · show ((b.addPin X1 Y1).1.addPin X2 Y2).1.slabs ++ [slab] = _
      rw [hs]

theorem HandleTouch_edit_appends {m : Libm} {b b' : Bridge} {X Y : ℚ}
    (hm : b.editMode ≠ .Car) (hb : b.HandleTouch m X Y = some b') :
    ∃ ps ss, b'.pins = b.pins ++ ps ∧ b'.slabs = b.slabs ++ ss ∧
      (∀ p ∈ ps, p.PhysicBody = none) ∧ ∀ s ∈ ss, s.PhysicBody = none := by
  rw [HandleTouch_edit hm] at hb
  split at hb
  · simp at hb
    subst hb
    exact ⟨[], [], by simp, by simp, by simp, by simp⟩
  · next start hs =>
    obtain ⟨ps1, e1, n1⟩ := addPin_appends b X Y
    have s1 : (b.addPin X Y).1.slabs = b.slabs := (addPin_fields b X Y).1
    split at hb
    · split at hb
      · next s p _ _ =>
        cases h1 : Bridge.addSlab m (b.addPin X Y).1 s.Transform.X s.Transform.Y
            p.Transform.X p.Transform.Y
            (if (b.addPin X Y).1.editMode = .Structure then .Structure else .Support) with
        | none => simp [h1] at hb
        | some res =>
          obtain ⟨b1, r⟩ := res
          simp [h1] at hb
          subst hb
          obtain ⟨ps2, ss, e2, e3, n2, n3⟩ := addSlab_appends h1
          refine ⟨ps1 ++ ps2, ss, ?_, ?_, ?_, n3⟩
          · show b1.pins = _
            rw [e2, e1, List.append_assoc]
          · show b1.slabs = _
            rw [e3, s1]
          · intro q hq
            rcases List.mem_append.mp hq with hq | hq
            · exact n1 q hq
            · exact n2 q hq
      · simp at hb
    · simp at hb
      subst hb
      exact ⟨ps1, [], e1, by simp [s1], n1, by simp⟩

theorem Bridge.Live.grown {b b' : Bridge} {w : b2World} (h : b.Live w) {ps : List Pin}
    {ss : List Slab} (hph : b'.physics = b.physics) (hx : b'.boxes = b.boxes)
    (hp : b'.pins = b.pins ++ ps) (hs : b'.slabs = b.slabs ++ ss)
    (np : ∀ p ∈ ps, p.PhysicBody = none) (ns : ∀ s ∈ ss, s.PhysicBody = none) :
    b'.Live w where
  world := by rw [hph]; exact h.world
  joints := fun s hm hP k hk => by
    rw [hs] at hm
    rcases List.mem_append.mp hm with hm | hm
    · exact h.joints s hm hP k hk
    · rw [ns s hm] at hk; simp at hk
  bodies := fun s hm hP k hk => by
    rw [hs] at hm
    rcases List.mem_append.mp hm with hm | hm
    · exact h.bodies s hm hP k hk
    · rw [ns s hm] at hk; simp at hk
  apart := by
    rw [hs, List.pairwise_append]
    refine ⟨h.apart, ?_, fun s _ t ht a k _ hk => ?_⟩
    · apply List.pairwise_of_forall_mem_list
      intro s hm t _ a k ha _
      rw [ns s hm] at ha
      simp at ha
    · rw [ns t ht] at hk
      simp at hk
  pins := fun p hm k hk => by
    rw [hp] at hm
    rcases List.mem_append.mp hm with hm | hm
    · exact h.pins p hm k hk
    · rw [np p hm] at hk; simp at hk
  boxes := fun n k hk => by
    rw [hx] at hk
    exact h.boxes n k hk

theorem Bridge.Live.withBox {b : Bridge} {w : b2World} (h : b.Live w) (X Y M : ℚ) (n : Nat) :
    Bridge.Live
      { b with physics := (b.physics.AddBox X Y M).1,
               boxes := b.boxes.set n (b.physics.AddBox X Y M).2,
               boxCount := b.boxCount + 1 }
      { w with requests := w.requests ++ [.AddBox X Y M] } := by
  have e1 : (b.physics.AddBox X Y M).1.world =
      some { w with requests := w.requests ++ [.AddBox X Y M] } := by
    simp [Physics.AddBox, h.world]
  have e2 : (b.physics.AddBox X Y M).2 = some ⟨w.id, w.requests.length⟩ := by
    simp [Physics.AddBox, h.world]
  exact {
    world := e1
    joints := fun s hm hP k hk => isJoint_append _ (h.joints s hm hP k hk)
    bodies := fun s hm hP k hk => isBody_append _ (h.bodies s hm hP k hk)
    apart := h.apart
    pins := fun p hm k hk => isBody_append _ (h.pins p hm k hk)
    boxes := fun i k hk => by
      have hm := List.getElem?_mem hk
      rcases List.mem_or_eq_of_mem_set hm with hm | hm
      · obtain ⟨j, hj⟩ := List.mem_iff_getElem?.mp hm
        exact isBody_append _ (h.boxes j k hj)
      · rw [e2] at hm
        simp at hm
        subst hm
        simp [b2World.isBody] }

theorem Bridge.Live.touched {m : Libm} {b b' : Bridge} {X Y : ℚ}
    (h : b.running = true → ∃ w, b.Live w) (hb : b.HandleTouch m X Y = some b')
    (hr : b'.running = true) : ∃ w, b'.Live w := by
  by_cases hc : b.editMode = .Car
  · rw [HandleTouch_car_eq hc] at hb
    split at hb
    · next hcond =>
      split at hb
      · simp at hb
        subst hb
        obtain ⟨w, hw⟩ := h hcond.1
        exact ⟨_, hw.withBox X Y 10 b.boxCount.toNat⟩
      · simp at hb
    · simp at hb
      subst hb
      exact h hr
  · obtain ⟨p, r, x, _⟩ := HandleTouch_edit_controls hc hb
    obtain ⟨ps, ss, e1, e2, n1, n2⟩ := HandleTouch_edit_appends hc hb
    obtain ⟨w, hw⟩ := h (r ▸ hr)
    exact ⟨w, hw.grown p x e1 e2 n1 n2⟩

/-! ## The handles in every reachable state -/

theorem Bridge.Live.carried {m : Libm} {b b' : Bridge} {op : Op} (hi : b.Inv)
    (h : b.running = true → ∃ w, b.Live w) (ho : op.physical)
    (hb : op.apply m b = some b') (hr : b'.running = true) : ∃ w, b'.Live w := by
  cases op with
  | Create =>
    cases hc : b.Create with
    | none => simp [Op.apply, hc] at hb
    | some res =>
      obtain ⟨b1, r⟩ := res
      simp [Op.apply, hc] at hb
      subst hb
      obtain ⟨_, _, _, r1, _, _⟩ := Create_controls hc
      rw [r1] at hr
      simp [Bridge.Destroy] at hr
  | Destroy =>
    simp [Op.apply] at hb
    subst hb
    simp [Bridge.Destroy] at hr
  | CreateTestBridge =>
    obtain ⟨_, _, _, r1, _, _⟩ := CreateTestBridge_controls hb
    rw [r1] at hr
    simp [Bridge.Destroy] at hr
  | Start => exact Start_live hi hb
  | Stop =>
    simp [Op.apply] at hb
    subst hb
    simp [Bridge.Stop] at hr
  | Step f =>
    obtain ⟨_, _, _, _, _, r, _⟩ := Step_spec hb
    obtain ⟨w, hw⟩ := h (r ▸ hr)
    exact hw.afterStep ho hb
  | SetEditMode e =>
    simp [Op.apply] at hb
    subst hb
    obtain ⟨w, hw⟩ := h hr
    exact ⟨w, { world := hw.world, joints := hw.joints, bodies := hw.bodies, apart := hw.apart,
                pins := hw.pins, boxes := hw.boxes }⟩
  | HandleTouch X Y => exact Bridge.Live.touched h hb hr

theorem ReachablePhysical.live {m : Libm} {b : Bridge} (h : ReachablePhysical m b) :
    b.running = true → ∃ w, b.Live w := by
  induction h with
  | create b₀ b r _ hc =>
    intro hr
    obtain ⟨_, _, _, r1, _, _⟩ := Create_controls hc
    rw [r1] at hr
    simp [Bridge.Destroy] at hr
  | step b b' op hreach ho ha ih => exact Bridge.Live.carried (ReachableVia.inv hreach) ih ho ha

/-! ## A run that breaks one support and keeps another -/

theorem Scenario.run_strain :
    run Libm.onAxis Scenario.strain Scenario.created = some Scenario.strained := by
  decide!

theorem Frame.strained_wellFormed : Frame.strained.WellFormed := by
  intro j
  simp only [Frame.strained]
  split <;> norm_num

theorem Scenario.strained_physical : ReachablePhysical Libm.onAxis Scenario.strained :=
  ReachableVia.runs_of _
    (.create Bridge.fresh Scenario.created true Scenario.fresh_constructed Scenario.create_fresh)
    (fun op hop c => by
      simp only [Scenario.strain, List.mem_cons, List.mem_singleton, List.not_mem_nil,
        or_false] at hop
      rcases hop with rfl | rfl | rfl | rfl | rfl | rfl | rfl
      all_goals first
        | exact trivial
        | exact Frame.strained_wellFormed)
    Scenario.run_strain

/-! ## The claims -/

/-- C1 (as amended). For every bridge state and every point: if the CURRENT
position of some pin is within the snap tolerance of the point, `addPin` returns a
pin of the list that is within the tolerance and leaves the bridge unchanged;
otherwise it appends exactly one pin, with `Fixed` false, a null handle and rest
and current pose `(X, Y, 0)`, and returns it.  In every reachable state in which
`running` is false the test on the current position is the test on the rest
position. -/
theorem addPin_snaps_on_current (m : Libm) (b : Bridge) (X Y : ℚ) :
    ((∃ p ∈ b.pins, p.isAt X Y (1 / 2) = true) →
        ∃ i p, b.addPin X Y = (b, i) ∧ b.pins[i]? = some p ∧ p.isAt X Y (1 / 2) = true) ∧
      ((∀ p ∈ b.pins, p.isAt X Y (1 / 2) = false) →
        b.addPin X Y =
          ({ b with pins := b.pins ++
              [{ Transform := ⟨X, X, Y, Y, 0, 0⟩, Fixed := false, PhysicBody := none }] },
            b.pins.length)) ∧
      (Reachable m b → b.running = false →
        ∀ p ∈ b.pins, p.isAt X Y (1 / 2) = p.restIsAt X Y (1 / 2)) := by
  refine ⟨?_, ?_, ?_⟩
  · rintro ⟨p, hp, hat⟩
    rcases addPin_cases b X Y with ⟨i, hi, he⟩ | ⟨hn, _⟩
    · obtain ⟨⟨q, hq, hqat⟩, _⟩ := findPin_first hi
      exact ⟨i, q, he, hq, hqat⟩
    · rw [findPin_eq_none.mp hn p hp] at hat
      exact absurd hat (by simp)
  · intro hnone
    rcases addPin_cases b X Y with ⟨i, hi, _⟩ | ⟨_, he⟩
    · rw [findPin_eq_none.mpr hnone] at hi
      exact absurd hi (by simp)
    · exact he
  · intro hreach hr p hp
    exact Pin.isAt_of_atRest (((ReachableVia.inv hreach).atRest hr).1 p hp) X Y (1 / 2)

/-- C1 (as amended) at the bridge made by `Create()`: a touch a quarter unit above
the first seeded pin snaps onto it, a touch at the origin adds a fourth pin, and
the seeded pins are at rest. -/
theorem addPin_snaps_on_current_witness :
    Scenario.created.addPin (-20) (1 / 4) = (Scenario.created, 0) ∧
      (Scenario.created.addPin 0 0).2 = 3 ∧
      ∀ p ∈ Scenario.created.pins,
        p.isAt (-20) (1 / 4) (1 / 2) = p.restIsAt (-20) (1 / 4) (1 / 2) := by
  have h1 := (addPin_snaps_on_current Libm.onAxis Scenario.created (-20) (1 / 4)).1
    ⟨_, List.mem_cons_self _ _, by decide!⟩
  have h2 := (addPin_snaps_on_current Libm.onAxis Scenario.created 0 0).2.1 (by decide!)
  have h3 := (addPin_snaps_on_current Libm.onAxis Scenario.created (-20) (1 / 4)).2.2
    Scenario.created_editing.reachable rfl
  obtain ⟨i, p, he, _, _⟩ := h1
  refine ⟨by decide!, ?_, h3⟩
  rw [h2]
  rfl

/-- C1 fails as stated.  After `Create()`, taps at `(-20, 0)` and `(-19, 0)`,
`Start()` and one step in which the free pin swings to `(-20, -1)`, the bridge is
running, the REST position of the free pin is `(-19, 0)`, and `addPin(-19, 0)`
appends a fifth pin and returns it instead of returning the free pin. -/
theorem addPin_rest_counterexample :
    Reachable Libm.onAxis Scenario.hanging ∧ Scenario.hanging.running = true ∧
      Scenario.hanging.pins.length = 4 ∧
      (∃ p ∈ Scenario.hanging.pins, p.restIsAt (-19) 0 (1 / 2) = true) ∧
      (Scenario.hanging.addPin (-19) 0).1.pins =
        Scenario.hanging.pins ++ [Pin.new (-19) 0 false] ∧
      (Scenario.hanging.addPin (-19) 0).2 = 4 :=
  ⟨Scenario.hanging_reachable, rfl, rfl,
    ⟨{ Transform := ⟨-19, -20, 0, -1, 0, 0⟩, Fixed := false, PhysicBody := some ⟨0, 3⟩ },
      by decide!, by decide!⟩,
    by decide!, by decide!⟩

/-- C2. In a state reached with every Structure or Support touch handled while
`running` was false, with `running` false, Structure or Support mode and a start
pin `s`: a touch that `addPin` resolves to a pin `p` other than `s` succeeds, adds
no pin beyond what `addPin` added, appends exactly one slab whose left end is `s`
and whose right end is `p`, of purpose Structure in Structure mode and Support
otherwise, and leaves `startPin` null. -/
theorem second_tap_adds_slab (m : Libm) (b : Bridge) (X Y : ℚ) (s : Nat)
    (h : ReachableEditing m b) (hr : b.running = false) (hm : b.editMode ≠ .Car)
    (hs : b.startPin = some s) (hp : (b.addPin X Y).2 ≠ s) :
    ∃ slab, b.HandleTouch m X Y =
        some { (b.addPin X Y).1 with slabs := b.slabs ++ [slab], startPin := none } ∧
      slab.Left = some s ∧ slab.Right = some (b.addPin X Y).2 ∧
      slab.Purpose = (if b.editMode = .Structure then .Structure else .Support) := by
  have hi := ReachableVia.inv h
  have hcalm : Calm (b.addPin X Y).1.pins :=
    Calm.withPin ⟨(hi.atRest hr).1, h.separated⟩ X Y
  have hsl : s < (b.addPin X Y).1.pins.length :=
    lt_of_lt_of_le (hi.start s hs) (addPin_length_le b X Y)
  have hpl := addPin_lt b X Y
  have es := List.getElem?_eq_getElem hsl
  have ep := List.getElem?_eq_getElem hpl
  have a1 := addPin_of_findPin (findPin_self hcalm es)
  have a2 := addPin_of_findPin (findPin_self hcalm ep)
  have hP : (if (b.addPin X Y).1.editMode = Bridge_EditMode.Structure then Slab_Purpose.Structure
      else Slab_Purpose.Support) ≠ .Invalid := by
    split <;> simp
  obtain ⟨slab, hslab, l1, l2, l3, _, _⟩ := addSlab_spec m (b.addPin X Y).1
    ((b.addPin X Y).1.pins[s]).Transform.X ((b.addPin X Y).1.pins[s]).Transform.Y
    ((b.addPin X Y).1.pins[(b.addPin X Y).2]).Transform.X
    ((b.addPin X Y).1.pins[(b.addPin X Y).2]).Transform.Y hP
  rw [a1] at hslab l1 l2
  simp only at hslab l1 l2
  rw [a2] at hslab l2
  simp only at hslab l2
  refine ⟨slab, ?_, l1, l2, ?_⟩
  · rw [HandleTouch_edit hm, hs]
    simp only [ne_eq, hp, not_false_eq_true, if_true, es, ep, hslab, Option.map_some',
      (addPin_fields b X Y).1]
  · rw [l3, (addPin_fields b X Y).2.2.1]

/-- C2 at the bridge made by `Create()` and a tap at `(-20, 0)`, tapped at
`(-19, 0)`: the touch adds the pin and the Structure slab of `Scenario.built`. -/
theorem second_tap_adds_slab_witness :
    ∃ slab, Scenario.tapped.HandleTouch Libm.onAxis (-19) 0 =
        some { (Scenario.tapped.addPin (-19) 0).1 with
               slabs := Scenario.tapped.slabs ++ [slab], startPin := none } ∧
      slab.Left = some 0 ∧ slab.Right = some (Scenario.tapped.addPin (-19) 0).2 ∧
      slab.Purpose =
        (if Scenario.tapped.editMode = .Structure then .Structure else .Support) :=
  second_tap_adds_slab Libm.onAxis Scenario.tapped (-19) 0 0 Scenario.tapped_editing rfl
    (by decide) rfl (by decide!)

/-- C3 (as amended). In Structure or Support mode with a start pin `s`, a touch
that `addPin` resolves to `s` itself creates no slab and leaves `startPin` at `s`;
when `s` is a pin of the list, the touch changes nothing at all. -/
theorem second_tap_on_start_pin (m : Libm) (b : Bridge) (X Y : ℚ) (s : Nat)
    (hm : b.editMode ≠ .Car) (hs : b.startPin = some s) (hp : (b.addPin X Y).2 = s) :
    ∃ b', b.HandleTouch m X Y = some b' ∧ b'.slabs = b.slabs ∧ b'.startPin = some s ∧
      (s < b.pins.length → b' = b) := by
  refine ⟨(b.addPin X Y).1, ?_, (addPin_fields b X Y).1, ?_, fun hlt => ?_⟩
  · rw [HandleTouch_edit hm, hs]
    simp [hp]
  · rw [(addPin_fields b X Y).2.1, hs]
  · rcases addPin_cases b X Y with ⟨i, _, he⟩ | ⟨_, he⟩
    · rw [he]
    · rw [he] at hp
      simp at hp
      omega

/-- C3 (as amended) at the bridge made by `Create()` and a tap at `(-20, 0)`,
tapped again at `(-20, 0)`. -/
theorem second_tap_on_start_pin_witness :
    ∃ b', Scenario.tapped.HandleTouch Libm.onAxis (-20) 0 = some b' ∧
      b'.slabs = Scenario.tapped.slabs ∧ b'.startPin = some 0 ∧
      (0 < Scenario.tapped.pins.length → b' = Scenario.tapped) :=
  second_tap_on_start_pin Libm.onAxis Scenario.tapped (-20) 0 0 (by decide) rfl (by decide!)

/-- C3 fails as stated. After `Create()` and a tap at `(-20, 0)` the bridge is in
Structure mode with the first seeded pin as start pin; a second tap at `(-20, 0)`
resolves to that same pin, and afterwards `startPin` still is that pin, not null. -/
theorem second_tap_on_start_pin_counterexample :
    Reachable Libm.onAxis Scenario.tapped ∧
      Scenario.tapped.editMode = .Structure ∧ Scenario.tapped.startPin = some 0 ∧
      (Scenario.tapped.addPin (-20) 0).2 = 0 ∧
      (Scenario.tapped.HandleTouch Libm.onAxis (-20) 0).map (fun b => b.startPin) =
        some (some 0) :=
  ⟨Scenario.tapped_editing.reachable, rfl, rfl, by decide!, by decide!⟩

/-- C4. After `Stop()`, from any bridge state whatsoever, every pin and every slab
has its current pose equal to its rest pose (x, y and angle), `running` is false
and the count of debug objects is zero. -/
theorem Stop_resets (b : Bridge) :
    (∀ p ∈ b.Stop.pins, p.Transform.AtRest) ∧ (∀ s ∈ b.Stop.slabs, s.Transform.AtRest) ∧
      b.Stop.running = false ∧ b.Stop.boxCount = 0 := by
  refine ⟨fun p hp => ?_, fun s hs => ?_, rfl, rfl⟩
  · simp only [Bridge.Stop, List.mem_map] at hp
    obtain ⟨q, _, rfl⟩ := hp
    exact ⟨rfl, rfl, rfl⟩
  · simp only [Bridge.Stop, List.mem_map] at hs
    obtain ⟨t, _, rfl⟩ := hs
    exact ⟨rfl, rfl, rfl⟩

/-- C5. From every reachable state `Start()` succeeds and leaves `running` true.
The world it builds has served, in this order, one `AddPin` per pin in
insertion order, at the rest position of the pin and with its `Fixed` flag, and
then one `AddStructure` or `AddSupport` per slab, made with the handles held
afterwards by the left and right pin of the slab.  Pin number `i` holds the handle
of request number `i` of this very world, and no handle held by a pin before
`Start()` belongs to this world. -/
theorem Start_converts_in_order (m : Libm) (b : Bridge) (h : Reachable m b) :
    ∃ b' w, b.Start m = some b' ∧ b'.running = true ∧ b'.physics.world = some w ∧
      w.requests.map some =
        b.pins.map (fun p => some p.request) ++ b.slabs.map (linkRequest b'.pins) ∧
      b'.pins.length = b.pins.length ∧
      (∀ (i : Nat) (p : Pin), b'.pins[i]? = some p → p.PhysicBody = some ⟨w.id, i⟩) ∧
      (∀ p ∈ b.pins, ∀ k, p.PhysicBody = some k → k.world ≠ w.id) := by
  have hi := ReachableVia.inv h
  obtain ⟨b', w, h1, h2, h3, h4, _, h6, h7, h8, _⟩ := Start_spec m hi.attached hi.purpose
  simp only [Bridge.graph, Prod.mk.injEq] at h8
  refine ⟨b', w, h1, h2, h3, h6, length_eq_of_map_eq h8.1, h7, fun p hp k hk => ?_⟩
  have := hi.issued p hp k hk
  omega

/-- C5 at the bridge with four pins and one Structure slab: the world built by
`Start()` is `Scenario.world`. -/
theorem Start_converts_in_order_witness :
    ∃ b' w, Scenario.built.Start Libm.onAxis = some b' ∧ b'.running = true ∧
      b'.physics.world = some w ∧
      w.requests.map some =
        Scenario.built.pins.map (fun p => some p.request) ++
          Scenario.built.slabs.map (linkRequest b'.pins) ∧
      b'.pins.length = Scenario.built.pins.length ∧
      (∀ (i : Nat) (p : Pin), b'.pins[i]? = some p → p.PhysicBody = some ⟨w.id, i⟩) ∧
      (∀ p ∈ Scenario.built.pins, ∀ k, p.PhysicBody = some k → k.world ≠ w.id) :=
  Start_converts_in_order Libm.onAxis Scenario.built Scenario.built_editing.reachable

/-- C6. From every reachable state, `Start()`, any number of steps with whatever
frames, `Stop()`, any number of steps again and a second `Start()` all succeed
(as far as the steps do) and leave the edited graph as it was before the first
`Start()`: as many pins in the same order with the same rest pose and `Fixed`
flag, and as many slabs in the same order with the same purpose and the same left
and right pins. -/
theorem Start_Stop_Start_keeps_graph (m : Libm) (b : Bridge) (h : Reachable m b) :
    ∃ b1, b.Start m = some b1 ∧
      ∀ (fs : List Frame) (b2 : Bridge), run m (fs.map Op.Step) b1 = some b2 →
        ∀ (gs : List Frame) (b3 : Bridge), run m (gs.map Op.Step) b2.Stop = some b3 →
          ∃ b4, b3.Start m = some b4 ∧ b4.graph = b.graph := by
  have hi := ReachableVia.inv h
  obtain ⟨b1, _, h1, _, _, _, _, _, _, g1, _⟩ := Start_spec m hi.attached hi.purpose
  refine ⟨b1, h1, fun fs b2 h2 gs b3 h3 => ?_⟩
  have r1 : Reachable m b1 := .step b b1 .Start h trivial h1
  obtain ⟨g2, r2⟩ := run_steps fs h2
  have r2s : Reachable m b2.Stop := .step b2 b2.Stop .Stop (r2 r1) trivial rfl
  obtain ⟨g3, r3⟩ := run_steps gs h3
  have hi3 := ReachableVia.inv (r3 r2s)
  obtain ⟨b4, _, h4, _, _, _, _, _, _, g4, _⟩ := Start_spec m hi3.attached hi3.purpose
  exact ⟨b4, h4, by rw [g4, g3, Stop_graph, g2, g1]⟩

/-- C6 at the bridge with four pins and one slab, started, stepped once with the
frame in which the free pin swings down, stopped and started again. -/
theorem Start_Stop_Start_keeps_graph_witness :
    ∃ b4, run Libm.onAxis [.Start, .Step Frame.hanging, .Stop, .Start] Scenario.built =
        some b4 ∧ b4.graph = Scenario.built.graph := by
  obtain ⟨b1, h1, hrest⟩ := Start_Stop_Start_keeps_graph Libm.onAxis Scenario.built
    Scenario.built_editing.reachable
  have hrun := Scenario.run_hanging
  simp only [run, Op.apply, h1] at hrun
  have h2 : run Libm.onAxis ([Frame.hanging].map Op.Step) b1 = some Scenario.hanging := by
    simpa only [List.map, run, Op.apply] using hrun
  obtain ⟨b4, h4, g4⟩ := hrest [Frame.hanging] Scenario.hanging h2 [] Scenario.hanging.Stop rfl
  refine ⟨b4, ?_, g4⟩
  simp only [run, Op.apply, h1]
  revert hrun
  cases b1.Step Frame.hanging with
  | none => intro hrun; simp at hrun
  | some b2 =>
    intro hrun
    simp only [Option.some.injEq] at hrun
    subst hrun
    simpa using h4

/-- C7, evaluated at `Create(); Start(); Destroy()`: the state is reachable,
`running` is false, and the physics engine still holds the world that `Start()`
created. -/
theorem Destroy_leaves_world_running_false :
    ∃ b, run Libm.onAxis [.Create, .Start, .Destroy] Bridge.fresh = some b ∧
      Reachable Libm.onAxis b ∧ b.running = false ∧
      b.physics.world =
        some { id := 0
               requests := [.AddPin (-20) 0 true, .AddPin 20 0 true, .AddPin (-10) (-10) true]
               destroyed := [] } := by
  have h : run Libm.onAxis [.Create, .Start, .Destroy] Bridge.fresh =
      some { Scenario.created with
        pins := []
        physics :=
          { world := some
              { id := 0
                requests := [.AddPin (-20) 0 true, .AddPin 20 0 true, .AddPin (-10) (-10) true]
                destroyed := [] }
            created := 1 }
        boxCount := 0 } := by decide!
  exact ⟨_, h, Reachable.of_run Scenario.fresh_constructed h, rfl, rfl⟩

/-- C8. In every state reachable from `Create()` by public operations, with
whatever frames the engine reports to `Step`, if `running` is false then every pin
and every slab has its current pose equal to its rest pose. -/
theorem at_rest_when_not_running (m : Libm) (b : Bridge) (h : Reachable m b)
    (hr : b.running = false) :
    (∀ p ∈ b.pins, p.Transform.AtRest) ∧ ∀ s ∈ b.slabs, s.Transform.AtRest :=
  (ReachableVia.inv h).atRest hr

/-- C8 at the bridge that was built, simulated for a step in which a pin moved,
and stopped. -/
theorem at_rest_when_not_running_witness :
    Scenario.stopped.running = false ∧
      ((∀ p ∈ Scenario.stopped.pins, p.Transform.AtRest) ∧
        ∀ s ∈ Scenario.stopped.slabs, s.Transform.AtRest) :=
  ⟨rfl, at_rest_when_not_running Libm.onAxis Scenario.stopped Scenario.stopped_reachable rfl⟩

/-- C9, evaluated at `Destroy()` on the running bridge with one debug box: the pin
and slab lists are empty and `running` is false, but the world is still there and
the debug box is still counted and still held. -/
theorem Destroy_keeps_world_and_boxes :
    Reachable Libm.onAxis Scenario.boxed ∧
      Scenario.boxed.Destroy.1.pins = [] ∧ Scenario.boxed.Destroy.1.slabs = [] ∧
      Scenario.boxed.Destroy.1.running = false ∧
      Scenario.boxed.Destroy.1.physics.world = Scenario.boxed.physics.world ∧
      Scenario.boxed.Destroy.1.physics.world ≠ none ∧
      Scenario.boxed.Destroy.1.boxCount = 1 ∧
      Scenario.boxed.Destroy.1.boxes[0]? = some (some ⟨0, 3⟩) ∧
      Scenario.boxed.Stop.physics.world = none ∧ Scenario.boxed.Stop.boxCount = 0 :=
  ⟨Scenario.boxed_reachable, rfl, rfl, rfl, rfl, by decide, rfl, rfl, rfl, rfl⟩

/-- C10. In every state reachable from `Create()` by public operations, both ends
of every slab are non-null and are pins of the pin list of the bridge. -/
theorem slab_ends_are_pins (m : Libm) (b : Bridge) (h : Reachable m b) :
    ∀ s ∈ b.slabs, ∃ l r pl pr, s.Left = some l ∧ s.Right = some r ∧
      b.pins[l]? = some pl ∧ b.pins[r]? = some pr := by
  intro s hs
  obtain ⟨l, r, hl, hr, hl', hr'⟩ := Slab.attached_iff.mp ((ReachableVia.inv h).attached s hs)
  exact ⟨l, r, b.pins[l], b.pins[r], hl, hr, List.getElem?_eq_getElem hl',
    List.getElem?_eq_getElem hr'⟩

/-- C10 at the running bridge with one slab. -/
theorem slab_ends_are_pins_witness :
    Scenario.hanging.slabs.length = 1 ∧
      ∀ s ∈ Scenario.hanging.slabs, ∃ l r pl pr, s.Left = some l ∧ s.Right = some r ∧
        Scenario.hanging.pins[l]? = some pl ∧ Scenario.hanging.pins[r]? = some pr :=
  ⟨rfl, slab_ends_are_pins Libm.onAxis Scenario.hanging Scenario.hanging_reachable⟩

/-- C11. For every bridge state, all coordinates and every purpose among Support
and Structure, `addSlab` returns a non-null slab: the one slab it appends to the
end of the slab list, with the requested purpose, no physics handle, and as left
and right end the pins that `addPin` resolves for `(X1, Y1)` and then for
`(X2, Y2)`; it adds at most two pins.  When the two points coincide the two ends
are the same pin and the length is `sqrt 0`, which is zero for a math library
whose `sqrt 0` is zero. -/
theorem addSlab_appends_one_slab (m : Libm) (b : Bridge) (X1 Y1 X2 Y2 : ℚ) (P : Slab_Purpose)
    (hP : P = .Support ∨ P = .Structure) :
    ∃ b' slab, Bridge.addSlab m b X1 Y1 X2 Y2 P = some (b', some b.slabs.length) ∧
      b'.slabs = b.slabs ++ [slab] ∧ slab.Purpose = P ∧ slab.PhysicBody = none ∧
      slab.Left = some (b.addPin X1 Y1).2 ∧
      slab.Right = some ((b.addPin X1 Y1).1.addPin X2 Y2).2 ∧
      b'.pins = ((b.addPin X1 Y1).1.addPin X2 Y2).1.pins ∧
      b.pins.length ≤ b'.pins.length ∧ b'.pins.length ≤ b.pins.length + 2 ∧
      (X1 = X2 → Y1 = Y2 →
        slab.Left = slab.Right ∧ slab.Length = m.sqrt 0 ∧ (m.sqrt 0 = 0 → slab.Length = 0)) := by
  have hP' : P ≠ .Invalid := by rcases hP with h | h <;> simp [h]
  have hl := List.getElem?_eq_getElem
    (lt_of_lt_of_le (addPin_lt b X1 Y1) (addPin_length_le (b.addPin X1 Y1).1 X2 Y2))
  have hr := List.getElem?_eq_getElem (addPin_lt (b.addPin X1 Y1).1 X2 Y2)
  have he := addSlab_eq m b X1 Y1 X2 Y2 hP' hl hr
  refine ⟨_, _, he, rfl, rfl, rfl, rfl, rfl, rfl, ?_, ?_, ?_⟩
  · exact le_trans (addPin_length_le b X1 Y1) (addPin_length_le _ X2 Y2)
  · have h1 : (b.addPin X1 Y1).1.pins.length ≤ b.pins.length + 1 := by
      rcases addPin_cases b X1 Y1 with ⟨i, _, h⟩ | ⟨_, h⟩ <;> rw [h] <;> simp
    have h2 : ((b.addPin X1 Y1).1.addPin X2 Y2).1.pins.length ≤
        (b.addPin X1 Y1).1.pins.length + 1 := by
      rcases addPin_cases (b.addPin X1 Y1).1 X2 Y2 with ⟨i, _, h⟩ | ⟨_, h⟩ <;> rw [h] <;> simp
    show ((b.addPin X1 Y1).1.addPin X2 Y2).1.pins.length ≤ b.pins.length + 2
    omega
  · intro hx hy
    subst hx hy
    have key : ∀ (i j : Nat) (hi : i < ((b.addPin X1 Y1).1.addPin X1 Y1).1.pins.length)
        (hj : j < ((b.addPin X1 Y1).1.addPin X1 Y1).1.pins.length), i = j →
        m.sqrt
          (((((b.addPin X1 Y1).1.addPin X1 Y1).1.pins[j]).Transform.X -
              (((b.addPin X1 Y1).1.addPin X1 Y1).1.pins[i]).Transform.X) *
            ((((b.addPin X1 Y1).1.addPin X1 Y1).1.pins[j]).Transform.X -
              (((b.addPin X1 Y1).1.addPin X1 Y1).1.pins[i]).Transform.X) +
          ((((b.addPin X1 Y1).1.addPin X1 Y1).1.pins[j]).Transform.Y -
              (((b.addPin X1 Y1).1.addPin X1 Y1).1.pins[i]).Transform.Y) *
            ((((b.addPin X1 Y1).1.addPin X1 Y1).1.pins[j]).Transform.Y -
              (((b.addPin X1 Y1).1.addPin X1 Y1).1.pins[i]).Transform.Y)) = m.sqrt 0 := by
      intro i j hi hj hij
      subst hij
      simp
    have hsame : ((b.addPin X1 Y1).1.addPin X1 Y1).2 = (b.addPin X1 Y1).2 := by
      rw [addPin_twice]
    have hlen := key _ _
      (lt_of_lt_of_le (addPin_lt b X1 Y1) (addPin_length_le (b.addPin X1 Y1).1 X1 Y1))
      (addPin_lt (b.addPin X1 Y1).1 X1 Y1) hsame.symm
    refine ⟨?_, hlen, fun h0 => ?_⟩
    · show some (b.addPin X1 Y1).2 = some ((b.addPin X1 Y1).1.addPin X1 Y1).2
      rw [hsame]
    · exact hlen.trans h0

/-- C11 at the bridge made by `Create()`: a Support slab from the first seeded pin
to a new pin, and a Structure slab whose two ends coincide, of length zero. -/
theorem addSlab_appends_one_slab_witness :
    (∃ b' slab, Bridge.addSlab Libm.onAxis Scenario.created (-20) 0 (-19) 0 .Support =
        some (b', some 0) ∧ b'.slabs = [slab] ∧ slab.Purpose = .Support ∧
        slab.Left = some 0 ∧ slab.Right = some 3 ∧ b'.pins.length = 4) ∧
      ∃ b' slab, Bridge.addSlab Libm.onAxis Scenario.created 0 0 0 0 .Structure =
        some (b', some 0) ∧ b'.slabs = [slab] ∧ slab.Left = slab.Right ∧ slab.Length = 0 := by
  constructor
  · obtain ⟨b', slab, h1, h2, h3, _, h5, h6, h7, _⟩ :=
      addSlab_appends_one_slab Libm.onAxis Scenario.created (-20) 0 (-19) 0 .Support (Or.inl rfl)
    refine ⟨b', slab, h1, h2, h3, ?_, ?_, ?_⟩
    · rw [h5]; decide!
    · rw [h6]; decide!
    · rw [h7]; decide!
  · obtain ⟨b', slab, h1, h2, _, _, _, _, _, _, _, h10⟩ :=
      addSlab_appends_one_slab Libm.onAxis Scenario.created 0 0 0 0 .Structure (Or.inr rfl)
    obtain ⟨e1, _, e3⟩ := h10 rfl rfl
    exact ⟨b', slab, h1, h2, e1, e3 (by decide!)⟩

/-- C12. For every bridge state and every point, a second `addPin(X, Y)` right
after the first returns the pin the first call returned and changes nothing, so
the two calls together add at most one pin. -/
theorem addPin_is_idempotent (b : Bridge) (X Y : ℚ) :
    ((b.addPin X Y).1.addPin X Y).2 = (b.addPin X Y).2 ∧
      ((b.addPin X Y).1.addPin X Y).1 = (b.addPin X Y).1 ∧
      ((b.addPin X Y).1.addPin X Y).1.pins.length ≤ b.pins.length + 1 := by
  rw [addPin_twice]
  refine ⟨rfl, rfl, ?_⟩
  obtain ⟨ps, he, hps⟩ := addPin_eq b X Y
  rcases addPin_cases b X Y with ⟨i, _, h⟩ | ⟨_, h⟩
  · rw [h]; simp
  · rw [h]; simp

/-- C13. In Structure or Support mode with no start pin, a touch succeeds, adds no
pin and no slab and changes nothing but `startPin`, which becomes what `getPinAt`
finds: a pin of the list whose current position is within the snap tolerance of
the touch, or null when there is none, and then the whole bridge is unchanged. -/
theorem first_tap_selects (m : Libm) (b : Bridge) (X Y : ℚ) (hm : b.editMode ≠ .Car)
    (hs : b.startPin = none) :
    b.HandleTouch m X Y = some { b with startPin := b.getPinAt X Y (1 / 2) } ∧
      (∀ i, b.getPinAt X Y (1 / 2) = some i →
        ∃ p, b.pins[i]? = some p ∧ p.isAt X Y (1 / 2) = true) ∧
      ((∀ p ∈ b.pins, p.isAt X Y (1 / 2) = false) → b.HandleTouch m X Y = some b) := by
  have h : b.HandleTouch m X Y = some { b with startPin := b.getPinAt X Y (1 / 2) } := by
    rw [HandleTouch_edit hm, hs]
  refine ⟨h, fun i hi => (findPin_first hi).1, fun hnone => ?_⟩
  rw [h]
  have : b.getPinAt X Y (1 / 2) = none := findPin_eq_none.mpr hnone
  rw [this, ← hs]

/-- C13 at the bridge made by `Create()`: a tap a quarter unit above the first
seeded pin selects it. -/
theorem first_tap_selects_witness :
    Scenario.created.HandleTouch Libm.onAxis (-20) (1 / 4) =
        some { Scenario.created with startPin := Scenario.created.getPinAt (-20) (1 / 4) (1 / 2) } ∧
      Scenario.created.getPinAt (-20) (1 / 4) (1 / 2) = some 0 ∧
      Scenario.created.HandleTouch Libm.onAxis 0 0 = some Scenario.created :=
  ⟨(first_tap_selects Libm.onAxis Scenario.created (-20) (1 / 4) (by decide) rfl).1,
    by decide!,
    (first_tap_selects Libm.onAxis Scenario.created 0 0 (by decide) rfl).2.2 (by decide!)⟩

/-- C14. For a handle to a support joint that exists in the live world, a
threshold `M` and the force `f` the frame reports for the joint:
`HandleSupportForce` destroys the joint (and no other), nulls the handle and
reports `M` when `f ≥ M`; it leaves the world and the handle alone and reports `f`
when `f < M`.  With a null handle it returns at once: the engine, the handle and
the reported force are unchanged whatever the frame. -/
theorem HandleSupportForce_breaks (p : Physics) (w : b2World) (fr : Frame) (h : Handle)
    (R M : ℚ) (hw : p.world = some w) (hj : w.isJoint h = true) :
    (M ≤ fr.Force ⟨h.index, false⟩ →
        p.HandleSupportForce fr (some h) R M =
          some ({ p with
                  world := some { w with destroyed := w.destroyed ++ [⟨h.index, false⟩] } },
                none, M) ∧
        b2World.isJoint { w with destroyed := w.destroyed ++ [⟨h.index, false⟩] } h = false) ∧
      (fr.Force ⟨h.index, false⟩ < M →
        p.HandleSupportForce fr (some h) R M = some (p, some h, fr.Force ⟨h.index, false⟩)) ∧
      ∀ (q : Physics) (fr' : Frame) (R' M' : ℚ),
        q.HandleSupportForce fr' none R' M' = some (q, none, R') := by
  refine ⟨fun hf => ⟨?_, ?_⟩, fun hf => ?_, fun q fr' R' M' => ?_⟩
  · simp [Physics.HandleSupportForce, hw, hj, hf]
  · simp [b2World.isJoint]
  · simp [Physics.HandleSupportForce, hw, hj, not_le.mpr hf]
  · simp [Physics.HandleSupportForce]

/-- C14 at threshold 2.5 and force 3: the support of `Scenario.cable` is
destroyed, the handle becomes null and the reported force is 2.5; the next call,
with the null handle, changes nothing. -/
theorem HandleSupportForce_breaks_witness :
    Scenario.cable.HandleSupportForce Frame.overloaded (some ⟨0, 2⟩) 0 (5 / 2) =
        some ({ world := some
                  { id := 0
                    requests := [.AddPin (-20) 0 true, .AddPin (-19) 0 false,
                      .AddSupport ⟨0, 0⟩ ⟨0, 1⟩]
                    destroyed := [⟨2, false⟩] }
                created := 1 },
              none, 5 / 2) ∧
      ∀ (q : Physics) (fr' : Frame) (R' M' : ℚ),
        q.HandleSupportForce fr' none R' M' = some (q, none, R') :=
  ⟨((HandleSupportForce_breaks Scenario.cable _ Frame.overloaded ⟨0, 2⟩ 0 (5 / 2) rfl
      (by decide)).1 (by decide!)).1,
   (HandleSupportForce_breaks Scenario.cable _ Frame.overloaded ⟨0, 2⟩ 0 (5 / 2) rfl
      (by decide)).2.2⟩

/-- C15. From every prior bridge state and with any math library,
`CreateTestBridge()` succeeds and leaves `running` false and `startPin` null, with
exactly the eleven pins of `Scenario.testPins`, of which exactly the two at
`(-20, 0)` and `(20, 0)` are fixed and the other nine free, and nineteen slabs
with the edges of `Scenario.testEdges`: five Structure and fourteen Support. -/
theorem CreateTestBridge_layout (m : Libm) (b : Bridge) :
    ∃ b', b.CreateTestBridge m = some b' ∧ b'.running = false ∧ b'.startPin = none ∧
      b'.pins = Scenario.testPins ∧ b'.slabs.map Slab.edge = Scenario.testEdges ∧
      b'.pins.length = 11 ∧
      (b'.pins.filter fun p => p.Fixed).map Pin.restPosition = [(-20, 0), (20, 0)] ∧
      (b'.pins.filter fun p => !p.Fixed).length = 9 ∧
      b'.slabs.length = 19 ∧
      (b'.slabs.map fun s => s.Purpose).count .Structure = 5 ∧
      (b'.slabs.map fun s => s.Purpose).count .Support = 14 := by
  obtain ⟨b', c', hb, hc, hp, hs⟩ := CreateTestBridge_shape m Libm.onAxis b Bridge.fresh
  have he := Scenario.testBridge_fresh
  rw [hc] at he
  simp only [Option.map_some', Option.some.injEq, Prod.mk.injEq] at he
  obtain ⟨_, e2, _, e4, _, _⟩ := CreateTestBridge_controls hb
  have hpins : b'.pins = Scenario.testPins := hp.trans he.1
  have hedges : b'.slabs.map Slab.edge = Scenario.testEdges := hs.trans he.2
  have hpur : (b'.slabs.map fun s => s.Purpose) = Scenario.testEdges.map fun e => e.1 := by
    rw [← hedges]
    simp [Slab.edge, Function.comp_def]
  refine ⟨b', hb, e4, e2, hpins, hedges, ?_, ?_, ?_, ?_, ?_, ?_⟩
  · rw [hpins]; rfl
  · rw [hpins]; decide!
  · rw [hpins]; decide!
  · have := congrArg List.length hedges
    simpa [Scenario.testEdges] using this
  · rw [hpur]; decide
  · rw [hpur]; decide

/-- C16. For a slab whose two ends are pins of the list, `Recalculate()` succeeds
and, with `dx` and `dy` the differences of the current positions of the right and
the left pin: `Length` is `sqrt (dx * dx + dy * dy)`, so that it is non-negative
with square `dx ^ 2 + dy ^ 2` whenever the `sqrt` of the math library is exact on
that argument; the angle is `atan2 dy dx`; the position is the midpoint
`(Left.x + dx / 2, Left.y + dy / 2)`; rest and current pose of the transform both
hold these values; and `Left`, `Right`, `Purpose` and the physics handle are
unchanged. -/
theorem Recalculate_geometry (m : Libm) (pins : List Pin) (s : Slab) (l r : Nat) (L R : Pin)
    (dx dy : ℚ) (hl : s.Left = some l) (hr : s.Right = some r) (hL : pins[l]? = some L)
    (hR : pins[r]? = some R) (hdx : dx = R.Transform.X - L.Transform.X)
    (hdy : dy = R.Transform.Y - L.Transform.Y) :
    ∃ t, s.Recalculate m pins = some t ∧
      t.Length = m.sqrt (dx * dx + dy * dy) ∧
      ((0 ≤ m.sqrt (dx * dx + dy * dy) ∧
          m.sqrt (dx * dx + dy * dy) * m.sqrt (dx * dx + dy * dy) = dx * dx + dy * dy) →
        0 ≤ t.Length ∧ t.Length ^ 2 = dx ^ 2 + dy ^ 2) ∧
      t.Transform.pose = (L.Transform.X + dx / 2, L.Transform.Y + dy / 2, m.atan2 dy dx) ∧
      t.Transform.rest = (L.Transform.X + dx / 2, L.Transform.Y + dy / 2, m.atan2 dy dx) ∧
      t.Left = s.Left ∧ t.Right = s.Right ∧ t.Purpose = s.Purpose ∧
      t.PhysicBody = s.PhysicBody := by
  subst hdx hdy
  have he := Slab.initialise_eq m s s.PhysicBody hL hR
  rw [← hl, ← hr] at he
  refine ⟨_, he, rfl, ?_, rfl, rfl, rfl, rfl, rfl, rfl⟩
  · rintro ⟨h0, h1⟩
    refine ⟨h0, ?_⟩
    show m.sqrt _ ^ 2 = _
    rw [pow_two, h1]
    ring

/-- C16 at the slab of `Scenario.built`, from the pin at `(-20, 0)` to the pin at
`(-19, 0)`: length 1, angle 0, midpoint `(-39 / 2, 0)`. -/
theorem Recalculate_geometry_witness :
    ∃ t, Slab.Recalculate Libm.onAxis Scenario.built.pins
        { Purpose := .Structure, Left := some 0, Right := some 3,
          Transform := ⟨-39 / 2, -39 / 2, 0, 0, 0, 0⟩, PhysicBody := none, Length := 1 } =
          some t ∧
      0 ≤ t.Length ∧ t.Length ^ 2 = (1 : ℚ) ^ 2 + 0 ^ 2 ∧
      t.Transform.pose = (-20 + 1 / 2, 0 + 0 / 2, 0) := by
  obtain ⟨t, h1, _, h3, h4, _⟩ := Recalculate_geometry Libm.onAxis Scenario.built.pins
    { Purpose := .Structure, Left := some 0, Right := some 3,
      Transform := ⟨-39 / 2, -39 / 2, 0, 0, 0, 0⟩, PhysicBody := none, Length := 1 }
    0 3 { Transform := ⟨-20, -20, 0, 0, 0, 0⟩, Fixed := true, PhysicBody := none }
    { Transform := ⟨-19, -19, 0, 0, 0, 0⟩, Fixed := false, PhysicBody := none }
    1 0 rfl rfl (by decide!) (by decide!) (by decide!) (by decide!)
  exact ⟨t, h1, (h3 (by decide!)).1, (h3 (by decide!)).2, h4⟩

/-- C17. From every prior bridge state `Create()` succeeds and returns true; it
leaves `running` false, `startPin` null, Structure mode, no slab and exactly the
three seeded pins, at `(-20, 0)`, `(20, 0)` and `(-10, -10)` in this order, all
three fixed, at rest and without a physics handle.  The engine and the debug
boxes are as before. -/
theorem Create_seeds_three_pins (b : Bridge) :
    b.Create =
      some ({ b with slabs := [], pins := Scenario.seed, startPin := none,
                     editMode := .Structure, running := false }, true) := by
  have f1 : findPin 20 0 (1 / 2) [Pin.new (-20) 0 true] = none := by decide!
  have f2 : findPin (-10) (-10) (1 / 2) [Pin.new (-20) 0 true, Pin.new 20 0 true] = none := by
    decide!
  have h0 := addFixedPin_of_none (b := b.Destroy.1) (X := -20) (Y := 0) rfl
  have h1 := addFixedPin_of_none (X := 20) (Y := 0)
    (b := { b.Destroy.1 with pins := b.Destroy.1.pins ++ [Pin.new (-20) 0 true] }) f1
  have h2 := addFixedPin_of_none (X := -10) (Y := -10)
    (b := { b.Destroy.1 with
            pins := b.Destroy.1.pins ++ [Pin.new (-20) 0 true] ++ [Pin.new 20 0 true] }) f2
  unfold Bridge.Create
  simp only [h0, h1, h2, Option.map_some']
  rfl

/-- C18. In a reachable state in Car mode: while running with fewer than
`MAX_BLOCKS` (100) boxes the count `n` is a slot of the buffer, the world is live,
and the touch asks it for one box at `(X, Y)`, stores the non-null handle it
returns in slot `n`, raises the count to `n + 1` and changes nothing else;
otherwise (not running, or the count not below 100) the touch changes nothing.
In every reachable state that is running the count is between 0 and 100 and the
buffer has its 100 slots. -/
theorem car_touch_adds_box (m : Libm) (b : Bridge) (X Y : ℚ) (h : Reachable m b)
    (hc : b.editMode = .Car) :
    (b.running = true → b.boxCount < MAX_BLOCKS →
        ∃ (w : b2World) (n : Nat), b.physics.world = some w ∧ b.boxCount = n ∧
          n < b.boxes.length ∧
          b.HandleTouch m X Y =
            some { b with
              physics := { b.physics with
                world := some { w with requests := w.requests ++ [.AddBox X Y 10] } }
              boxes := b.boxes.set n (some ⟨w.id, w.requests.length⟩)
              boxCount := n + 1 } ∧
          (b.boxes.set n (some ⟨w.id, w.requests.length⟩))[n]? =
            some (some ⟨w.id, w.requests.length⟩)) ∧
      (¬ (b.running = true ∧ b.boxCount < MAX_BLOCKS) → b.HandleTouch m X Y = some b) ∧
      (b.running = true →
        0 ≤ b.boxCount ∧ b.boxCount ≤ MAX_BLOCKS ∧ b.boxes.length = MAX_BLOCKS) := by
  have hbox := Reachable.boxes h
  refine ⟨fun hr hlt => ?_, fun hn => ?_, fun hr => ⟨(hbox.count hr).1, (hbox.count hr).2,
    hbox.slots⟩⟩
  · obtain ⟨h0, _⟩ := hbox.count hr
    cases hw : b.physics.world with
    | none => exact absurd hw (hbox.live hr)
    | some w =>
      have hn : b.boxCount = (b.boxCount.toNat : Int) := (Int.toNat_of_nonneg h0).symm
      have hlen : b.boxCount.toNat < b.boxes.length := by
        rw [hbox.slots]
        omega
      refine ⟨w, b.boxCount.toNat, rfl, hn, hlen, ?_, ?_⟩
      · rw [HandleTouch_car_eq hc, if_pos ⟨hr, hlt⟩, if_pos h0]
        simp only [Physics.AddBox, hw]
        rw [← hn]
      · rw [List.getElem?_set]
        simp [hlen]
  · rw [HandleTouch_car_eq hc, if_neg]
    simpa using hn

/-- C18 at the running bridge in Car mode that holds one box: a touch at `(3, 4)`
stores a second handle in slot 1 and raises the count to 2. -/
theorem car_touch_adds_box_witness :
    Scenario.boxed.running = true ∧ Scenario.boxed.boxCount = 1 ∧
      (∃ b', Scenario.boxed.HandleTouch Libm.onAxis 3 4 = some b' ∧ b'.boxCount = 2 ∧
        b'.boxes[1]? = some (some ⟨0, 4⟩)) ∧
      (Scenario.stopped.SetEditMode .Car).HandleTouch Libm.onAxis 3 4 =
        some (Scenario.stopped.SetEditMode .Car) := by
  obtain ⟨w, n, hw, hn, _, ht, hs⟩ :=
    (car_touch_adds_box Libm.onAxis Scenario.boxed 3 4 Scenario.boxed_reachable rfl).1 rfl
      (by decide)
  have hr : Reachable Libm.onAxis (Scenario.stopped.SetEditMode .Car) :=
    .step Scenario.stopped _ (.SetEditMode .Car) Scenario.stopped_reachable trivial rfl
  refine ⟨rfl, rfl, ⟨_, ht, ?_, ?_⟩,
    (car_touch_adds_box Libm.onAxis _ 3 4 hr rfl).2.1 (by decide)⟩
  · have : (1 : Int) = n := hn
    show (n : Int) + 1 = 2
    omega
  · have h1 : n = 1 := by
      have : (1 : Int) = n := hn
      omega
    have h2 : w = { id := 0
                    requests := [.AddPin (-20) 0 true, .AddPin 20 0 true,
                      .AddPin (-10) (-10) true, .AddBox 0 0 10]
                    destroyed := [] } := by
      have : Scenario.boxed.physics.world = some w := hw
      simp [Scenario.boxed] at this
      exact this.symm
    subst h1 h2
    exact hs

/-- C19 (as amended). From every bridge state `Stop()` leaves the physics handle
of every pin and every slab exactly as it was, and leaves the engine without a
world; without a world `GetTransform`, `HandleSupportForce` and `HandlePinForce`
return at once on any handle, whatever the frame. -/
theorem Stop_keeps_handles (b : Bridge) :
    b.Stop.pins.map (fun p => p.PhysicBody) = b.pins.map (fun p => p.PhysicBody) ∧
      b.Stop.slabs.map (fun s => s.PhysicBody) = b.slabs.map (fun s => s.PhysicBody) ∧
      b.Stop.physics.world = none ∧
      ∀ (fr : Frame) (h : Option Handle) (t : Positioning) (R M : ℚ),
        b.Stop.physics.GetTransform fr h t = some t ∧
        b.Stop.physics.HandleSupportForce fr h R M = some (b.Stop.physics, h, R) ∧
        b.Stop.physics.HandlePinForce fr h M = some b.Stop.physics := by
  refine ⟨by simp [Bridge.Stop, Function.comp_def], by simp [Bridge.Stop, Function.comp_def],
    rfl, fun fr h t R M => ?_⟩
  have hw : b.Stop.physics.world = none := rfl
  cases h with
  | none => simp [Physics.GetTransform, Physics.HandleSupportForce, Physics.HandlePinForce]
  | some k =>
    simp [Physics.GetTransform, Physics.HandleSupportForce, Physics.HandlePinForce, hw]

/-- C19 fails as stated.  After `Create()`, two taps, `Start()`, one step and
`Stop()` the bridge is not running and has no world, and every pin and the slab
still hold the handles they were given by `Start()`. -/
theorem Stop_keeps_handles_counterexample :
    Reachable Libm.onAxis Scenario.hanging ∧ Scenario.hanging.Stop = Scenario.stopped ∧
      Scenario.stopped.physics.world = none ∧
      Scenario.stopped.pins.map (fun p => p.PhysicBody) =
        [some ⟨0, 0⟩, some ⟨0, 1⟩, some ⟨0, 2⟩, some ⟨0, 3⟩] ∧
      Scenario.stopped.slabs.map (fun s => s.PhysicBody) = [some ⟨0, 4⟩] :=
  ⟨Scenario.hanging_reachable, Scenario.stop_hanging, rfl, rfl, rfl⟩

/-- C20. For every `Positioning`, pose `a` and finite sequence of poses `bs`: after
`Initialise(a)` the accessors return `a`; after the following `Set` calls they
return the last pose of `bs` (and `a` when `bs` is empty) while the rest pose is
still `a`; after a following `Reset()` they return `a` again; and `Reset()` twice
is `Reset()` once. -/
theorem Positioning_round_trip (t : Positioning) (a : Pose) (bs : List Pose) :
    (t.Initialise a.1 a.2.1 a.2.2).pose = a ∧
      ((t.Initialise a.1 a.2.1 a.2.2).Sets bs).pose = (bs.getLast?).getD a ∧
      ((t.Initialise a.1 a.2.1 a.2.2).Sets bs).rest = a ∧
      ((t.Initialise a.1 a.2.1 a.2.2).Sets bs).Reset.pose = a ∧
      t.Reset.Reset = t.Reset := by
  obtain ⟨h1, h2⟩ := Positioning.Sets_spec bs (t.Initialise a.1 a.2.1 a.2.2)
  have ha : (t.Initialise a.1 a.2.1 a.2.2).pose = a := rfl
  have hr : (t.Initialise a.1 a.2.1 a.2.2).rest = a := rfl
  refine ⟨ha, by rw [h2, ha], by rw [h1, hr], ?_, rfl⟩
  have : ∀ u : Positioning, u.Reset.pose = u.rest := fun _ => rfl
  rw [this, h1, hr]

/-- C21. For every pin list, point and accuracy, `getPinAt` returns pin number `i`
exactly when that pin has its CURRENT position within `A` of the point on both
axes (boundary included) and no earlier pin of the list has; it returns null
exactly when no pin has.  The region is a square, not a disc: a pin at the origin
is found from `(1/2, 1/2)` with accuracy `1/2`.  The function only reads the
bridge. -/
theorem getPinAt_first_in_square (b : Bridge) (X Y A : ℚ) :
    (∀ i, b.getPinAt X Y A = some i ↔
        ∃ p, b.pins[i]? = some p ∧
          (|p.Transform.xCurrent - X| ≤ A ∧ |p.Transform.yCurrent - Y| ≤ A) ∧
          ∀ j q, j < i → b.pins[j]? = some q →
            ¬ (|q.Transform.xCurrent - X| ≤ A ∧ |q.Transform.yCurrent - Y| ≤ A)) ∧
      (b.getPinAt X Y A = none ↔
        ∀ p ∈ b.pins, ¬ (|p.Transform.xCurrent - X| ≤ A ∧ |p.Transform.yCurrent - Y| ≤ A)) ∧
      findPin (1 / 2) (1 / 2) (1 / 2) [Pin.new 0 0 false] = some 0 := by
  refine ⟨fun i => ?_, ?_, by decide!⟩
  · unfold Bridge.getPinAt
    rw [findPin_eq_some_iff]
    constructor
    · rintro ⟨p, hp, hat, hmin⟩
      refine ⟨p, hp, (Pin.isAt_iff p X Y A).mp hat, fun j q hj hq hc => ?_⟩
      have := hmin j q hj hq
      rw [(Pin.isAt_iff q X Y A).mpr hc] at this
      exact absurd this (by simp)
    · rintro ⟨p, hp, hat, hmin⟩
      refine ⟨p, hp, (Pin.isAt_iff p X Y A).mpr hat, fun j q hj hq => ?_⟩
      cases hc : q.isAt X Y A with
      | false => rfl
      | true => exact absurd ((Pin.isAt_iff q X Y A).mp hc) (hmin j q hj hq)
  · unfold Bridge.getPinAt
    rw [findPin_eq_none]
    constructor
    · intro h p hp hc
      have := h p hp
      rw [(Pin.isAt_iff p X Y A).mpr hc] at this
      exact absurd this (by simp)
    · intro h p hp
      cases hc : p.isAt X Y A with
      | false => rfl
      | true => exact absurd ((Pin.isAt_iff p X Y A).mp hc) (h p hp)

/-- C22 (as amended). In every state reached with every Structure or Support touch
handled while `running` was false, any two distinct pins have rest positions
farther apart than the snap tolerance on at least one axis; and whenever `running`
is false, looking up the rest position of a pin resolves to that pin itself. -/
theorem pins_stay_apart (m : Libm) (b : Bridge) (h : ReachableEditing m b) :
    (∀ (i j : Nat) (p q : Pin), i ≠ j → b.pins[i]? = some p → b.pins[j]? = some q →
        1 / 2 < |p.Transform.xOriginal - q.Transform.xOriginal| ∨
          1 / 2 < |p.Transform.yOriginal - q.Transform.yOriginal|) ∧
      (b.running = false → ∀ (i : Nat) (p : Pin), b.pins[i]? = some p →
        b.getPinAt p.Transform.xOriginal p.Transform.yOriginal (1 / 2) = some i) := by
  have hsep := h.separated
  constructor
  · intro i j p q hij hp hq
    have hn : ¬ q.restNear p := by
      rcases Nat.lt_or_gt_of_ne hij with hlt | hgt
      · exact fun hc => separated_getElem hsep i j p q hlt hp hq (Pin.restNear_symm hc)
      · exact separated_getElem hsep j i q p hgt hq hp
    unfold Pin.restNear fabs at hn
    by_contra hc
    rw [not_or, not_lt, not_lt] at hc
    exact hn hc
  · intro hr i p hp
    have hrest := ((ReachableVia.inv h).atRest hr).1
    have := findPin_self ⟨hrest, hsep⟩ hp
    obtain ⟨hx, hy, _⟩ := hrest p (List.getElem?_mem hp)
    simp only [Positioning.X, Positioning.Y, hx, hy] at this
    exact this

/-- C22 (as amended) at the bridge with the three seeded pins and the free pin at
`(-19, 0)`: the free pin and the first seeded pin are one unit apart, and looking
up `(-19, 0)` finds the free pin. -/
theorem pins_stay_apart_witness :
    ((1 : ℚ) / 2 < |(-19 : ℚ) - (-20)| ∨ (1 : ℚ) / 2 < |(0 : ℚ) - 0|) ∧
      Scenario.built.getPinAt (-19) 0 (1 / 2) = some 3 :=
  ⟨(pins_stay_apart Libm.onAxis Scenario.built Scenario.built_editing).1 3 0
      { Transform := ⟨-19, -19, 0, 0, 0, 0⟩, Fixed := false, PhysicBody := none }
      { Transform := ⟨-20, -20, 0, 0, 0, 0⟩, Fixed := true, PhysicBody := none }
      (by decide) (by decide!) (by decide!),
    (pins_stay_apart Libm.onAxis Scenario.built Scenario.built_editing).2 rfl 3
      { Transform := ⟨-19, -19, 0, 0, 0, 0⟩, Fixed := false, PhysicBody := none }
      (by decide!)⟩

/-- C22 fails as stated.  The running bridge `Scenario.hanging` is reached with
both taps handled before `Start()`; its free pin rests at `(-19, 0)` and has swung
to `(-20, -1)`, and looking up `(-19, 0)` finds no pin at all. -/
theorem pins_stay_apart_counterexample :
    ReachableEditing Libm.onAxis Scenario.hanging ∧ Scenario.hanging.running = true ∧
      Scenario.hanging.pins[3]? =
        some { Transform := ⟨-19, -20, 0, -1, 0, 0⟩, Fixed := false,
               PhysicBody := some ⟨0, 3⟩ } ∧
      Scenario.hanging.getPinAt (-19) 0 (1 / 2) = none :=
  ⟨Scenario.hanging_editing, rfl, by decide!, by decide!⟩

/-- C23. In every state reached from `Create()` by public operations whose `Step`s
read back reaction forces that are magnitudes (never negative, otherwise arbitrary),
while `running` is true: the engine holds a world, and every Support slab with a
non-null handle refers to a distance joint of that world that has not been
destroyed.  In particular every further `Step`, whatever it reads back, completes,
so none of its support force checks queries a joint that is gone; and after a
`Step` that reads magnitudes the bridge is again such a state. -/
theorem no_stale_joint_handle (m : Libm) (b : Bridge) (h : ReachablePhysical m b)
    (hr : b.running = true) :
    (∃ w, b.physics.world = some w ∧
        ∀ s ∈ b.slabs, s.Purpose = .Support → ∀ j, s.PhysicBody = some j →
          w.isJoint j = true) ∧
      ∀ f : Frame, ∃ b', b.Step f = some b' ∧
        (f.WellFormed → ReachablePhysical m b' ∧ b'.running = true) := by
  obtain ⟨w, hw⟩ := ReachablePhysical.live h hr
  refine ⟨⟨w, hw.world, hw.joints⟩, fun f => ?_⟩
  obtain ⟨b', hb⟩ := Step_total (ReachableVia.inv h) (Reachable.boxes h) hw hr f
  refine ⟨b', hb, fun hf => ⟨.step b b' (.Step f) h hf hb, ?_⟩⟩
  obtain ⟨_, _, _, _, _, r, _⟩ := Step_spec hb
  rw [r, hr]

/-- C23 at the running bridge `Scenario.strained`, reached by a step in which the
joint of the first support broke: the world has lost exactly that joint, the
handle of the second support is a joint that still exists, and a further step in
which every joint is overloaded completes. -/
theorem no_stale_joint_handle_witness :
    Scenario.strained.running = true ∧
      (∃ w, Scenario.strained.physics.world = some w ∧ w.destroyed = [⟨5, false⟩] ∧
        w.isJoint ⟨0, 6⟩ = true) ∧
      ∃ b', Scenario.strained.Step Frame.overloaded = some b' := by
  obtain ⟨⟨w, hw, hj⟩, hs⟩ :=
    no_stale_joint_handle Libm.onAxis Scenario.strained Scenario.strained_physical rfl
  refine ⟨rfl, ⟨w, hw, ?_, ?_⟩, ?_⟩
  · simp only [Scenario.strained, Option.some.injEq] at hw
    rw [← hw]
  · exact hj
      { Purpose := .Support, Left := some 1, Right := some 4,
        Transform := ⟨39 / 2, 39 / 2, 0, 0, 0, 0⟩, PhysicBody := some ⟨0, 6⟩, Length := 1 }
      (by simp [Scenario.strained]) rfl ⟨0, 6⟩ rfl
  · obtain ⟨b', hb, _⟩ := hs Frame.overloaded
    exact ⟨b', hb⟩

end BridgeBuilder
